import Mathlib

/-!
# Online budget-constrained allocation (`main.go`)

A shallow embedding of the two allocation engines of `main.go`
(`processPartialAllocation`, `processGPG`) and of the driver `ProcessNewArrival`.

Modelling conventions.

* `float64` is idealised by a linearly ordered field `K` (the theorems take `K = ℝ`), and
  `math.Exp` is a parameter `exp : K → K` (the theorems take `Real.exp`), so every definition
  is computable.
* The loop of `processPartialAllocation` branches on `Budget > 0` after
  `Budget -= bid * (Budget / bid)`, where rounding decides the branch.  For it there is a
  second embedding (`processPartialAllocationFl` and the definitions it uses) in which every
  arithmetic operation is followed by a rounding `rnd : K → K` (operation by operation, no
  fused multiply-add); with `rnd = id` it is the exact program, with `rnd = round64` it is
  the program over `float64`.  `round64` is the
  IEEE 754 binary64 rounding to nearest, ties to even, subnormal numbers included; overflow,
  infinities and NaN are not modelled, and `math.Exp` is taken to return the rounded
  exponential (`1` at `0`).
* A Go map `map[int]V` is a function `Int → Option V`; `none` means "not a key".  A `range`
  over a map visits its keys in an order the language does not fix: every function that
  ranges over a map takes that order as the explicit argument `order : List Int`.
* The map `allocations` that `processPartialAllocation` builds and returns is an association
  list with one entry per key (`mapSet` overwrites), so that its values can be summed.
* `map[int]*Advertiser` stores pointers.  `NewAdSystem` stores every record under its own
  `ID`, so different keys hold different records; the model stores the records by value and
  `AdSystem.WF` records that key and `ID` agree and that both maps have the same keys.
* Go's `int` (ids and the time counter) is `Int`; the counter grows by one per arrival and
  is taken not to reach `2^63`.
* The `for` loop of `processPartialAllocation` is run with fuel; `none` means that the fuel
  ran out.  In `processGPG`, `none` means a nil-pointer dereference (`a.advertisers[id]` for
  an `id` that is not a key).
-/

set_option linter.unusedSectionVars false

namespace BiddingSimulation

/-- `type AlgorithmType int`. -/
abbrev AlgorithmType := Int

/-- `PartialAllocation AlgorithmType = iota`. -/
def PartialAllocation : AlgorithmType := 0

/-- `GPG` is the second constant of the `iota` block. -/
def GPG : AlgorithmType := 1

/-- `type Advertiser struct`. -/
structure Advertiser (K : Type) where
  ID : Int
  InitialBudget : K
  Budget : K
  Y : K

/-- `type AdSystem struct`. -/
structure AdSystem (K : Type) where
  advertisers : Int → Option (Advertiser K)
  beta : K
  time : Int
  algorithmType : AlgorithmType
  availableI : Int → Option Bool

/-- The value of `ProcessNewArrival`, an `interface{}` holding a map, an `int` or `nil`. -/
inductive Result (K : Type) where
  | allocations (m : List (Int × K))
  | winner (id : Int)
  | null

section Model

variable {K : Type} [LinearOrderedField K]

/-- `bids[id]` : the bid stored under `id`, and `0` when `id` is not a key. -/
def bidAt (bids : Int → Option K) (id : Int) : K :=
  (bids id).getD 0

/-- `a.availableI[id]` : the flag stored under `id`, and `false` when `id` is not a key. -/
def availableAt (m : Int → Option Bool) (id : Int) : Bool :=
  (m id).getD false

/-- `m[k] = v` on the association list of `allocations`: overwrite the entry of `k` if there
is one, add an entry otherwise. -/
def mapSet : List (Int × K) → Int → K → List (Int × K)
  | [], k, v => [(k, v)]
  | (k', v') :: rest, k, v =>
    if k' = k then (k, v) :: rest else (k', v') :: mapSet rest k v

/-- `m[k]` on the association list of `allocations`, `0` when `k` is not a key. -/
def mapGet : List (Int × K) → Int → K
  | [], _ => 0
  | (k', v') :: rest, k => if k' = k then v' else mapGet rest k

/-- The keys of the association list of `allocations`. -/
def mapKeys (m : List (Int × K)) : List Int :=
  m.map Prod.fst

/-- The sum of all values of the association list of `allocations`. -/
def mapSum (m : List (Int × K)) : K :=
  (m.map Prod.snd).sum

/-- `calculateG` : `math.Exp(a.beta * float64(t-1))`. -/
def calculateG (exp : K → K) (a : AdSystem K) (t : Int) : K :=
  exp (a.beta * (((t - 1 : Int)) : K))

/-- `calculateGForY` : `math.Exp(a.beta * (y - 1))`. -/
def calculateGForY (exp : K → K) (a : AdSystem K) (y : K) : K :=
  exp (a.beta * (y - 1))

/-- Is `adv.Budget > 0` for the record stored under `id`? (`false` when `id` is not a key.) -/
def hasBudget (advertisers : Int → Option (Advertiser K)) (id : Int) : Bool :=
  match advertisers id with
  | some adv => decide (adv.Budget > 0)
  | none => false

/-- Lines 81-86: `for id, adv := range a.advertisers { if adv.Budget > 0 { append } }`, the
keys being visited in the order `order`. -/
def initialAvailable (a : AdSystem K) (order : List Int) : List Int :=
  order.filter (fun id => hasBudget a.advertisers id)

/-- Lines 96-106, the scan for the best advertiser: the accumulator is `(bestAdv, maxValue)`,
where `bestAdv` is `none` for `nil` and otherwise the key and the record it points to.  The
ids scanned are keys of `a.advertisers`, so the `none` branch is not taken. -/
def selectBest (a : AdSystem K) (bids : Int → Option K) (gt : K) :
    List Int → Option (Int × Advertiser K) × K → Option (Int × Advertiser K) × K
  | [], acc => acc
  | id :: rest, (bestAdv, maxValue) =>
    if bidAt bids id ≤ 0 then selectBest a bids gt rest (bestAdv, maxValue)
    else
      match a.advertisers id with
      | none => selectBest a bids gt rest (bestAdv, maxValue)
      | some adv =>
        let value := bidAt bids id * (1 - gt * adv.Y)
        if value > maxValue then selectBest a bids gt rest (some (id, adv), value)
        else selectBest a bids gt rest (bestAdv, maxValue)

/-- The variables of the main loop of `processPartialAllocation`. -/
structure PAState (K : Type) where
  sys : AdSystem K
  allocations : List (Int × K)
  delta : K
  available : List Int

/-- The loop condition `delta < 1 && len(available) > 0`. -/
def paGuard (s : PAState K) : Bool :=
  decide (s.delta < 1) && decide (s.available.length > 0)

/-- Lines 112-118: the allocation to `bestAdv`, found under the key `key`. -/
def paAllocate (bids : Int → Option K) (s : PAState K) (key : Int) (bestAdv : Advertiser K) :
    PAState K :=
  let deltaI := min (1 - s.delta) (bestAdv.Budget / bidAt bids bestAdv.ID)
  if deltaI > 0 then
    { sys := { s.sys with
        advertisers := Function.update s.sys.advertisers key
          (some { bestAdv with Budget := bestAdv.Budget - bidAt bids bestAdv.ID * deltaI }) }
      allocations := mapSet s.allocations bestAdv.ID deltaI
      delta := s.delta + deltaI
      available := s.available }
  else s

/-- Lines 120-127: keep the ids whose record still has `Budget > 0`. -/
def paRefresh (s : PAState K) : PAState K :=
  { s with available := s.available.filter (fun id => hasBudget s.sys.advertisers id) }

/-- One pass through the body of the main loop (lines 92-127); `none` is the `break` of
line 109. -/
def paBody (bids : Int → Option K) (gt : K) (s : PAState K) : Option (PAState K) :=
  match (selectBest s.sys bids gt s.available (none, -1)).1 with
  | none => none
  | some (key, bestAdv) => some (paRefresh (paAllocate bids s key bestAdv))

/-- The main loop (lines 91-128) with fuel: `none` when the fuel runs out before the loop
ends. -/
def paLoop (bids : Int → Option K) (gt : K) : Nat → PAState K → Option (PAState K)
  | 0, s => if paGuard s then none else some s
  | fuel + 1, s =>
    if paGuard s then
      match paBody bids gt s with
      | none => some s
      | some s' => paLoop bids gt fuel s'
    else some s

/-- `processPartialAllocation` : the state after the call and the returned map. -/
def processPartialAllocation (exp : K → K) (fuel : Nat) (a : AdSystem K) (order : List Int)
    (bids : Int → Option K) : Option (AdSystem K × List (Int × K)) :=
  let gt := calculateG exp a a.time
  match paLoop bids gt fuel
      { sys := a, allocations := [], delta := 0, available := initialAvailable a order } with
  | none => none
  | some s => some (s.sys, s.allocations)

/-- The variables of the scan of `processGPG`. -/
structure GPGState (K : Type) where
  availableI : Int → Option Bool
  maxValue : K
  bestAdvertiserID : Int

/-- Lines 139-155: the scan `for id := range a.availableI`, the keys being visited in the
order `order`; `none` is the nil dereference of `adv.Budget`. -/
def gpgScan (exp : K → K) (a : AdSystem K) (bids : Int → Option K) :
    List Int → GPGState K → Option (GPGState K)
  | [], st => some st
  | id :: rest, st =>
    if !availableAt st.availableI id || decide (bidAt bids id ≤ 0) then
      gpgScan exp a bids rest st
    else
      match a.advertisers id with
      | none => none
      | some adv =>
        if adv.Budget < bidAt bids id then
          gpgScan exp a bids rest
            { st with availableI := Function.update st.availableI id (some false) }
        else
          let value := bidAt bids id * (1 - calculateGForY exp a adv.Y)
          if value > st.maxValue then
            gpgScan exp a bids rest { st with maxValue := value, bestAdvertiserID := id }
          else gpgScan exp a bids rest st

/-- `processGPG` : the state after the call and the returned id (`-1` for "no match"). -/
def processGPG (exp : K → K) (a : AdSystem K) (order : List Int) (bids : Int → Option K) :
    Option (AdSystem K × Int) :=
  match gpgScan exp a bids order
      { availableI := a.availableI, maxValue := -1, bestAdvertiserID := -1 } with
  | none => none
  | some st =>
    if st.bestAdvertiserID ≠ -1 then
      match a.advertisers st.bestAdvertiserID with
      | none => none
      | some adv =>
        let adv' : Advertiser K :=
          { adv with Budget := adv.Budget - bidAt bids st.bestAdvertiserID }
        some ({ a with
                advertisers := Function.update a.advertisers st.bestAdvertiserID (some adv')
                availableI :=
                  if adv'.Budget < 1 / 100 then
                    Function.update st.availableI st.bestAdvertiserID (some false)
                  else st.availableI },
              st.bestAdvertiserID)
    else some ({ a with availableI := st.availableI }, st.bestAdvertiserID)

/-- `ProcessNewArrival` : advance the time, then run the selected engine. -/
def ProcessNewArrival (exp : K → K) (fuel : Nat) (a : AdSystem K) (order : List Int)
    (bids : Int → Option K) : Option (AdSystem K × Result K) :=
  let a1 : AdSystem K := { a with time := a.time + 1 }
  if a1.algorithmType = PartialAllocation then
    match processPartialAllocation exp fuel a1 order bids with
    | none => none
    | some (a2, m) => some (a2, Result.allocations m)
  else if a1.algorithmType = GPG then
    match processGPG exp a1 order bids with
    | none => none
    | some (a2, w) => some (a2, Result.winner w)
  else some (a1, Result.null)

/-- A sequence of arrivals, each with the order in which its `range` visits the keys. -/
def runArrivals (exp : K → K) (fuel : Nat) :
    AdSystem K → List (List Int × (Int → Option K)) → Option (AdSystem K)
  | a, [] => some a
  | a, (order, bids) :: rest =>
    match ProcessNewArrival exp fuel a order bids with
    | none => none
    | some (a', _) => runArrivals exp fuel a' rest

/-- A sequence of arrivals handled by `processGPG`, with the list of returned ids. -/
def runGPG (exp : K → K) :
    AdSystem K → List (List Int × (Int → Option K)) → Option (AdSystem K × List Int)
  | a, [] => some (a, [])
  | a, (order, bids) :: rest =>
    match processGPG exp a order bids with
    | none => none
    | some (a', w) =>
      match runGPG exp a' rest with
      | none => none
      | some (a'', ws) => some (a'', w :: ws)

/-- The states `NewAdSystem` builds and the engines preserve: every record is stored under
its own `ID`, and `advertisers` and `availableI` have the same keys. -/
def AdSystem.WF (a : AdSystem K) : Prop :=
  (∀ k adv, a.advertisers k = some adv → adv.ID = k) ∧
  (∀ k, (a.availableI k).isSome = (a.advertisers k).isSome)

/-- `order` is an enumeration of the keys of the map `m`: each key once, nothing else. -/
def Enumerates {V : Type} (order : List Int) (m : Int → Option V) : Prop :=
  order.Nodup ∧ ∀ k, k ∈ order ↔ (m k).isSome = true

/-- `adv.Budget` for the record under `id`, `0` when `id` is not a key. -/
def budgetAt (a : AdSystem K) (id : Int) : K :=
  match a.advertisers id with
  | some adv => adv.Budget
  | none => 0

/-- The loop of `NewAdSystem` (lines 38-42); `rand i` is the `i`-th value that
`rand.Float64()` delivers. -/
def newAdSystemLoop (rand : Nat → K) :
    Nat → List (Advertiser K) → (Int → Option (Advertiser K)) × (Int → Option Bool) →
      (Int → Option (Advertiser K)) × (Int → Option Bool)
  | _, [], maps => maps
  | i, adv :: rest, (advertiserMap, availableI) =>
    newAdSystemLoop rand (i + 1) rest
      (Function.update advertiserMap adv.ID (some { adv with Y := rand i }),
        Function.update availableI adv.ID (some true))

/-- `NewAdSystem` : every record gets a fresh sample `Y` and is stored under its `ID`, marked
available; the time starts at `0`. -/
def NewAdSystem (rand : Nat → K) (advertisers : List (Advertiser K)) (beta : K)
    (algType : AlgorithmType) : AdSystem K :=
  let maps := newAdSystemLoop rand 0 advertisers (fun _ => none, fun _ => none)
  { advertisers := maps.1
    beta := beta
    time := 0
    algorithmType := algType
    availableI := maps.2 }

/-- A bid map with the keys `1` and `2`. -/
def twoBids (b1 b2 : K) : Int → Option K :=
  fun k => if k = 1 then some b1 else if k = 2 then some b2 else none

/-- A bid map with the single key `1`. -/
def oneBid (b : K) : Int → Option K :=
  fun k => if k = 1 then some b else none

/-- The system `NewAdSystem` builds from the consumers `1` and `2` with budgets `B1`, `B2`
when the sampler delivers `y1` and then `y2`. -/
def twoConsumers (B1 B2 y1 y2 beta : K) (algType : AlgorithmType) : AdSystem K :=
  NewAdSystem (fun i => if i = 0 then y1 else y2)
    [{ ID := 1, InitialBudget := B1, Budget := B1, Y := 0 },
     { ID := 2, InitialBudget := B2, Budget := B2, Y := 0 }] beta algType

/-- The system `NewAdSystem` builds from the single consumer `1` with budget `B` when the
sampler delivers `y`. -/
def oneConsumer (B y beta : K) (algType : AlgorithmType) : AdSystem K :=
  NewAdSystem (fun _ => y) [{ ID := 1, InitialBudget := B, Budget := B, Y := 0 }] beta algType

/-- The value `bids[id] * (1 - g(Y))` that `processGPG` computes for the record under
`id` (`0` when `id` is not a key). -/
def gpgValue (exp : K → K) (a : AdSystem K) (bids : Int → Option K) (id : Int) : K :=
  match a.advertisers id with
  | some adv => bidAt bids id * (1 - calculateGForY exp a adv.Y)
  | none => 0

/-- A consumer `processGPG` may select: marked available in `avail`, bidding a positive
amount that its budget covers. -/
def gpgEligible (a : AdSystem K) (avail : Int → Option Bool) (bids : Int → Option K)
    (id : Int) : Prop :=
  availableAt avail id = true ∧ 0 < bidAt bids id ∧
    (a.advertisers id).isSome = true ∧ bidAt bids id ≤ budgetAt a id

/-- The rule `allocations[winner] += deltaI` of the specification (§4.3, step 3e) on the
association list: add to the entry of `k` if there is one, start from `0` otherwise. -/
def mapAdd : List (Int × K) → Int → K → List (Int × K)
  | [], k, v => [(k, 0 + v)]
  | (k', v') :: rest, k, v =>
    if k' = k then (k, v' + v) :: rest else (k', v') :: mapAdd rest k v

/-- The allocation step as specified: `paAllocate` with `allocations[winner] += deltaI` in
place of the assignment of line 115. -/
def paAllocateAccum (bids : Int → Option K) (s : PAState K) (key : Int)
    (bestAdv : Advertiser K) : PAState K :=
  let deltaI := min (1 - s.delta) (bestAdv.Budget / bidAt bids bestAdv.ID)
  if deltaI > 0 then
    { sys := { s.sys with
        advertisers := Function.update s.sys.advertisers key
          (some { bestAdv with Budget := bestAdv.Budget - bidAt bids bestAdv.ID * deltaI }) }
      allocations := mapAdd s.allocations bestAdv.ID deltaI
      delta := s.delta + deltaI
      available := s.available }
  else s

/-- The loop body with the specified accumulation rule. -/
def paBodyAccum (bids : Int → Option K) (gt : K) (s : PAState K) : Option (PAState K) :=
  match (selectBest s.sys bids gt s.available (none, -1)).1 with
  | none => none
  | some (key, bestAdv) => some (paRefresh (paAllocateAccum bids s key bestAdv))

/-- The main loop with the specified accumulation rule. -/
def paLoopAccum (bids : Int → Option K) (gt : K) : Nat → PAState K → Option (PAState K)
  | 0, s => if paGuard s then none else some s
  | fuel + 1, s =>
    if paGuard s then
      match paBodyAccum bids gt s with
      | none => some s
      | some s' => paLoopAccum bids gt fuel s'
    else some s

/-- The function `processPartialAllocation` with the specified accumulation rule. -/
def processPartialAllocationAccum (exp : K → K) (fuel : Nat) (a : AdSystem K)
    (order : List Int) (bids : Int → Option K) : Option (AdSystem K × List (Int × K)) :=
  let gt := calculateG exp a a.time
  match paLoopAccum bids gt fuel
      { sys := a, allocations := [], delta := 0, available := initialAvailable a order } with
  | none => none
  | some s => some (s.sys, s.allocations)

/-- The keys selected by the successive passes of the main loop, in the order of selection. -/
def paWinners (bids : Int → Option K) (gt : K) : Nat → PAState K → List Int
  | 0, _ => []
  | fuel + 1, s =>
    if paGuard s then
      match (selectBest s.sys bids gt s.available (none, -1)).1 with
      | none => []
      | some (key, bestAdv) =>
        key :: paWinners bids gt fuel (paRefresh (paAllocate bids s key bestAdv))
    else []

/-- The states in which the condition of the main loop is evaluated, in order: the state at
entry and the state after every completed pass. -/
def paStates (bids : Int → Option K) (gt : K) : Nat → PAState K → List (PAState K)
  | 0, s => [s]
  | fuel + 1, s =>
    if paGuard s then
      match paBody bids gt s with
      | none => [s]
      | some s' => s :: paStates bids gt fuel s'
    else [s]

/-- The ids of `avail` with a positive bid. -/
def positiveBidders (bids : Int → Option K) (avail : List Int) : List Int :=
  avail.filter (fun id => decide (0 < bidAt bids id))

/-- The loop invariant of `processPartialAllocation`, for the call on the system `a0` with
the bids `bids`. -/
structure PAInv (a0 : AdSystem K) (bids : Int → Option K) (s : PAState K) : Prop where
  frame : s.sys.beta = a0.beta ∧ s.sys.time = a0.time ∧
    s.sys.algorithmType = a0.algorithmType ∧ s.sys.availableI = a0.availableI
  records : ∀ k, s.sys.advertisers k = (a0.advertisers k).map (fun adv0 =>
    { adv0 with Budget := adv0.Budget - bidAt bids k * mapGet s.allocations k })
  delta_nonneg : 0 ≤ s.delta
  delta_le : s.delta ≤ 1
  sum_eq : mapSum s.allocations = s.delta
  keys_nodup : (mapKeys s.allocations).Nodup
  key_props : ∀ k ∈ mapKeys s.allocations, 0 < mapGet s.allocations k ∧ 0 < bidAt bids k ∧
    ∃ adv0, a0.advertisers k = some adv0 ∧ 0 < adv0.Budget ∧
      bidAt bids k * mapGet s.allocations k ≤ adv0.Budget
  spent : s.delta < 1 → ∀ k ∈ mapKeys s.allocations, hasBudget s.sys.advertisers k = false
  avail : ∀ k ∈ s.available, hasBudget s.sys.advertisers k = true

/-- The budgets after a call do not exceed the budgets before, stay non-negative where they
were, and the maps keep their keys. -/
def BudgetsShrink (a a' : AdSystem K) : Prop :=
  ∀ id, (a'.advertisers id).isSome = (a.advertisers id).isSome ∧
    budgetAt a' id ≤ budgetAt a id ∧ (0 ≤ budgetAt a id → 0 ≤ budgetAt a' id)

/-- Round to the nearest integer, a tie going to the even one. -/
def roundHalfEven [FloorRing K] (m : K) : Int :=
  if m - ⌊m⌋ < 1 / 2 then ⌊m⌋
  else if 1 / 2 < m - ⌊m⌋ then ⌊m⌋ + 1
  else if ⌊m⌋ % 2 = 0 then ⌊m⌋ else ⌊m⌋ + 1

/-- The exponent of the unit in the last place of the binary64 format at `q`: 52 below the
exponent of `q` (53-bit significand), and never below `-1074` (subnormal numbers). -/
def ulpExponent [FloorRing K] (q : K) : Int :=
  max (Int.log 2 |q| - 52) (-1074)

/-- The `float64` nearest to `q`, ties to even (IEEE 754 binary64 rounding of a result below
the overflow threshold; infinities and NaN are not modelled). -/
def round64 [FloorRing K] (q : K) : K :=
  if q = 0 then 0 else (roundHalfEven (q / 2 ^ ulpExponent q) : K) * 2 ^ ulpExponent q

/-- `calculateG` with every `float64` operation rounded by `rnd` (`math.Exp` is taken to
return the rounded exponential; at `0` it returns exactly `1`). -/
def calculateGFl (rnd : K → K) (exp : K → K) (a : AdSystem K) (t : Int) : K :=
  rnd (exp (rnd (a.beta * rnd (((t - 1 : Int)) : K))))

/-- `selectBest` with every `float64` operation of line 101 rounded by `rnd`. -/
def selectBestFl (rnd : K → K) (a : AdSystem K) (bids : Int → Option K) (gt : K) :
    List Int → Option (Int × Advertiser K) × K → Option (Int × Advertiser K) × K
  | [], acc => acc
  | id :: rest, (bestAdv, maxValue) =>
    if bidAt bids id ≤ 0 then selectBestFl rnd a bids gt rest (bestAdv, maxValue)
    else
      match a.advertisers id with
      | none => selectBestFl rnd a bids gt rest (bestAdv, maxValue)
      | some adv =>
        let value := rnd (bidAt bids id * rnd (1 - rnd (gt * adv.Y)))
        if value > maxValue then selectBestFl rnd a bids gt rest (some (id, adv), value)
        else selectBestFl rnd a bids gt rest (bestAdv, maxValue)

/-- `paAllocate` with every `float64` operation of lines 113-117 rounded by `rnd`. -/
def paAllocateFl (rnd : K → K) (bids : Int → Option K) (s : PAState K) (key : Int)
    (bestAdv : Advertiser K) : PAState K :=
  let deltaI := min (rnd (1 - s.delta)) (rnd (bestAdv.Budget / bidAt bids bestAdv.ID))
  if deltaI > 0 then
    { sys := { s.sys with
        advertisers := Function.update s.sys.advertisers key
          (some { bestAdv with
            Budget := rnd (bestAdv.Budget - rnd (bidAt bids bestAdv.ID * deltaI)) }) }
      allocations := mapSet s.allocations bestAdv.ID deltaI
      delta := rnd (s.delta + deltaI)
      available := s.available }
  else s

/-- `paBody` over `float64`. -/
def paBodyFl (rnd : K → K) (bids : Int → Option K) (gt : K) (s : PAState K) :
    Option (PAState K) :=
  match (selectBestFl rnd s.sys bids gt s.available (none, -1)).1 with
  | none => none
  | some (key, bestAdv) => some (paRefresh (paAllocateFl rnd bids s key bestAdv))

/-- `paLoop` over `float64`: `none` when the fuel runs out before the loop ends. -/
def paLoopFl (rnd : K → K) (bids : Int → Option K) (gt : K) :
    Nat → PAState K → Option (PAState K)
  | 0, s => if paGuard s then none else some s
  | fuel + 1, s =>
    if paGuard s then
      match paBodyFl rnd bids gt s with
      | none => some s
      | some s' => paLoopFl rnd bids gt fuel s'
    else some s

/-- `processPartialAllocation` over `float64`: the same program, every arithmetic operation
followed by the rounding `rnd`. -/
def processPartialAllocationFl (rnd : K → K) (exp : K → K) (fuel : Nat) (a : AdSystem K)
    (order : List Int) (bids : Int → Option K) : Option (AdSystem K × List (Int × K)) :=
  let gt := calculateGFl rnd exp a a.time
  match paLoopFl rnd bids gt fuel
      { sys := a, allocations := [], delta := 0, available := initialAvailable a order } with
  | none => none
  | some s => some (s.sys, s.allocations)

/-- The keys selected by the successive passes of the loop over `float64`. -/
def paWinnersFl (rnd : K → K) (bids : Int → Option K) (gt : K) : Nat → PAState K → List Int
  | 0, _ => []
  | fuel + 1, s =>
    if paGuard s then
      match (selectBestFl rnd s.sys bids gt s.available (none, -1)).1 with
      | none => []
      | some (key, bestAdv) =>
        key :: paWinnersFl rnd bids gt fuel (paRefresh (paAllocateFl rnd bids s key bestAdv))
    else []

/-- A loop state of `processPartialAllocation` on the system of the single consumer `1`
(`beta = 1`, sample `Y = 0`, first arrival): initial budget `B0`, current budget `bud`. -/
def oneBidderState (B0 bud delta : K) (al : List (Int × K)) : PAState K :=
  { sys :=
      { advertisers := Function.update (fun _ => none) 1
          (some { ID := 1, InitialBudget := B0, Budget := bud, Y := 0 })
        beta := 1
        time := 1
        algorithmType := PartialAllocation
        availableI := Function.update (fun _ => none) 1 (some true) }
    allocations := al
    delta := delta
    available := [1] }

/-- The value `bids[id] * (1 - gt * Y)` that `processPartialAllocation` computes for the
record under `id` (`0` when `id` is not a key). -/
def paValue (gt : K) (a : AdSystem K) (bids : Int → Option K) (id : Int) : K :=
  match a.advertisers id with
  | some adv => bidAt bids id * (1 - gt * adv.Y)
  | none => 0

/-- The value line 101 computes for the record under `id` with every `float64` operation
rounded by `rnd` (`0` when `id` is not a key). -/
def paValueFl (rnd : K → K) (gt : K) (a : AdSystem K) (bids : Int → Option K) (id : Int) : K :=
  match a.advertisers id with
  | some adv => rnd (bidAt bids id * rnd (1 - rnd (gt * adv.Y)))
  | none => 0

end Model

/-! ## The states built by `NewAdSystem` -/

section NewLemmas

variable {K : Type} [LinearOrderedField K]

theorem newAdSystemLoop_spec (rand : Nat → K) :
    ∀ (advs : List (Advertiser K)) (i : Nat) (m : Int → Option (Advertiser K))
      (av : Int → Option Bool),
      (∀ k adv, m k = some adv → adv.ID = k) → (∀ k, (av k).isSome = (m k).isSome) →
      (∀ k adv, (newAdSystemLoop rand i advs (m, av)).1 k = some adv → adv.ID = k) ∧
      (∀ k, ((newAdSystemLoop rand i advs (m, av)).2 k).isSome =
        ((newAdSystemLoop rand i advs (m, av)).1 k).isSome) ∧
      (∀ k, ((newAdSystemLoop rand i advs (m, av)).2 k).isSome = true ↔
        (k ∈ advs.map Advertiser.ID ∨ (av k).isSome = true)) := by
  intro advs
  induction advs with
  | nil =>
    intro i m av h1 h2
    exact ⟨h1, h2, by simp [newAdSystemLoop]⟩
  | cons adv rest ih =>
    intro i m av h1 h2
    have h1' : ∀ k adv', Function.update m adv.ID (some { adv with Y := rand i }) k = some adv' →
        adv'.ID = k := by
      intro k adv' hk
      by_cases hka : k = adv.ID
      · subst hka; simp at hk; rw [← hk]
      · rw [Function.update_noteq hka] at hk; exact h1 k adv' hk
    have h2' : ∀ k, (Function.update av adv.ID (some true) k).isSome =
        (Function.update m adv.ID (some { adv with Y := rand i }) k).isSome := by
      intro k
      by_cases hka : k = adv.ID
      · subst hka; simp
      · simp [Function.update_noteq hka, h2 k]
    obtain ⟨r1, r2, r3⟩ := ih (i + 1) _ _ h1' h2'
    refine ⟨r1, r2, fun k => ?_⟩
    have := r3 k
    simp only [newAdSystemLoop]
    rw [this]
    by_cases hka : k = adv.ID
    · subst hka; simp
    · simp [Function.update_noteq hka, hka]

/-- `NewAdSystem` builds a well-formed state. -/
theorem NewAdSystem_WF (rand : Nat → K) (advs : List (Advertiser K)) (beta : K)
    (algType : AlgorithmType) : (NewAdSystem rand advs beta algType).WF := by
  obtain ⟨r1, r2, _⟩ := newAdSystemLoop_spec rand advs 0 (fun _ => none) (fun _ => none)
    (by simp) (by simp)
  exact ⟨r1, r2⟩

/-- A duplicate-free list of the ids handed to `NewAdSystem` enumerates the keys of both
maps. -/
theorem NewAdSystem_enumerates (rand : Nat → K) (advs : List (Advertiser K)) (beta : K)
    (algType : AlgorithmType) (order : List Int) (hnd : order.Nodup)
    (hmem : ∀ k, k ∈ order ↔ k ∈ advs.map Advertiser.ID) :
    Enumerates order (NewAdSystem rand advs beta algType).availableI ∧
      Enumerates order (NewAdSystem rand advs beta algType).advertisers := by
  obtain ⟨_, r2, r3⟩ := newAdSystemLoop_spec rand advs 0 (fun _ => none) (fun _ => none)
    (by simp) (by simp)
  have h3 : ∀ k, k ∈ order ↔
      ((newAdSystemLoop rand 0 advs (fun _ => none, fun _ => none)).2 k).isSome = true := by
    intro k
    rw [r3 k, hmem k]
    simp
  refine ⟨⟨hnd, h3⟩, ⟨hnd, fun k => ?_⟩⟩
  rw [h3 k]
  show _ ↔ ((newAdSystemLoop rand 0 advs (fun _ => none, fun _ => none)).1 k).isSome = true
  rw [r2 k]

theorem twoConsumers_record (B1 B2 y1 y2 beta : K) (algType : AlgorithmType) (k : Int)
    (adv : Advertiser K)
    (h : (twoConsumers B1 B2 y1 y2 beta algType).advertisers k = some adv) :
    (k = 1 ∧ adv = { ID := 1, InitialBudget := B1, Budget := B1, Y := y1 }) ∨
      (k = 2 ∧ adv = { ID := 2, InitialBudget := B2, Budget := B2, Y := y2 }) := by
  simp only [twoConsumers, NewAdSystem, newAdSystemLoop] at h
  by_cases h2 : k = 2
  · subst h2
    right
    simp at h
    exact ⟨rfl, h.symm⟩
  · rw [Function.update_noteq h2] at h
    by_cases h1 : k = 1
    · subst h1
      left
      simp at h
      exact ⟨rfl, h.symm⟩
    · rw [Function.update_noteq h1] at h
      simp at h

theorem twoConsumers_enumerates (B1 B2 y1 y2 beta : K) (algType : AlgorithmType)
    (order : List Int) (hnd : order.Nodup) (hmem : ∀ k, k ∈ order ↔ k = 1 ∨ k = 2) :
    Enumerates order (twoConsumers B1 B2 y1 y2 beta algType).availableI ∧
      Enumerates order (twoConsumers B1 B2 y1 y2 beta algType).advertisers :=
  NewAdSystem_enumerates _ _ _ _ order hnd (fun k => by rw [hmem k]; simp)

theorem twoConsumers_budget_nonneg (B1 B2 y1 y2 beta : K) (algType : AlgorithmType)
    (h1 : 0 ≤ B1) (h2 : 0 ≤ B2) (id : Int) :
    0 ≤ budgetAt (twoConsumers B1 B2 y1 y2 beta algType) id := by
  unfold budgetAt
  cases h : (twoConsumers B1 B2 y1 y2 beta algType).advertisers id with
  | none => exact le_refl _
  | some adv =>
    rcases twoConsumers_record _ _ _ _ _ _ id adv h with ⟨_, rfl⟩ | ⟨_, rfl⟩
    · exact h1
    · exact h2

end NewLemmas

/-! ## The scan of `processGPG` -/

section GPGLemmas

variable {K : Type} [LinearOrderedField K]

theorem availableAt_update_false (m : Int → Option Bool) (id j : Int) :
    availableAt (Function.update m id (some false)) j =
      (if j = id then false else availableAt m j) := by
  unfold availableAt
  by_cases h : j = id
  · subst h; simp
  · simp [Function.update_noteq h, h]

theorem gpgScan_spec (exp : K → K) (a : AdSystem K) (bids : Int → Option K) :
    ∀ (order : List Int) (st : GPGState K),
      (∀ id, availableAt st.availableI id = true → (a.advertisers id).isSome = true) →
      ∃ st', gpgScan exp a bids order st = some st' ∧
        (∀ j, st'.availableI j =
          if j ∈ order ∧ availableAt st.availableI j = true ∧ 0 < bidAt bids j ∧
              budgetAt a j < bidAt bids j
          then some false else st.availableI j) ∧
        st.maxValue ≤ st'.maxValue ∧
        (∀ j ∈ order, gpgEligible a st.availableI bids j →
          gpgValue exp a bids j ≤ st'.maxValue) ∧
        ((st'.bestAdvertiserID = st.bestAdvertiserID ∧ st'.maxValue = st.maxValue) ∨
          (st'.bestAdvertiserID ∈ order ∧
            gpgEligible a st.availableI bids st'.bestAdvertiserID ∧
            gpgValue exp a bids st'.bestAdvertiserID = st'.maxValue ∧
            st.maxValue < st'.maxValue)) ∧
        (order.Pairwise (· < ·) → ∀ j ∈ order, gpgEligible a st.availableI bids j →
          gpgValue exp a bids j = st'.maxValue → st.maxValue < st'.maxValue →
          st'.bestAdvertiserID ≤ j) := by
  intro order
  induction order with
  | nil =>
    intro st _
    exact ⟨st, rfl, by simp, le_refl _, by simp, Or.inl ⟨rfl, rfl⟩, by simp⟩
  | cons id rest ih =>
    intro st hk
    by_cases h1 : availableAt st.availableI id = true ∧ 0 < bidAt bids id
    · obtain ⟨hav, hbid⟩ := h1
      have hs := hk id hav
      obtain ⟨adv, hadv⟩ := Option.isSome_iff_exists.mp hs
      have hbud : budgetAt a id = adv.Budget := by simp [budgetAt, hadv]
      by_cases h2 : adv.Budget < bidAt bids id
      · -- the record cannot pay: the flag is cleared
        have hk1 : ∀ j, availableAt (Function.update st.availableI id (some false)) j = true →
            (a.advertisers j).isSome = true := by
          intro j hj
          rw [availableAt_update_false] at hj
          by_cases hji : j = id
          · simp [hji] at hj
          · simp [hji] at hj; exact hk j hj
        obtain ⟨st', hrun, hA, hB, hC, hD, hE⟩ :=
          ih { st with availableI := Function.update st.availableI id (some false) } hk1
        have hnel : ¬ gpgEligible a st.availableI bids id := fun he =>
          absurd he.2.2.2 (by rw [hbud]; exact not_le.mpr h2)
        have htr : ∀ j, gpgEligible a st.availableI bids j →
            gpgEligible a (Function.update st.availableI id (some false)) bids j := by
          intro j he
          refine ⟨?_, he.2.1, he.2.2.1, he.2.2.2⟩
          rw [availableAt_update_false]
          by_cases hji : j = id
          · subst hji; exact absurd he hnel
          · simp [hji, he.1]
        refine ⟨st', ?_, ?_, hB, ?_, ?_, ?_⟩
        rotate_left 4
        · intro hp j hj he hv hlt
          rcases List.mem_cons.mp hj with hji | hjr
          · subst hji; exact absurd he hnel
          · exact hE (List.Pairwise.of_cons hp) j hjr (htr j he) hv hlt
        · simp [gpgScan, hav, not_le.mpr hbid, hadv, h2, hrun]
        · intro j
          rw [hA j]
          simp only [availableAt_update_false]
          by_cases hji : j = id
          · subst hji; simp [hav, hbid, hbud, h2]
          · simp [hji, Function.update_noteq hji]
        · intro j hj he
          rcases List.mem_cons.mp hj with hji | hjr
          · subst hji; exact absurd he hnel
          · exact hC j hjr (htr j he)
        · rcases hD with hD | ⟨hm, he, hv, hlt⟩
          · exact Or.inl hD
          · refine Or.inr ⟨List.mem_cons_of_mem _ hm, ?_, hv, hlt⟩
            have := he.1
            rw [availableAt_update_false] at this
            split at this
            · simp at this
            · exact ⟨this, he.2.1, he.2.2.1, he.2.2.2⟩
      · have helig : gpgEligible a st.availableI bids id :=
          ⟨hav, hbid, hs, by rw [hbud]; exact not_lt.mp h2⟩
        have hval : gpgValue exp a bids id =
            bidAt bids id * (1 - calculateGForY exp a adv.Y) := by simp [gpgValue, hadv]
        by_cases h3 : bidAt bids id * (1 - calculateGForY exp a adv.Y) > st.maxValue
        · -- a new best
          obtain ⟨st', hrun, hA, hB, hC, hD, hE⟩ :=
            ih { st with maxValue := bidAt bids id * (1 - calculateGForY exp a adv.Y),
                         bestAdvertiserID := id } hk
          refine ⟨st', ?_, ?_, le_trans (le_of_lt h3) hB, ?_, ?_, ?_⟩
          rotate_left 4
          · intro hp j hj he hv _
            have hB' : bidAt bids id * (1 - calculateGForY exp a adv.Y) ≤ st'.maxValue := hB
            rcases lt_or_eq_of_le hB' with hlt' | heq'
            · rcases List.mem_cons.mp hj with hji | hjr
              · subst hji
                rw [hval] at hv
                exact absurd hv (ne_of_lt hlt')
              · exact hE (List.Pairwise.of_cons hp) j hjr he hv hlt'
            · rcases hD with ⟨hb, _⟩ | ⟨_, _, _, hlt''⟩
              · rw [hb]
                rcases List.mem_cons.mp hj with hji | hjr
                · exact le_of_eq hji.symm
                · exact le_of_lt (List.rel_of_pairwise_cons hp hjr)
              · exact absurd heq' (ne_of_lt hlt'')
          · simp [gpgScan, hav, not_le.mpr hbid, hadv, h2, h3, hrun]
          · intro j
            rw [hA j]
            by_cases hji : j = id
            · subst hji; simp [hbud, h2]
            · simp [hji]
          · intro j hj he
            rcases List.mem_cons.mp hj with hji | hjr
            · subst hji; rw [hval]; exact hB
            · exact hC j hjr he
          · rcases hD with ⟨hb, hm⟩ | ⟨hm, he, hv, hlt⟩
            · refine Or.inr ⟨?_, ?_, ?_, ?_⟩
              · rw [hb]; exact List.mem_cons_self _ _
              · rw [hb]; exact helig
              · rw [hb, hm]; exact hval
              · rw [hm]; exact h3
            · exact Or.inr ⟨List.mem_cons_of_mem _ hm, he, hv, lt_trans h3 hlt⟩
        · -- not better than the best so far
          obtain ⟨st', hrun, hA, hB, hC, hD, hE⟩ := ih st hk
          refine ⟨st', ?_, ?_, hB, ?_, ?_, ?_⟩
          rotate_left 4
          · intro hp j hj he hv hlt
            rcases List.mem_cons.mp hj with hji | hjr
            · subst hji
              rw [hval] at hv
              exact absurd (lt_of_le_of_lt (not_lt.mp h3) hlt) (by rw [hv]; exact lt_irrefl _)
            · exact hE (List.Pairwise.of_cons hp) j hjr he hv hlt
          · simp [gpgScan, hav, not_le.mpr hbid, hadv, h2, h3, hrun]
          · intro j
            rw [hA j]
            by_cases hji : j = id
            · subst hji; simp [hbud, h2]
            · simp [hji]
          · intro j hj he
            rcases List.mem_cons.mp hj with hji | hjr
            · subst hji; rw [hval]; exact le_trans (not_lt.mp h3) hB
            · exact hC j hjr he
          · rcases hD with hD | ⟨hm, he, hv, hlt⟩
            · exact Or.inl hD
            · exact Or.inr ⟨List.mem_cons_of_mem _ hm, he, hv, hlt⟩
    · -- skipped: not available, or no positive bid
      obtain ⟨st', hrun, hA, hB, hC, hD, hE⟩ := ih st hk
      have hskip : (!availableAt st.availableI id || decide (bidAt bids id ≤ 0)) = true := by
        by_cases hav : availableAt st.availableI id = true
        · have : bidAt bids id ≤ 0 := not_lt.mp (fun h => h1 ⟨hav, h⟩)
          simp [this]
        · simp [hav]
      refine ⟨st', ?_, ?_, hB, ?_, ?_, ?_⟩
      rotate_left 4
      · intro hp j hj he hv hlt
        rcases List.mem_cons.mp hj with hji | hjr
        · subst hji; exact absurd ⟨he.1, he.2.1⟩ h1
        · exact hE (List.Pairwise.of_cons hp) j hjr he hv hlt
      · simp only [gpgScan, hskip, if_true, hrun]
      · intro j
        rw [hA j]
        by_cases hji : j = id
        · subst hji
          have : ¬ (availableAt st.availableI j = true ∧ 0 < bidAt bids j ∧
              budgetAt a j < bidAt bids j) := fun h => h1 ⟨h.1, h.2.1⟩
          simp only [List.mem_cons, true_or, true_and]
          rw [if_neg this, if_neg (fun h => this h.2)]
        · simp [hji]
      · intro j hj he
        rcases List.mem_cons.mp hj with hji | hjr
        · subst hji; exact absurd ⟨he.1, he.2.1⟩ h1
        · exact hC j hjr he
      · rcases hD with hD | ⟨hm, he, hv, hlt⟩
        · exact Or.inl hD
        · exact Or.inr ⟨List.mem_cons_of_mem _ hm, he, hv, hlt⟩

theorem processGPG_spec (exp : K → K) (a : AdSystem K) (order : List Int)
    (bids : Int → Option K)
    (hk : ∀ id, availableAt a.availableI id = true → (a.advertisers id).isSome = true) :
    ∃ st, gpgScan exp a bids order
        { availableI := a.availableI, maxValue := -1, bestAdvertiserID := -1 } = some st ∧
      ((st.bestAdvertiserID = -1 ∧
          processGPG exp a order bids = some ({ a with availableI := st.availableI }, -1)) ∨
        (st.bestAdvertiserID ≠ -1 ∧ st.bestAdvertiserID ∈ order ∧
          gpgEligible a a.availableI bids st.bestAdvertiserID ∧
          gpgValue exp a bids st.bestAdvertiserID = st.maxValue ∧ -1 < st.maxValue ∧
          ∃ adv, a.advertisers st.bestAdvertiserID = some adv ∧
            processGPG exp a order bids =
              some ({ a with
                  advertisers := Function.update a.advertisers st.bestAdvertiserID
                    (some { adv with
                      Budget := adv.Budget - bidAt bids st.bestAdvertiserID })
                  availableI :=
                    if adv.Budget - bidAt bids st.bestAdvertiserID < 1 / 100 then
                      Function.update st.availableI st.bestAdvertiserID (some false)
                    else st.availableI },
                st.bestAdvertiserID))) := by
  obtain ⟨st, hrun, _, _, _, hD, _⟩ :=
    gpgScan_spec exp a bids order
      { availableI := a.availableI, maxValue := -1, bestAdvertiserID := -1 } hk
  refine ⟨st, hrun, ?_⟩
  by_cases hb : st.bestAdvertiserID = -1
  · left
    refine ⟨hb, ?_⟩
    simp [processGPG, hrun, hb]
  · right
    rcases hD with ⟨hb', _⟩ | ⟨hm, he, hv, hlt⟩
    · exact absurd hb' hb
    · obtain ⟨adv, hadv⟩ := Option.isSome_iff_exists.mp he.2.2.1
      refine ⟨hb, hm, he, hv, hlt, adv, hadv, ?_⟩
      simp [processGPG, hrun, hb, hadv]

theorem available_isSome_of_WF (a : AdSystem K) (h : a.WF) :
    ∀ id, availableAt a.availableI id = true → (a.advertisers id).isSome = true := by
  intro id hid
  rw [← h.2 id]
  unfold availableAt at hid
  cases hx : a.availableI id with
  | none => simp [hx] at hid
  | some b => simp

theorem isSome_of_availableAt (m : Int → Option Bool) (id : Int)
    (h : availableAt m id = true) : (m id).isSome = true := by
  unfold availableAt at h
  cases hx : m id with
  | none => simp [hx] at h
  | some b => simp

/-- Everything the claims need about one call of `processGPG` on a well-formed state. -/
theorem processGPG_props (exp : K → K) (a : AdSystem K) (order : List Int)
    (bids : Int → Option K) (hwf : a.WF) :
    ∃ a' w, processGPG exp a order bids = some (a', w) ∧ a'.WF ∧
      (∀ id, availableAt a'.availableI id = true → availableAt a.availableI id = true) ∧
      (w ≠ -1 → w ∈ order ∧ gpgEligible a a.availableI bids w ∧
        -1 < gpgValue exp a bids w ∧
        (∀ j ∈ order, gpgEligible a a.availableI bids j →
          gpgValue exp a bids j ≤ gpgValue exp a bids w) ∧
        (order.Pairwise (· < ·) → ∀ j ∈ order, gpgEligible a a.availableI bids j →
          gpgValue exp a bids j = gpgValue exp a bids w → w ≤ j)) ∧
      (w = -1 → gpgEligible a a.availableI bids (-1) ∨
        ∀ j ∈ order, gpgEligible a a.availableI bids j → gpgValue exp a bids j ≤ -1) := by
  have hk := available_isSome_of_WF a hwf
  obtain ⟨st, hrun, hA, _, hC, hD, hE⟩ :=
    gpgScan_spec exp a bids order
      { availableI := a.availableI, maxValue := -1, bestAdvertiserID := -1 } hk
  have hAsome : ∀ j, (st.availableI j).isSome = (a.availableI j).isSome := by
    intro j
    rw [hA j]
    split
    · next h => simp [isSome_of_availableAt _ _ h.2.1]
    · rfl
  have hAmono : ∀ j, availableAt st.availableI j = true → availableAt a.availableI j = true := by
    intro j hj
    have := hA j
    split at this
    · simp [availableAt, this] at hj
    · simpa [availableAt, this] using hj
  obtain ⟨st2, hrun2, h | ⟨hb, hm, he, hv, hlt, adv, hadv, hres⟩⟩ :=
    processGPG_spec exp a order bids hk
  · have hst : st2 = st := by rw [hrun] at hrun2; exact (Option.some.inj hrun2).symm
    subst hst
    refine ⟨_, _, h.2, ⟨hwf.1, fun k => ?_⟩, hAmono, fun hne => absurd rfl hne, fun _ => ?_⟩
    · exact (hAsome k).trans (hwf.2 k)
    · rcases hD with ⟨_, hmx⟩ | ⟨_, he, _, _⟩
      · right
        intro j hj hje
        have := hC j hj hje
        rwa [hmx] at this
      · left
        rw [h.1] at he
        exact he
  · have hst : st2 = st := by rw [hrun] at hrun2; exact (Option.some.inj hrun2).symm
    subst hst
    refine ⟨_, _, hres, ⟨?_, ?_⟩, ?_, fun _ => ⟨hm, he, by rw [hv]; exact hlt, ?_, ?_⟩,
      fun h => absurd h hb⟩
    · intro k adv' hk'
      by_cases hkb : k = st2.bestAdvertiserID
      · subst hkb
        simp at hk'
        rw [← hk']
        exact hwf.1 _ adv hadv
      · simp [Function.update_noteq hkb] at hk'
        exact hwf.1 _ _ hk'
    · intro k
      have h1 : (Function.update a.advertisers st2.bestAdvertiserID
          (some { adv with Budget := adv.Budget - bidAt bids st2.bestAdvertiserID }) k).isSome
          = (a.advertisers k).isSome := by
        by_cases hkb : k = st2.bestAdvertiserID
        · subst hkb; simp [hadv]
        · simp [Function.update_noteq hkb]
      have h2 : (Function.update st2.availableI st2.bestAdvertiserID (some false) k).isSome
          = (a.availableI k).isSome := by
        by_cases hkb : k = st2.bestAdvertiserID
        · subst hkb; simp [isSome_of_availableAt _ _ he.1]
        · simp [Function.update_noteq hkb, hAsome k]
      simp only
      rw [h1, ← hwf.2 k]
      split
      · exact h2
      · exact hAsome k
    · intro id hid
      simp only at hid
      split at hid
      · rw [availableAt_update_false] at hid
        split at hid
        · simp at hid
        · exact hAmono id hid
      · exact hAmono id hid
    · intro j hj hje
      rw [hv]
      exact hC j hj hje
    · intro hp j hj hje hjv
      rw [hv] at hjv
      exact hE hp j hj hje hjv hlt

end GPGLemmas

/-! ## The scan of `processPartialAllocation` -/

section SelectLemmas

variable {K : Type} [LinearOrderedField K]

theorem selectBest_spec (a : AdSystem K) (bids : Int → Option K) (gt : K) :
    ∀ (avail : List Int) (best : Option (Int × Advertiser K)) (mx : K),
      mx ≤ (selectBest a bids gt avail (best, mx)).2 ∧
      (∀ j ∈ avail, 0 < bidAt bids j → (a.advertisers j).isSome = true →
        paValue gt a bids j ≤ (selectBest a bids gt avail (best, mx)).2) ∧
      (((selectBest a bids gt avail (best, mx)).1 = best ∧
          (selectBest a bids gt avail (best, mx)).2 = mx) ∨
        (∃ w adv, (selectBest a bids gt avail (best, mx)).1 = some (w, adv) ∧ w ∈ avail ∧
          a.advertisers w = some adv ∧ 0 < bidAt bids w ∧
          paValue gt a bids w = (selectBest a bids gt avail (best, mx)).2 ∧
          mx < (selectBest a bids gt avail (best, mx)).2)) ∧
      (avail.Pairwise (· < ·) → ∀ j ∈ avail, 0 < bidAt bids j →
        (a.advertisers j).isSome = true →
        paValue gt a bids j = (selectBest a bids gt avail (best, mx)).2 →
        mx < (selectBest a bids gt avail (best, mx)).2 →
        ∃ w adv, (selectBest a bids gt avail (best, mx)).1 = some (w, adv) ∧ w ≤ j) := by
  intro avail
  induction avail with
  | nil =>
    intro best mx
    simp [selectBest]
  | cons id rest ih =>
    intro best mx
    by_cases h1 : bidAt bids id ≤ 0
    · -- no positive bid: skipped
      have hstep : selectBest a bids gt (id :: rest) (best, mx) =
          selectBest a bids gt rest (best, mx) := by simp [selectBest, h1]
      rw [hstep]
      obtain ⟨hB, hC, hD, hE⟩ := ih best mx
      refine ⟨hB, ?_, ?_, ?_⟩
      · intro j hj hbid hs
        rcases List.mem_cons.mp hj with hji | hjr
        · subst hji; exact absurd hbid (not_lt.mpr h1)
        · exact hC j hjr hbid hs
      · rcases hD with hD | ⟨w, adv, hr, hm, hadv, hbid, hv, hlt⟩
        · exact Or.inl hD
        · exact Or.inr ⟨w, adv, hr, List.mem_cons_of_mem _ hm, hadv, hbid, hv, hlt⟩
      · intro hp j hj hbid hs hv hlt
        rcases List.mem_cons.mp hj with hji | hjr
        · subst hji; exact absurd hbid (not_lt.mpr h1)
        · exact hE (List.Pairwise.of_cons hp) j hjr hbid hs hv hlt
    · cases hadv : a.advertisers id with
      | none =>
        have hstep : selectBest a bids gt (id :: rest) (best, mx) =
            selectBest a bids gt rest (best, mx) := by simp [selectBest, h1, hadv]
        rw [hstep]
        obtain ⟨hB, hC, hD, hE⟩ := ih best mx
        refine ⟨hB, ?_, ?_, ?_⟩
        · intro j hj hbid hs
          rcases List.mem_cons.mp hj with hji | hjr
          · subst hji; rw [hadv] at hs; simp at hs
          · exact hC j hjr hbid hs
        · rcases hD with hD | ⟨w, adv, hr, hm, hadv', hbid, hv, hlt⟩
          · exact Or.inl hD
          · exact Or.inr ⟨w, adv, hr, List.mem_cons_of_mem _ hm, hadv', hbid, hv, hlt⟩
        · intro hp j hj hbid hs hv hlt
          rcases List.mem_cons.mp hj with hji | hjr
          · subst hji; rw [hadv] at hs; simp at hs
          · exact hE (List.Pairwise.of_cons hp) j hjr hbid hs hv hlt
      | some adv =>
        have hval : paValue gt a bids id = bidAt bids id * (1 - gt * adv.Y) := by
          simp [paValue, hadv]
        by_cases h3 : bidAt bids id * (1 - gt * adv.Y) > mx
        · -- a new best
          have hstep : selectBest a bids gt (id :: rest) (best, mx) =
              selectBest a bids gt rest
                (some (id, adv), bidAt bids id * (1 - gt * adv.Y)) := by
            simp [selectBest, h1, hadv, h3]
          rw [hstep]
          obtain ⟨hB, hC, hD, hE⟩ :=
            ih (some (id, adv)) (bidAt bids id * (1 - gt * adv.Y))
          refine ⟨le_trans (le_of_lt h3) hB, ?_, ?_, ?_⟩
          · intro j hj hbid hs
            rcases List.mem_cons.mp hj with hji | hjr
            · subst hji; rw [hval]; exact hB
            · exact hC j hjr hbid hs
          · rcases hD with ⟨hb, hm⟩ | ⟨w, adv', hr, hm, hadv', hbid, hv, hlt⟩
            · refine Or.inr ⟨id, adv, hb, List.mem_cons_self _ _, hadv, not_le.mp h1, ?_, ?_⟩
              · rw [hm]; exact hval
              · rw [hm]; exact h3
            · exact Or.inr ⟨w, adv', hr, List.mem_cons_of_mem _ hm, hadv', hbid, hv,
                lt_trans h3 hlt⟩
          · intro hp j hj hbid hs hv _
            rcases lt_or_eq_of_le hB with hlt' | heq'
            · rcases List.mem_cons.mp hj with hji | hjr
              · subst hji
                rw [hval] at hv
                exact absurd hv (ne_of_lt hlt')
              · exact hE (List.Pairwise.of_cons hp) j hjr hbid hs hv hlt'
            · rcases hD with ⟨hb, _⟩ | ⟨_, _, _, _, _, _, _, hlt''⟩
              · refine ⟨id, adv, hb, ?_⟩
                rcases List.mem_cons.mp hj with hji | hjr
                · exact le_of_eq hji.symm
                · exact le_of_lt (List.rel_of_pairwise_cons hp hjr)
              · exact absurd heq' (ne_of_lt hlt'')
        · -- not better than the best so far
          have hstep : selectBest a bids gt (id :: rest) (best, mx) =
              selectBest a bids gt rest (best, mx) := by
            simp [selectBest, h1, hadv, h3]
          rw [hstep]
          obtain ⟨hB, hC, hD, hE⟩ := ih best mx
          refine ⟨hB, ?_, ?_, ?_⟩
          · intro j hj hbid hs
            rcases List.mem_cons.mp hj with hji | hjr
            · subst hji; rw [hval]; exact le_trans (not_lt.mp h3) hB
            · exact hC j hjr hbid hs
          · rcases hD with hD | ⟨w, adv', hr, hm, hadv', hbid, hv, hlt⟩
            · exact Or.inl hD
            · exact Or.inr ⟨w, adv', hr, List.mem_cons_of_mem _ hm, hadv', hbid, hv, hlt⟩
          · intro hp j hj hbid hs hv hlt
            rcases List.mem_cons.mp hj with hji | hjr
            · subst hji
              rw [hval] at hv
              exact absurd (lt_of_le_of_lt (not_lt.mp h3) hlt) (by rw [hv]; exact lt_irrefl _)
            · exact hE (List.Pairwise.of_cons hp) j hjr hbid hs hv hlt

theorem mapGet_mapSet (m : List (Int × K)) (k : Int) (v : K) (j : Int) :
    mapGet (mapSet m k v) j = if j = k then v else mapGet m j := by
  induction m with
  | nil =>
    by_cases h : j = k
    · simp [mapSet, mapGet, h]
    · simp [mapSet, mapGet, h, Ne.symm h]
  | cons e rest ih =>
    obtain ⟨k', v'⟩ := e
    by_cases hk : k' = k
    · subst hk
      by_cases h : j = k'
      · simp [mapSet, mapGet, h]
      · simp [mapSet, mapGet, h, Ne.symm h]
    · by_cases h : j = k
      · subst h
        simp [mapSet, mapGet, hk, ih]
      · by_cases h' : k' = j
        · subst h'
          simp [mapSet, mapGet, hk]
        · simp [mapSet, mapGet, hk, h', ih, h]

theorem mapGet_of_not_mem (m : List (Int × K)) (k : Int) (h : k ∉ mapKeys m) :
    mapGet m k = 0 := by
  induction m with
  | nil => rfl
  | cons e rest ih =>
    obtain ⟨k', v'⟩ := e
    simp only [mapKeys, List.map_cons, List.mem_cons, not_or] at h
    have : ¬ k' = k := fun hk => h.1 hk.symm
    simp only [mapGet, this, if_false]
    exact ih h.2

theorem mapSet_of_not_mem (m : List (Int × K)) (k : Int) (v : K) (h : k ∉ mapKeys m) :
    mapSet m k v = m ++ [(k, v)] := by
  induction m with
  | nil => rfl
  | cons e rest ih =>
    obtain ⟨k', v'⟩ := e
    simp only [mapKeys, List.map_cons, List.mem_cons, not_or] at h
    have : ¬ k' = k := fun hk => h.1 hk.symm
    simp only [mapSet, this, if_false, List.cons_append]
    rw [ih h.2]

theorem mapAdd_of_not_mem (m : List (Int × K)) (k : Int) (v : K) (h : k ∉ mapKeys m) :
    mapAdd m k v = mapSet m k v := by
  induction m with
  | nil => simp [mapAdd, mapSet]
  | cons e rest ih =>
    obtain ⟨k', v'⟩ := e
    simp only [mapKeys, List.map_cons, List.mem_cons, not_or] at h
    have : ¬ k' = k := fun hk => h.1 hk.symm
    simp only [mapAdd, mapSet, this, if_false]
    rw [ih h.2]

theorem hasBudget_isSome (m : Int → Option (Advertiser K)) (k : Int)
    (h : hasBudget m k = true) : ∃ adv, m k = some adv ∧ 0 < adv.Budget := by
  unfold hasBudget at h
  cases hm : m k with
  | none => simp [hm] at h
  | some adv =>
    simp only [hm, gt_iff_lt, decide_eq_true_eq] at h
    exact ⟨adv, rfl, h⟩

/-- The shape of a pass of the loop body that selects a consumer. -/
theorem paBody_some (bids : Int → Option K) (gt : K) (s s' : PAState K)
    (hID : ∀ k adv, s.sys.advertisers k = some adv → adv.ID = k)
    (havail : ∀ k ∈ s.available, hasBudget s.sys.advertisers k = true)
    (hδ : s.delta < 1) (hbody : paBody bids gt s = some s') :
    ∃ w adv, (selectBest s.sys bids gt s.available (none, -1)).1 = some (w, adv) ∧
      w ∈ s.available ∧ s.sys.advertisers w = some adv ∧ 0 < adv.Budget ∧
      0 < bidAt bids w ∧ 0 < min (1 - s.delta) (adv.Budget / bidAt bids w) ∧
      paAllocate bids s w adv =
        { sys := { s.sys with
            advertisers := Function.update s.sys.advertisers w
              (some { adv with
                Budget := (adv.Budget -
                  bidAt bids w * min (1 - s.delta) (adv.Budget / bidAt bids w)) }) }
          allocations := mapSet s.allocations w
            (min (1 - s.delta) (adv.Budget / bidAt bids w))
          delta := s.delta + min (1 - s.delta) (adv.Budget / bidAt bids w)
          available := s.available } ∧
      s' = paRefresh (paAllocate bids s w adv) := by
  unfold paBody at hbody
  obtain ⟨_, _, hD, _⟩ := selectBest_spec s.sys bids gt s.available none (-1)
  rcases hD with ⟨hn, _⟩ | ⟨w, adv, hr, hm, hadv, hbid, _, _⟩
  · rw [hn] at hbody
    simp at hbody
  · rw [hr] at hbody
    simp only [Option.some.injEq] at hbody
    obtain ⟨adv', hadv', hpos⟩ := hasBudget_isSome _ _ (havail w hm)
    rw [hadv] at hadv'
    have hadv'' : adv' = adv := (Option.some.inj hadv').symm
    subst hadv''
    have hid : adv'.ID = w := hID w adv' hadv
    have hmin : 0 < min (1 - s.delta) (adv'.Budget / bidAt bids w) :=
      lt_min (by linarith) (div_pos hpos hbid)
    refine ⟨w, adv', hr, hm, hadv, hpos, hbid, hmin, ?_, hbody.symm⟩
    simp only [paAllocate, hid, gt_iff_lt, hmin, if_true]

theorem PAInv_init (a : AdSystem K) (order : List Int) (bids : Int → Option K) :
    PAInv a bids
      { sys := a, allocations := [], delta := 0, available := initialAvailable a order } where
  frame := ⟨rfl, rfl, rfl, rfl⟩
  records := by
    intro k
    cases h : a.advertisers k with
    | none => simp
    | some adv => simp [mapGet]
  delta_nonneg := le_refl _
  delta_le := zero_le_one
  sum_eq := by simp [mapSum]
  keys_nodup := by simp [mapKeys]
  key_props := by simp [mapKeys]
  spent := by simp [mapKeys]
  avail := by
    intro k hk
    exact (List.mem_filter.mp hk).2

theorem PAInv.ids (a0 : AdSystem K) (bids : Int → Option K) (s : PAState K)
    (hwf0 : ∀ k adv, a0.advertisers k = some adv → adv.ID = k) (hinv : PAInv a0 bids s) :
    ∀ k adv, s.sys.advertisers k = some adv → adv.ID = k := by
  intro k adv h
  rw [hinv.records k] at h
  cases h0 : a0.advertisers k with
  | none => rw [h0] at h; simp at h
  | some adv0 =>
    rw [h0] at h
    simp only [Option.map_some', Option.some.injEq] at h
    rw [← h]
    exact hwf0 k adv0 h0

theorem positiveBidders_filter_lt (bids : Int → Option K) (avail : List Int)
    (p : Int → Bool) (w : Int) (hw : w ∈ avail) (hbid : 0 < bidAt bids w)
    (hp : p w = false) :
    (positiveBidders bids (avail.filter p)).length < (positiveBidders bids avail).length := by
  unfold positiveBidders
  rw [List.filter_filter]
  have h1 : List.filter (fun a => decide (0 < bidAt bids a) && p a) avail =
      List.filter p (List.filter (fun a => decide (0 < bidAt bids a)) avail) := by
    rw [List.filter_filter]
    congr 1
    funext a
    exact Bool.and_comm _ _
  rw [h1]
  apply List.length_filter_lt_length_iff_exists.mpr
  exact ⟨w, List.mem_filter.mpr ⟨hw, by simpa using hbid⟩, by simp [hp]⟩

/-- One pass of the loop body that selects a consumer keeps the invariant, and either brings
`delta` to `1` or removes the selected consumer from the available list. -/
theorem PAInv_step (a0 : AdSystem K) (bids : Int → Option K) (gt : K) (s s' : PAState K)
    (hwf0 : ∀ k adv, a0.advertisers k = some adv → adv.ID = k) (hinv : PAInv a0 bids s)
    (hδ : s.delta < 1) (hbody : paBody bids gt s = some s') :
    PAInv a0 bids s' ∧
      (s'.delta = 1 ∨
        (positiveBidders bids s'.available).length <
          (positiveBidders bids s.available).length) ∧
      s'.available.Sublist s.available ∧
      paBodyAccum bids gt s = some s' ∧
      ∃ w adv, (selectBest s.sys bids gt s.available (none, -1)).1 = some (w, adv) ∧
        s' = paRefresh (paAllocate bids s w adv) ∧
        mapKeys s'.allocations = mapKeys s.allocations ++ [w] := by
  obtain ⟨w, adv, hr, hm, hadv, hpos, hbid, hmin, hform, hs'⟩ :=
    paBody_some bids gt s s' (PAInv.ids a0 bids s hwf0 hinv) hinv.avail hδ hbody
  have hwkey : w ∉ mapKeys s.allocations := by
    intro hk
    have h1 := hinv.spent hδ w hk
    rw [hinv.avail w hm] at h1
    exact absurd h1 (by simp)
  have hget0 : mapGet s.allocations w = 0 := mapGet_of_not_mem _ _ hwkey
  have hrec := hinv.records w
  rw [hadv, hget0] at hrec
  obtain ⟨adv0, hadv0⟩ : ∃ adv0, a0.advertisers w = some adv0 := by
    cases h0 : a0.advertisers w with
    | none => rw [h0] at hrec; simp at hrec
    | some adv0 => exact ⟨adv0, rfl⟩
  rw [hadv0] at hrec
  simp only [Option.map_some', Option.some.injEq, mul_zero, sub_zero] at hrec
  have hbud0 : adv0.Budget = adv.Budget := by rw [hrec]
  have hd1 : min (1 - s.delta) (adv.Budget / bidAt bids w) ≤ 1 - s.delta := min_le_left _ _
  have hd2 : bidAt bids w * min (1 - s.delta) (adv.Budget / bidAt bids w) ≤ adv.Budget := by
    have := min_le_right (1 - s.delta) (adv.Budget / bidAt bids w)
    rw [le_div_iff₀ hbid] at this
    linarith
  have hset : mapSet s.allocations w (min (1 - s.delta) (adv.Budget / bidAt bids w)) =
      s.allocations ++ [(w, min (1 - s.delta) (adv.Budget / bidAt bids w))] :=
    mapSet_of_not_mem _ _ _ hwkey
  have hkeys : mapKeys s'.allocations = mapKeys s.allocations ++ [w] := by
    rw [hs', hform]
    simp [paRefresh, hset, mapKeys]
  have hadvs : s'.sys.advertisers = Function.update s.sys.advertisers w
      (some { adv with
        Budget := (adv.Budget -
          bidAt bids w * min (1 - s.delta) (adv.Budget / bidAt bids w)) }) := by
    rw [hs', hform]; rfl
  have hallocs : s'.allocations =
      mapSet s.allocations w (min (1 - s.delta) (adv.Budget / bidAt bids w)) := by
    rw [hs', hform]; rfl
  have hdelta : s'.delta = s.delta + min (1 - s.delta) (adv.Budget / bidAt bids w) := by
    rw [hs', hform]; rfl
  have havl : s'.available =
      s.available.filter (fun id => hasBudget s'.sys.advertisers id) := by
    rw [hs', hform]; rfl
  have hbudget_ne : ∀ k, k ≠ w →
      hasBudget s'.sys.advertisers k = hasBudget s.sys.advertisers k := by
    intro k hk
    simp [hasBudget, hadvs, Function.update_noteq hk]
  have hspentw : s'.delta < 1 → hasBudget s'.sys.advertisers w = false := by
    intro hlt
    rw [hdelta] at hlt
    have hne : min (1 - s.delta) (adv.Budget / bidAt bids w) ≠ 1 - s.delta := by
      intro h; rw [h] at hlt; linarith
    have heq : min (1 - s.delta) (adv.Budget / bidAt bids w) = adv.Budget / bidAt bids w := by
      rcases min_choice (1 - s.delta) (adv.Budget / bidAt bids w) with h | h
      · exact absurd h hne
      · exact h
    have hzero : adv.Budget - bidAt bids w * (adv.Budget / bidAt bids w) = 0 := by
      rw [mul_div_cancel₀ _ (ne_of_gt hbid)]
      exact sub_self _
    simp [hasBudget, hadvs, heq, hzero]
  refine ⟨?_, ?_, ?_, ?_, w, adv, hr, hs', hkeys⟩
  · constructor
    · rw [hs', hform]; exact hinv.frame
    · intro k
      rw [hadvs, hallocs, mapGet_mapSet]
      by_cases hk : k = w
      · subst hk
        simp [hadv0, hrec]
      · simp only [Function.update_noteq hk, hk, if_false]
        exact hinv.records k
    · rw [hdelta]; exact add_nonneg hinv.delta_nonneg (le_of_lt hmin)
    · rw [hdelta]; linarith
    · rw [hallocs, hset, hdelta, ← hinv.sum_eq]
      simp [mapSum]
    · rw [hkeys]
      exact List.nodup_append.mpr ⟨hinv.keys_nodup, by simp, by simpa using hwkey⟩
    · intro k hk
      rw [hkeys] at hk
      rw [hallocs, mapGet_mapSet]
      rcases List.mem_append.mp hk with hk | hk
      · have hne : k ≠ w := fun h => hwkey (h ▸ hk)
        simp only [hne, if_false]
        exact hinv.key_props k hk
      · have hkw : k = w := by simpa using hk
        subst hkw
        simp only [if_true]
        exact ⟨hmin, hbid, adv0, hadv0, by rw [hbud0]; exact hpos, by rw [hbud0]; exact hd2⟩
    · intro hlt k hk
      rw [hkeys] at hk
      rcases List.mem_append.mp hk with hk | hk
      · have hne : k ≠ w := fun h => hwkey (h ▸ hk)
        rw [hbudget_ne k hne]
        exact hinv.spent hδ k hk
      · have hkw : k = w := by simpa using hk
        subst hkw
        exact hspentw hlt
    · intro k hk
      rw [havl] at hk
      exact (List.mem_filter.mp hk).2
  · by_cases hlt : s'.delta < 1
    · right
      rw [havl]
      exact positiveBidders_filter_lt bids s.available _ w hm hbid (hspentw hlt)
    · left
      have : s'.delta ≤ 1 := by rw [hdelta]; linarith
      exact le_antisymm this (not_lt.mp hlt)
  · rw [havl]
    exact List.filter_sublist _
  · have hacc : paAllocateAccum bids s w adv = paAllocate bids s w adv := by
      have hid : adv.ID = w := PAInv.ids a0 bids s hwf0 hinv w adv hadv
      simp only [paAllocateAccum, paAllocate, hid]
      rw [mapAdd_of_not_mem _ _ _ hwkey]
    simp only [paBodyAccum, hr, hacc, hs']

theorem paBody_eq_none_iff (bids : Int → Option K) (gt : K) (s : PAState K) :
    paBody bids gt s = none ↔
      (selectBest s.sys bids gt s.available (none, -1)).1 = none := by
  unfold paBody
  cases h : (selectBest s.sys bids gt s.available (none, -1)).1 with
  | none => simp
  | some p => simp

theorem paBodyAccum_eq_none_iff (bids : Int → Option K) (gt : K) (s : PAState K) :
    paBodyAccum bids gt s = none ↔
      (selectBest s.sys bids gt s.available (none, -1)).1 = none := by
  unfold paBodyAccum
  cases h : (selectBest s.sys bids gt s.available (none, -1)).1 with
  | none => simp
  | some p => simp

/-- With more fuel than there are available consumers with a positive bid the main loop
ends; the invariant holds at the end, the specified accumulation rule gives the same final
state, and the keys added to `allocations` are the consumers selected, in order. -/
theorem paLoop_spec (a0 : AdSystem K) (bids : Int → Option K) (gt : K)
    (hwf0 : ∀ k adv, a0.advertisers k = some adv → adv.ID = k) :
    ∀ (fuel : Nat) (s : PAState K), PAInv a0 bids s →
      ((positiveBidders bids s.available).length < fuel ∨ 1 ≤ s.delta) →
      ∃ s', paLoop bids gt fuel s = some s' ∧ PAInv a0 bids s' ∧
        paLoopAccum bids gt fuel s = some s' ∧
        s'.available.Sublist s.available ∧
        mapKeys s'.allocations = mapKeys s.allocations ++ paWinners bids gt fuel s ∧
        (paGuard s' = false ∨
          (selectBest s'.sys bids gt s'.available (none, -1)).1 = none) := by
  intro fuel
  induction fuel with
  | zero =>
    intro s hinv hm
    have hg : paGuard s = false := by
      rcases hm with hm | hm
      · exact absurd hm (Nat.not_lt_zero _)
      · simp [paGuard, not_lt.mpr hm]
    exact ⟨s, by simp [paLoop, hg], hinv, by simp [paLoopAccum, hg], List.Sublist.refl _,
      by simp [paWinners], Or.inl hg⟩
  | succ fuel ih =>
    intro s hinv hm
    by_cases hg : paGuard s = true
    · have hδ : s.delta < 1 := by
        simp only [paGuard, Bool.and_eq_true, decide_eq_true_eq] at hg
        exact hg.1
      cases hb : paBody bids gt s with
      | none =>
        have hsel := (paBody_eq_none_iff bids gt s).mp hb
        have hb' := (paBodyAccum_eq_none_iff bids gt s).mpr hsel
        exact ⟨s, by simp [paLoop, hg, hb], hinv, by simp [paLoopAccum, hg, hb'],
          List.Sublist.refl _, by simp [paWinners, hg, hsel], Or.inr hsel⟩
      | some s1 =>
        obtain ⟨hinv1, hmeas, hsub, hacc, w, adv, hsel, hs1, hkeys⟩ :=
          PAInv_step a0 bids gt s s1 hwf0 hinv hδ hb
        have hm1 : (positiveBidders bids s1.available).length < fuel ∨ 1 ≤ s1.delta := by
          rcases hmeas with h | h
          · exact Or.inr (le_of_eq h.symm)
          · rcases hm with hm | hm
            · left; omega
            · exact absurd hδ (not_lt.mpr hm)
        obtain ⟨s', hrun, hinv', hrunacc, hsub', hkeys', hexit⟩ := ih s1 hinv1 hm1
        refine ⟨s', by simp [paLoop, hg, hb, hrun], hinv', by simp [paLoopAccum, hg, hacc, hrunacc],
          hsub'.trans hsub, ?_, hexit⟩
        rw [hkeys', hkeys]
        simp [paWinners, hg, hsel, ← hs1]
    · have hg' : paGuard s = false := by simpa using hg
      exact ⟨s, by simp [paLoop, hg'], hinv, by simp [paLoopAccum, hg'], List.Sublist.refl _,
        by simp [paWinners, hg'], Or.inl hg'⟩

/-- Everything the claims need about one call of `processPartialAllocation` on a well-formed
state with enough fuel. -/
theorem processPartialAllocation_props (exp : K → K) (fuel : Nat) (a : AdSystem K)
    (order : List Int) (bids : Int → Option K) (hwf : a.WF)
    (hfuel : (positiveBidders bids (initialAvailable a order)).length < fuel) :
    ∃ s', processPartialAllocation exp fuel a order bids = some (s'.sys, s'.allocations) ∧
      processPartialAllocationAccum exp fuel a order bids = some (s'.sys, s'.allocations) ∧
      PAInv a bids s' ∧ s'.sys.WF ∧
      s'.available.Sublist (initialAvailable a order) ∧
      mapKeys s'.allocations = paWinners bids (calculateG exp a a.time) fuel
        { sys := a, allocations := [], delta := 0, available := initialAvailable a order } ∧
      (paGuard s' = false ∨
        (selectBest s'.sys bids (calculateG exp a a.time) s'.available (none, -1)).1
          = none) := by
  obtain ⟨s', hrun, hinv, hrunacc, hsub, hkeys, hexit⟩ :=
    paLoop_spec a bids (calculateG exp a a.time) hwf.1 fuel
      { sys := a, allocations := [], delta := 0, available := initialAvailable a order }
      (PAInv_init a order bids) (Or.inl hfuel)
  refine ⟨s', by simp [processPartialAllocation, hrun],
    by simp [processPartialAllocationAccum, hrunacc], hinv,
    ⟨PAInv.ids a bids s' hwf.1 hinv, fun k => ?_⟩, hsub, by simpa [mapKeys] using hkeys, hexit⟩
  rw [hinv.frame.2.2.2, hwf.2 k, hinv.records k]
  simp

theorem positiveBidders_length_le (bids : Int → Option K) (a : AdSystem K)
    (order : List Int) :
    (positiveBidders bids (initialAvailable a order)).length ≤ order.length :=
  le_trans (List.length_filter_le _ _) (List.length_filter_le _ _)

theorem selectBest_no_positive_bid (a : AdSystem K) (bids : Int → Option K) (gt : K)
    (h : ∀ id, bidAt bids id ≤ 0) :
    ∀ (avail : List Int) (acc : Option (Int × Advertiser K) × K),
      selectBest a bids gt avail acc = acc := by
  intro avail
  induction avail with
  | nil => intro acc; rfl
  | cons id rest ih =>
    intro acc
    obtain ⟨best, mx⟩ := acc
    simp [selectBest, h id, ih]

theorem gpgScan_no_positive_bid (exp : K → K) (a : AdSystem K) (bids : Int → Option K)
    (h : ∀ id, bidAt bids id ≤ 0) :
    ∀ (order : List Int) (st : GPGState K), gpgScan exp a bids order st = some st := by
  intro order
  induction order with
  | nil => intro st; rfl
  | cons id rest ih =>
    intro st
    simp [gpgScan, h id, ih]

end SelectLemmas

/-! ## Budgets across one arrival -/

section BudgetLemmas

variable {K : Type} [LinearOrderedField K]

theorem processGPG_budgets (exp : K → K) (a : AdSystem K) (order : List Int)
    (bids : Int → Option K) (hwf : a.WF) :
    ∃ a' w, processGPG exp a order bids = some (a', w) ∧ a'.WF ∧ BudgetsShrink a a' := by
  obtain ⟨a', w, hrun, hwf', _, _, _⟩ := processGPG_props exp a order bids hwf
  refine ⟨a', w, hrun, hwf', ?_⟩
  obtain ⟨st, _, h | ⟨hb, _, he, _, _, adv, hadv, hres⟩⟩ :=
    processGPG_spec exp a order bids (available_isSome_of_WF a hwf)
  · rw [h.2] at hrun
    obtain ⟨rfl, _⟩ := Prod.mk.inj (Option.some.inj hrun)
    intro id
    exact ⟨rfl, le_refl _, fun h => h⟩
  · rw [hres] at hrun
    obtain ⟨rfl, _⟩ := Prod.mk.inj (Option.some.inj hrun)
    intro id
    by_cases hid : id = st.bestAdvertiserID
    · subst hid
      have h1 : 0 < bidAt bids st.bestAdvertiserID := he.2.1
      have h2 : bidAt bids st.bestAdvertiserID ≤ adv.Budget := by
        simpa [budgetAt, hadv] using he.2.2.2
      simp only [budgetAt, Function.update_same, hadv, Option.isSome_some, true_and]
      exact ⟨by linarith, fun _ => by linarith⟩
    · exact ⟨by simp [Function.update_noteq hid], by simp [budgetAt, Function.update_noteq hid],
        by simp [budgetAt, Function.update_noteq hid]⟩

theorem processPartialAllocation_budgets (exp : K → K) (fuel : Nat) (a : AdSystem K)
    (order : List Int) (bids : Int → Option K) (hwf : a.WF)
    (hfuel : (positiveBidders bids (initialAvailable a order)).length < fuel) :
    ∃ a' allocs, processPartialAllocation exp fuel a order bids = some (a', allocs) ∧
      a'.WF ∧ BudgetsShrink a a' := by
  obtain ⟨s', hrun, _, hinv, hwf', _⟩ :=
    processPartialAllocation_props exp fuel a order bids hwf hfuel
  refine ⟨_, _, hrun, hwf', fun id => ?_⟩
  have hrec := hinv.records id
  cases h0 : a.advertisers id with
  | none =>
    rw [h0] at hrec
    simp only [Option.map_none'] at hrec
    simp [budgetAt, hrec, h0]
  | some adv0 =>
    rw [h0] at hrec
    simp only [Option.map_some'] at hrec
    simp only [budgetAt, hrec, h0, Option.isSome_some, true_and]
    by_cases hk : id ∈ mapKeys s'.allocations
    · obtain ⟨hpos, hbid, adv0', hadv0', _, hle⟩ := hinv.key_props id hk
      rw [h0] at hadv0'
      obtain rfl := Option.some.inj hadv0'
      have := mul_pos hbid hpos
      exact ⟨by linarith, fun _ => by linarith⟩
    · rw [mapGet_of_not_mem _ _ hk]
      simp

theorem ProcessNewArrival_budgets (exp : K → K) (fuel : Nat) (a : AdSystem K)
    (order : List Int) (bids : Int → Option K) (hwf : a.WF) (hfuel : order.length < fuel) :
    ∃ a' r, ProcessNewArrival exp fuel a order bids = some (a', r) ∧ a'.WF ∧
      BudgetsShrink a a' := by
  have hwf1 : ({ a with time := a.time + 1 } : AdSystem K).WF := hwf
  by_cases h1 : a.algorithmType = PartialAllocation
  · obtain ⟨a', allocs, hrun, hwf', hb⟩ :=
      processPartialAllocation_budgets exp fuel { a with time := a.time + 1 } order bids hwf1
        (lt_of_le_of_lt (positiveBidders_length_le _ _ _) hfuel)
    have hrun' := hrun
    rw [h1] at hrun'
    exact ⟨a', Result.allocations allocs, by simp [ProcessNewArrival, h1, hrun'], hwf', hb⟩
  · by_cases h2 : a.algorithmType = GPG
    · obtain ⟨a', w, hrun, hwf', hb⟩ :=
        processGPG_budgets exp { a with time := a.time + 1 } order bids hwf1
      have hrun' := hrun
      rw [h2] at hrun'
      have hne : ¬ (GPG = PartialAllocation) := by decide
      exact ⟨a', Result.winner w, by simp [ProcessNewArrival, h2, hne, hrun'], hwf', hb⟩
    · exact ⟨{ a with time := a.time + 1 }, Result.null, by simp [ProcessNewArrival, h1, h2],
        hwf1, fun id => ⟨rfl, le_refl _, fun h => h⟩⟩

theorem runArrivals_budgets (exp : K → K) (fuel : Nat) :
    ∀ (arrivals : List (List Int × (Int → Option K))) (a : AdSystem K), a.WF →
      (∀ arr ∈ arrivals, arr.1.length < fuel) →
      ∃ a', runArrivals exp fuel a arrivals = some a' ∧ a'.WF ∧ BudgetsShrink a a' := by
  intro arrivals
  induction arrivals with
  | nil =>
    intro a hwf _
    exact ⟨a, rfl, hwf, fun id => ⟨rfl, le_refl _, fun h => h⟩⟩
  | cons arr rest ih =>
    intro a hwf hfuel
    obtain ⟨order, bids⟩ := arr
    obtain ⟨a1, r, hrun, hwf1, hb1⟩ :=
      ProcessNewArrival_budgets exp fuel a order bids hwf (hfuel _ (List.mem_cons_self _ _))
    obtain ⟨a2, hrun2, hwf2, hb2⟩ :=
      ih a1 hwf1 (fun arr h => hfuel arr (List.mem_cons_of_mem _ h))
    refine ⟨a2, by simp [runArrivals, hrun, hrun2], hwf2, fun id => ?_⟩
    obtain ⟨k1, l1, n1⟩ := hb1 id
    obtain ⟨k2, l2, n2⟩ := hb2 id
    exact ⟨k2.trans k1, le_trans l2 l1, fun h => n2 (n1 h)⟩

theorem paStates_inv (a0 : AdSystem K) (bids : Int → Option K) (gt : K)
    (hwf0 : ∀ k adv, a0.advertisers k = some adv → adv.ID = k) :
    ∀ (fuel : Nat) (s : PAState K), PAInv a0 bids s →
      ∀ st ∈ paStates bids gt fuel s, PAInv a0 bids st ∧ st.available.Sublist s.available := by
  intro fuel
  induction fuel with
  | zero =>
    intro s hinv st hst
    simp only [paStates, List.mem_singleton] at hst
    subst hst
    exact ⟨hinv, List.Sublist.refl _⟩
  | succ fuel ih =>
    intro s hinv st hst
    by_cases hg : paGuard s = true
    · have hδ : s.delta < 1 := by
        simp only [paGuard, Bool.and_eq_true, decide_eq_true_eq] at hg
        exact hg.1
      cases hb : paBody bids gt s with
      | none =>
        simp only [paStates, hg, hb, if_true, List.mem_singleton] at hst
        subst hst
        exact ⟨hinv, List.Sublist.refl _⟩
      | some s1 =>
        simp only [paStates, hg, hb, if_true, List.mem_cons] at hst
        rcases hst with hst | hst
        · subst hst
          exact ⟨hinv, List.Sublist.refl _⟩
        · obtain ⟨hinv1, _, hsub, _⟩ := PAInv_step a0 bids gt s s1 hwf0 hinv hδ hb
          obtain ⟨h1, h2⟩ := ih s1 hinv1 st hst
          exact ⟨h1, h2.trans hsub⟩
    · have hg' : paGuard s = false := by simpa using hg
      simp only [paStates, hg', Bool.false_eq_true, if_false, List.mem_singleton] at hst
      subst hst
      exact ⟨hinv, List.Sublist.refl _⟩

theorem paValue_of_PAInv (a0 : AdSystem K) (bids : Int → Option K) (gt : K) (s : PAState K)
    (hinv : PAInv a0 bids s) (j : Int) : paValue gt s.sys bids j = paValue gt a0 bids j := by
  unfold paValue
  rw [hinv.records j]
  cases a0.advertisers j with
  | none => rfl
  | some adv0 => rfl

end BudgetLemmas

/-! ## The state after `processGPG` -/

section GPGState

variable {K : Type} [LinearOrderedField K]

/-- The state `processGPG` leaves on a well-formed state, in full: the flags after the scan,
and the debit and the retirement test for the returned consumer. -/
theorem processGPG_full (exp : K → K) (a : AdSystem K) (order : List Int)
    (bids : Int → Option K) (hwf : a.WF) :
    ∃ (a' : AdSystem K) (w : Int) (st : GPGState K),
      processGPG exp a order bids = some (a', w) ∧
      (∀ j, st.availableI j =
        if j ∈ order ∧ availableAt a.availableI j = true ∧ 0 < bidAt bids j ∧
            budgetAt a j < bidAt bids j
        then some false else a.availableI j) ∧
      (w = -1 → a' = { a with availableI := st.availableI }) ∧
      (w ≠ -1 → gpgEligible a a.availableI bids w ∧
        ∃ adv, a.advertisers w = some adv ∧
          a' = { a with
            advertisers := Function.update a.advertisers w
              (some { adv with Budget := adv.Budget - bidAt bids w })
            availableI :=
              if adv.Budget - bidAt bids w < 1 / 100 then
                Function.update st.availableI w (some false)
              else st.availableI }) := by
  have hk := available_isSome_of_WF a hwf
  obtain ⟨st, hrun, hA, _, _, _, _⟩ :=
    gpgScan_spec exp a bids order
      { availableI := a.availableI, maxValue := -1, bestAdvertiserID := -1 } hk
  obtain ⟨st2, hrun2, h | ⟨hb, _, he, _, _, adv, hadv, hres⟩⟩ :=
    processGPG_spec exp a order bids hk
  · have hst : st2 = st := by rw [hrun] at hrun2; exact (Option.some.inj hrun2).symm
    subst hst
    exact ⟨_, _, st2, h.2, hA, fun _ => rfl, fun hne => absurd rfl hne⟩
  · have hst : st2 = st := by rw [hrun] at hrun2; exact (Option.some.inj hrun2).symm
    subst hst
    exact ⟨_, _, st2, hres, hA, fun h => absurd h hb, fun _ => ⟨he, adv, hadv, rfl⟩⟩

/-- A flag that is false stays false along every sequence of calls of `processGPG`, and its
consumer is not the winner of any of them. -/
theorem runGPG_unavailable (exp : K → K) :
    ∀ (arrivals : List (List Int × (Int → Option K))) (a : AdSystem K), a.WF →
      ∃ a' ws, runGPG exp a arrivals = some (a', ws) ∧ a'.WF ∧
        ws.length = arrivals.length ∧
        ∀ id, availableAt a.availableI id = false →
          availableAt a'.availableI id = false ∧ ∀ w ∈ ws, w ≠ -1 → w ≠ id := by
  intro arrivals
  induction arrivals with
  | nil =>
    intro a hwf
    exact ⟨a, [], rfl, hwf, rfl, fun id h => ⟨h, by simp⟩⟩
  | cons arr rest ih =>
    intro a hwf
    obtain ⟨order, bids⟩ := arr
    obtain ⟨a1, w, hrun, hwf1, hmono, hw, _⟩ := processGPG_props exp a order bids hwf
    obtain ⟨a2, ws, hrun2, hwf2, hlen, hrest⟩ := ih a1 hwf1
    refine ⟨a2, w :: ws, by simp [runGPG, hrun, hrun2], hwf2, by simp [hlen], fun id hid => ?_⟩
    have hid1 : availableAt a1.availableI id = false := by
      cases h : availableAt a1.availableI id with
      | false => rfl
      | true => rw [hmono id h] at hid; exact absurd hid (by simp)
    obtain ⟨hfin, hws⟩ := hrest id hid1
    refine ⟨hfin, fun w' hw' hne => ?_⟩
    rcases List.mem_cons.mp hw' with h | h
    · subst h
      intro heq
      have := (hw hne).2.1.1
      rw [heq, hid] at this
      exact absurd this (by simp)
    · exact hws w' h hne

theorem twoConsumers_one (B1 B2 y1 y2 beta : K) (algType : AlgorithmType) :
    (twoConsumers B1 B2 y1 y2 beta algType).advertisers 1 =
        some { ID := 1, InitialBudget := B1, Budget := B1, Y := y1 } ∧
      availableAt (twoConsumers B1 B2 y1 y2 beta algType).availableI 1 = true := by
  constructor
  · simp [twoConsumers, NewAdSystem, newAdSystemLoop, Function.update]
  · simp [twoConsumers, NewAdSystem, newAdSystemLoop, Function.update, availableAt]

theorem twoConsumers_two (B1 B2 y1 y2 beta : K) (algType : AlgorithmType) :
    (twoConsumers B1 B2 y1 y2 beta algType).advertisers 2 =
        some { ID := 2, InitialBudget := B2, Budget := B2, Y := y2 } ∧
      availableAt (twoConsumers B1 B2 y1 y2 beta algType).availableI 2 = true := by
  constructor
  · simp [twoConsumers, NewAdSystem, newAdSystemLoop, Function.update]
  · simp [twoConsumers, NewAdSystem, newAdSystemLoop, Function.update, availableAt]

theorem twoBids_others (b1 b2 : K) (j : Int) (h1 : j ≠ 1) (h2 : j ≠ 2) :
    bidAt (twoBids b1 b2) j ≤ 0 := by
  simp [bidAt, twoBids, h1, h2]

end GPGState

/-! ## The driver and the first arrival -/

section DriverLemmas

variable {K : Type} [LinearOrderedField K]

/-- One call of `ProcessNewArrival` on a well-formed state returns, adds `1` to the time and
keeps `beta` and the algorithm type. -/
theorem ProcessNewArrival_frame (exp : K → K) (fuel : Nat) (a : AdSystem K)
    (order : List Int) (bids : Int → Option K) (hwf : a.WF) (hfuel : order.length < fuel) :
    ∃ a' r, ProcessNewArrival exp fuel a order bids = some (a', r) ∧ a'.WF ∧
      a'.time = a.time + 1 ∧ a'.beta = a.beta ∧ a'.algorithmType = a.algorithmType := by
  have hwf1 : ({ a with time := a.time + 1 } : AdSystem K).WF := hwf
  by_cases h1 : a.algorithmType = PartialAllocation
  · obtain ⟨s', hrun, _, hinv, hwf', _⟩ :=
      processPartialAllocation_props exp fuel { a with time := a.time + 1 } order bids hwf1
        (lt_of_le_of_lt (positiveBidders_length_le _ _ _) hfuel)
    have hrun' := hrun
    rw [h1] at hrun'
    exact ⟨s'.sys, Result.allocations s'.allocations, by simp [ProcessNewArrival, h1, hrun'],
      hwf', hinv.frame.2.1, hinv.frame.1, hinv.frame.2.2.1⟩
  · by_cases h2 : a.algorithmType = GPG
    · obtain ⟨a', w, st, hrun, _, hres1, hres2⟩ :=
        processGPG_full exp { a with time := a.time + 1 } order bids hwf1
      obtain ⟨a1, w1, hrunp, hwf', _⟩ :=
        processGPG_props exp { a with time := a.time + 1 } order bids hwf1
      have ha1 : a1 = a' := by
        rw [hrunp] at hrun
        exact (Prod.mk.inj (Option.some.inj hrun)).1
      subst ha1
      have hrun' := hrun
      rw [h2] at hrun'
      have hne : ¬ (GPG = PartialAllocation) := by decide
      refine ⟨a1, Result.winner w, by simp [ProcessNewArrival, h2, hne, hrun'], hwf', ?_⟩
      by_cases hw : w = -1
      · rw [hres1 hw]
        exact ⟨rfl, rfl, rfl⟩
      · obtain ⟨_, adv, _, ha'⟩ := hres2 hw
        rw [ha']
        exact ⟨rfl, rfl, rfl⟩
    · exact ⟨{ a with time := a.time + 1 }, Result.null, by simp [ProcessNewArrival, h1, h2],
        hwf1, rfl, rfl, rfl⟩

theorem runArrivals_frame (exp : K → K) (fuel : Nat) :
    ∀ (arrivals : List (List Int × (Int → Option K))) (a : AdSystem K), a.WF →
      (∀ arr ∈ arrivals, arr.1.length < fuel) →
      ∃ a', runArrivals exp fuel a arrivals = some a' ∧ a'.WF ∧
        a'.time = a.time + arrivals.length ∧ a'.beta = a.beta ∧
        a'.algorithmType = a.algorithmType := by
  intro arrivals
  induction arrivals with
  | nil =>
    intro a hwf _
    exact ⟨a, rfl, hwf, by simp, rfl, rfl⟩
  | cons arr rest ih =>
    intro a hwf hfuel
    obtain ⟨order, bids⟩ := arr
    obtain ⟨a1, r, hrun, hwf1, ht1, hb1, hal1⟩ :=
      ProcessNewArrival_frame exp fuel a order bids hwf (hfuel _ (List.mem_cons_self _ _))
    obtain ⟨a2, hrun2, hwf2, ht2, hb2, hal2⟩ :=
      ih a1 hwf1 (fun arr h => hfuel arr (List.mem_cons_of_mem _ h))
    refine ⟨a2, by simp [runArrivals, hrun, hrun2], hwf2, ?_, hb2.trans hb1, hal2.trans hal1⟩
    rw [ht2, ht1]
    simp only [List.length_cons, Nat.cast_add, Nat.cast_one]
    ring

end DriverLemmas

/-! ## Passes of the loop of `processPartialAllocation` -/

section PassLemmas

variable {K : Type} [LinearOrderedField K]

theorem mapGet_of_mem (m : List (Int × K)) (k : Int) (v : K) (hnd : (mapKeys m).Nodup)
    (h : (k, v) ∈ m) : mapGet m k = v := by
  induction m with
  | nil => simp at h
  | cons e rest ih =>
    obtain ⟨k', v'⟩ := e
    simp only [mapKeys, List.map_cons, List.nodup_cons] at hnd
    rcases List.mem_cons.mp h with heq | hmem
    · obtain ⟨rfl, rfl⟩ := Prod.mk.inj heq
      simp [mapGet]
    · have hne : ¬ k' = k := by
        intro hk
        subst hk
        exact hnd.1 (List.mem_map.mpr ⟨(k', v), hmem, rfl⟩)
      simp only [mapGet, hne, if_false]
      exact ih hnd.2 hmem

theorem mem_mapKeys_of_mem (m : List (Int × K)) (k : Int) (v : K) (h : (k, v) ∈ m) :
    k ∈ mapKeys m :=
  List.mem_map.mpr ⟨(k, v), h, rfl⟩

theorem mapGet_le_mapSum (m : List (Int × K)) (k : Int) (h : ∀ p ∈ m, 0 ≤ p.2) :
    0 ≤ mapSum m ∧ mapGet m k ≤ mapSum m := by
  induction m with
  | nil => simp [mapSum, mapGet]
  | cons e rest ih =>
    obtain ⟨k', v'⟩ := e
    have hv : 0 ≤ v' := h (k', v') (List.mem_cons_self _ _)
    obtain ⟨h0, hle⟩ := ih (fun p hp => h p (List.mem_cons_of_mem _ hp))
    have hsum : mapSum ((k', v') :: rest) = v' + mapSum rest := by simp [mapSum]
    rw [hsum]
    refine ⟨add_nonneg hv h0, ?_⟩
    by_cases hk : k' = k
    · simp only [mapGet, hk, if_true]
      linarith
    · simp only [mapGet, hk, if_false]
      linarith

/-- The final loop state behind the result of `processPartialAllocation`. -/
theorem processPartialAllocation_loop (exp : K → K) (fuel : Nat) (a : AdSystem K)
    (order : List Int) (bids : Int → Option K) (hwf : a.WF)
    (hfuel : (positiveBidders bids (initialAvailable a order)).length < fuel) :
    ∃ s', paLoop bids (calculateG exp a a.time) fuel
        { sys := a, allocations := [], delta := 0, available := initialAvailable a order }
        = some s' ∧
      processPartialAllocation exp fuel a order bids = some (s'.sys, s'.allocations) ∧
      PAInv a bids s' ∧
      mapKeys s'.allocations = paWinners bids (calculateG exp a a.time) fuel
        { sys := a, allocations := [], delta := 0, available := initialAvailable a order } := by
  obtain ⟨s', hrun, hinv, _, _, hkeys, _⟩ :=
    paLoop_spec a bids (calculateG exp a a.time) hwf.1 fuel
      { sys := a, allocations := [], delta := 0, available := initialAvailable a order }
      (PAInv_init a order bids) (Or.inl hfuel)
  exact ⟨s', hrun, by simp [processPartialAllocation, hrun], hinv,
    by simpa [mapKeys] using hkeys⟩

end PassLemmas

/-! ## Records with the same id in `NewAdSystem` -/

section DuplicateLemmas

variable {K : Type} [LinearOrderedField K]

theorem newAdSystemLoop_other (rand : Nat → K) (k : Int) :
    ∀ (advs : List (Advertiser K)) (i : Nat) (m : Int → Option (Advertiser K))
      (av : Int → Option Bool), (∀ x ∈ advs, x.ID ≠ k) →
      (newAdSystemLoop rand i advs (m, av)).1 k = m k ∧
        (newAdSystemLoop rand i advs (m, av)).2 k = av k := by
  intro advs
  induction advs with
  | nil => intro i m av _; exact ⟨rfl, rfl⟩
  | cons adv rest ih =>
    intro i m av h
    have hne : k ≠ adv.ID := Ne.symm (h adv (List.mem_cons_self _ _))
    obtain ⟨h1, h2⟩ := ih (i + 1)
      (Function.update m adv.ID (some { adv with Y := rand i }))
      (Function.update av adv.ID (some true)) (fun x hx => h x (List.mem_cons_of_mem _ hx))
    simp only [newAdSystemLoop]
    rw [h1, h2]
    exact ⟨Function.update_noteq hne _ _, Function.update_noteq hne _ _⟩

theorem newAdSystemLoop_last (rand : Nat → K) (adv : Advertiser K)
    (post : List (Advertiser K)) (hpost : ∀ x ∈ post, x.ID ≠ adv.ID) :
    ∀ (pre : List (Advertiser K)) (i : Nat) (m : Int → Option (Advertiser K))
      (av : Int → Option Bool),
      (newAdSystemLoop rand i (pre ++ adv :: post) (m, av)).1 adv.ID =
          some { adv with Y := rand (i + pre.length) } ∧
        (newAdSystemLoop rand i (pre ++ adv :: post) (m, av)).2 adv.ID = some true := by
  intro pre
  induction pre with
  | nil =>
    intro i m av
    obtain ⟨h1, h2⟩ := newAdSystemLoop_other rand adv.ID post (i + 1)
      (Function.update m adv.ID (some { adv with Y := rand i }))
      (Function.update av adv.ID (some true)) hpost
    simp only [List.nil_append, newAdSystemLoop, List.length_nil, Nat.add_zero]
    rw [h1, h2]
    simp
  | cons x rest ih =>
    intro i m av
    obtain ⟨h1, h2⟩ := ih (i + 1) (Function.update m x.ID (some { x with Y := rand i }))
      (Function.update av x.ID (some true))
    have hlen : i + 1 + rest.length = i + (x :: rest).length := by
      simp only [List.length_cons]
      omega
    rw [hlen] at h1
    exact ⟨h1, h2⟩

end DuplicateLemmas

/-! ## Rounding to `float64` -/

section Rounding

variable {K : Type} [LinearOrderedField K] [FloorRing K]

theorem round64_zero : round64 (0 : K) = 0 := by simp [round64]

theorem ulpExponent_eq (q : K) (e : Int) (h1 : (2 : K) ^ e ≤ q) (h2 : q < 2 ^ (e + 1)) :
    ulpExponent q = max (e - 52) (-1074) := by
  have hpos : 0 < q := lt_of_lt_of_le (zpow_pos (by norm_num) e) h1
  have hlog : Int.log 2 q = e := by
    apply le_antisymm
    · have := (Int.lt_zpow_iff_log_lt (b := 2) (by norm_num) hpos (x := e + 1)).mp
        (by exact_mod_cast h2)
      omega
    · exact (Int.zpow_le_iff_le_log (b := 2) (by norm_num) hpos).mp (by exact_mod_cast h1)
  unfold ulpExponent
  rw [abs_of_pos hpos, hlog]

theorem roundHalfEven_lo (m : K) (f : Int) (h1 : (f : K) ≤ m) (h2 : m - f < 1 / 2) :
    roundHalfEven m = f := by
  have hf : ⌊m⌋ = f := Int.floor_eq_iff.mpr ⟨h1, by linarith⟩
  unfold roundHalfEven
  rw [hf, if_pos h2]

theorem roundHalfEven_hi (m : K) (f : Int) (h1 : 1 / 2 < m - f) (h2 : m < f + 1) :
    roundHalfEven m = f + 1 := by
  have hf : ⌊m⌋ = f := Int.floor_eq_iff.mpr ⟨by linarith, h2⟩
  unfold roundHalfEven
  rw [hf, if_neg (not_lt.mpr (le_of_lt h1)), if_pos h1]

/-- Rounding down: `q` has binary exponent `e`, and `q / 2^E` lies less than half above the
integer `f`. -/
theorem round64_lo (q : K) (e E f : Int) (h1 : (2 : K) ^ e ≤ q) (h2 : q < 2 ^ (e + 1))
    (hE : max (e - 52) (-1074) = E) (hf1 : (f : K) ≤ q / 2 ^ E)
    (hf2 : q / 2 ^ E - f < 1 / 2) : round64 q = f * 2 ^ E := by
  have hpos : 0 < q := lt_of_lt_of_le (zpow_pos (by norm_num) e) h1
  unfold round64
  rw [if_neg (ne_of_gt hpos), ulpExponent_eq q e h1 h2, hE, roundHalfEven_lo _ f hf1 hf2]

/-- Rounding up: `q` has binary exponent `e`, and `q / 2^E` lies more than half above the
integer `f`. -/
theorem round64_hi (q : K) (e E f : Int) (h1 : (2 : K) ^ e ≤ q) (h2 : q < 2 ^ (e + 1))
    (hE : max (e - 52) (-1074) = E) (hf1 : 1 / 2 < q / 2 ^ E - f)
    (hf2 : q / 2 ^ E < f + 1) : round64 q = (f + 1 : Int) * 2 ^ E := by
  have hpos : 0 < q := lt_of_lt_of_le (zpow_pos (by norm_num) e) h1
  unfold round64
  rw [if_neg (ne_of_gt hpos), ulpExponent_eq q e h1 h2, hE, roundHalfEven_hi _ f hf1 hf2]

/-- The rounding of `q` when it lies in the lower half of the interval between the
neighbouring `float64` values `f * 2 ^ E` and `(f + 1) * 2 ^ E`, all side conditions in one
hypothesis. -/
theorem round64_eq_lo (q r : K) (e E f : Int)
    (h : (2 : K) ^ e ≤ q ∧ q < 2 ^ (e + 1) ∧ max (e - 52) (-1074) = E ∧
      (f : K) ≤ q / 2 ^ E ∧ q / 2 ^ E - f < 1 / 2 ∧ (f : K) * 2 ^ E = r) :
    round64 q = r := by
  rw [round64_lo q e E f h.1 h.2.1 h.2.2.1 h.2.2.2.1 h.2.2.2.2.1]
  exact h.2.2.2.2.2

/-- The rounding of `q` when it lies in the upper half of that interval. -/
theorem round64_eq_hi (q r : K) (e E f : Int)
    (h : (2 : K) ^ e ≤ q ∧ q < 2 ^ (e + 1) ∧ max (e - 52) (-1074) = E ∧
      1 / 2 < q / 2 ^ E - f ∧ q / 2 ^ E < f + 1 ∧ ((f + 1 : Int) : K) * 2 ^ E = r) :
    round64 q = r := by
  rw [round64_hi q e E f h.1 h.2.1 h.2.2.1 h.2.2.2.1 h.2.2.2.2.1]
  exact h.2.2.2.2.2

end Rounding

/-! ## The loop of `processPartialAllocation` over `float64` -/

section FloatLoop

variable {K : Type} [LinearOrderedField K]

theorem selectBestFl_id (a : AdSystem K) (bids : Int → Option K) (gt : K) :
    ∀ (avail : List Int) (acc : Option (Int × Advertiser K) × K),
      selectBestFl id a bids gt avail acc = selectBest a bids gt avail acc := by
  intro avail
  induction avail with
  | nil => intro acc; rfl
  | cons x rest ih =>
    intro acc
    obtain ⟨best, mx⟩ := acc
    simp only [selectBestFl, selectBest, ih, id]

theorem paLoopFl_id (bids : Int → Option K) (gt : K) :
    ∀ (fuel : Nat) (s : PAState K), paLoopFl id bids gt fuel s = paLoop bids gt fuel s := by
  have hbody : ∀ s : PAState K, paBodyFl id bids gt s = paBody bids gt s := by
    intro s
    simp only [paBodyFl, paBody, selectBestFl_id]
    rfl
  intro fuel
  induction fuel with
  | zero => intro s; rfl
  | succ n ih =>
    intro s
    simp only [paLoopFl, paLoop, hbody, ih]

/-- Without rounding the `float64` program is the exact one. -/
theorem processPartialAllocationFl_id (exp : K → K) (fuel : Nat) (a : AdSystem K)
    (order : List Int) (bids : Int → Option K) :
    processPartialAllocationFl id exp fuel a order bids =
      processPartialAllocation exp fuel a order bids := by
  simp only [processPartialAllocationFl, processPartialAllocation, paLoopFl_id]
  rfl

/-- A pass that changes nothing while the loop condition holds: the loop never ends. -/
theorem paLoopFl_never_of_fixed (rnd : K → K) (bids : Int → Option K) (gt : K)
    (s : PAState K) (hg : paGuard s = true) (hb : paBodyFl rnd bids gt s = some s) :
    ∀ fuel, paLoopFl rnd bids gt fuel s = none := by
  intro fuel
  induction fuel with
  | zero => simp [paLoopFl, hg]
  | succ n ih => simp [paLoopFl, hg, hb, ih]

/-- A pass leading to a state from which the loop never ends. -/
theorem paLoopFl_never_of_step (rnd : K → K) (bids : Int → Option K) (gt : K)
    (s s' : PAState K) (hg : paGuard s = true) (hb : paBodyFl rnd bids gt s = some s')
    (hs' : ∀ fuel, paLoopFl rnd bids gt fuel s' = none) :
    ∀ fuel, paLoopFl rnd bids gt fuel s = none := by
  intro fuel
  cases fuel with
  | zero => simp [paLoopFl, hg]
  | succ n => simp [paLoopFl, hg, hb, hs' n]

theorem oneBidderState_guard (B0 bud delta : K) (al : List (Int × K)) (hd : delta < 1) :
    paGuard (oneBidderState B0 bud delta al) = true := by
  simp [paGuard, oneBidderState, hd]

end FloatLoop

/-! ## The order of enumeration -/

section OrderLemmas

variable {K : Type} [LinearOrderedField K]

/-- The scan of `processGPG` keeps the first consumer visited among those with the maximal
value: when the best value changed, every eligible consumer visited before the one kept has
a strictly smaller value. -/
theorem gpgScan_first (exp : K → K) (a : AdSystem K) (bids : Int → Option K) :
    ∀ (order : List Int) (st st' : GPGState K),
      (∀ id, availableAt st.availableI id = true → (a.advertisers id).isSome = true) →
      gpgScan exp a bids order st = some st' → st.maxValue < st'.maxValue →
      ∃ pre post, order = pre ++ st'.bestAdvertiserID :: post ∧
        ∀ j ∈ pre, gpgEligible a st.availableI bids j →
          gpgValue exp a bids j < st'.maxValue := by
  intro order
  induction order with
  | nil =>
    intro st st' _ hrun hlt
    simp only [gpgScan, Option.some.injEq] at hrun
    subst hrun
    exact absurd hlt (lt_irrefl _)
  | cons id rest ih =>
    intro st st' hk hrun hlt
    by_cases h1 : availableAt st.availableI id = true ∧ 0 < bidAt bids id
    · obtain ⟨hav, hbid⟩ := h1
      have hs := hk id hav
      obtain ⟨adv, hadv⟩ := Option.isSome_iff_exists.mp hs
      have hbud : budgetAt a id = adv.Budget := by simp [budgetAt, hadv]
      by_cases h2 : adv.Budget < bidAt bids id
      · have hk1 : ∀ j, availableAt (Function.update st.availableI id (some false)) j = true →
            (a.advertisers j).isSome = true := by
          intro j hj
          rw [availableAt_update_false] at hj
          by_cases hji : j = id
          · simp [hji] at hj
          · simp [hji] at hj; exact hk j hj
        have hnel : ¬ gpgEligible a st.availableI bids id := fun he =>
          absurd he.2.2.2 (by rw [hbud]; exact not_le.mpr h2)
        have hstep : gpgScan exp a bids (id :: rest) st = gpgScan exp a bids rest
            { st with availableI := Function.update st.availableI id (some false) } := by
          simp [gpgScan, hav, not_le.mpr hbid, hadv, h2]
        rw [hstep] at hrun
        obtain ⟨pre, post, hsplit, hpre⟩ := ih _ st' hk1 hrun hlt
        refine ⟨id :: pre, post, by rw [hsplit]; rfl, fun j hj he => ?_⟩
        rcases List.mem_cons.mp hj with hji | hjr
        · subst hji; exact absurd he hnel
        · refine hpre j hjr ⟨?_, he.2.1, he.2.2.1, he.2.2.2⟩
          rw [availableAt_update_false]
          by_cases hji : j = id
          · subst hji; exact absurd he hnel
          · simp [hji, he.1]
      · have hval : gpgValue exp a bids id =
            bidAt bids id * (1 - calculateGForY exp a adv.Y) := by simp [gpgValue, hadv]
        by_cases h3 : bidAt bids id * (1 - calculateGForY exp a adv.Y) > st.maxValue
        · have hstep : gpgScan exp a bids (id :: rest) st = gpgScan exp a bids rest
              { st with maxValue := bidAt bids id * (1 - calculateGForY exp a adv.Y),
                        bestAdvertiserID := id } := by
            simp [gpgScan, hav, not_le.mpr hbid, hadv, h2, h3]
          rw [hstep] at hrun
          obtain ⟨st2, hrun2, _, hB, _, hD, _⟩ := gpgScan_spec exp a bids rest
            { st with maxValue := bidAt bids id * (1 - calculateGForY exp a adv.Y),
                      bestAdvertiserID := id } hk
          have hst : st2 = st' := by rw [hrun] at hrun2; exact (Option.some.inj hrun2).symm
          subst hst
          have hB' : bidAt bids id * (1 - calculateGForY exp a adv.Y) ≤ st2.maxValue := hB
          rcases lt_or_eq_of_le hB' with hlt' | heq'
          · obtain ⟨pre, post, hsplit, hpre⟩ := ih
              { st with maxValue := bidAt bids id * (1 - calculateGForY exp a adv.Y),
                        bestAdvertiserID := id } st2 hk hrun hlt'
            refine ⟨id :: pre, post, by rw [hsplit]; rfl, fun j hj he => ?_⟩
            rcases List.mem_cons.mp hj with hji | hjr
            · subst hji; rw [hval]; exact hlt'
            · exact hpre j hjr he
          · rcases hD with ⟨hb, _⟩ | ⟨_, _, _, hlt''⟩
            · exact ⟨[], rest, by rw [hb]; rfl, by simp⟩
            · exact absurd heq' (ne_of_lt hlt'')
        · have hstep : gpgScan exp a bids (id :: rest) st = gpgScan exp a bids rest st := by
            simp [gpgScan, hav, not_le.mpr hbid, hadv, h2, h3]
          rw [hstep] at hrun
          obtain ⟨pre, post, hsplit, hpre⟩ := ih st st' hk hrun hlt
          refine ⟨id :: pre, post, by rw [hsplit]; rfl, fun j hj he => ?_⟩
          rcases List.mem_cons.mp hj with hji | hjr
          · subst hji; rw [hval]; exact lt_of_le_of_lt (not_lt.mp h3) hlt
          · exact hpre j hjr he
    · have hskip : (!availableAt st.availableI id || decide (bidAt bids id ≤ 0)) = true := by
        by_cases hav : availableAt st.availableI id = true
        · have : bidAt bids id ≤ 0 := not_lt.mp (fun h => h1 ⟨hav, h⟩)
          simp [this]
        · simp [hav]
      have hstep : gpgScan exp a bids (id :: rest) st = gpgScan exp a bids rest st := by
        simp only [gpgScan, hskip, if_true]
      rw [hstep] at hrun
      obtain ⟨pre, post, hsplit, hpre⟩ := ih st st' hk hrun hlt
      refine ⟨id :: pre, post, by rw [hsplit]; rfl, fun j hj he => ?_⟩
      rcases List.mem_cons.mp hj with hji | hjr
      · subst hji; exact absurd ⟨he.1, he.2.1⟩ h1
      · exact hpre j hjr he

/-- The scan of `processGPG` ends in the same state for two enumerations of the keys when no
two eligible consumers have the same value. -/
theorem gpgScan_order_independent (exp : K → K) (a : AdSystem K) (order1 order2 : List Int)
    (bids : Int → Option K) (st1 st2 : GPGState K)
    (hk : ∀ id, availableAt a.availableI id = true → (a.advertisers id).isSome = true)
    (hmem : ∀ j, availableAt a.availableI j = true → j ∈ order1 ∧ j ∈ order2)
    (hnotie : ∀ i j, gpgEligible a a.availableI bids i → gpgEligible a a.availableI bids j →
      gpgValue exp a bids i = gpgValue exp a bids j → i = j)
    (h1 : gpgScan exp a bids order1
      { availableI := a.availableI, maxValue := -1, bestAdvertiserID := -1 } = some st1)
    (h2 : gpgScan exp a bids order2
      { availableI := a.availableI, maxValue := -1, bestAdvertiserID := -1 } = some st2) :
    st1 = st2 := by
  obtain ⟨s1, hr1, hA1, _, hC1, hD1, _⟩ := gpgScan_spec exp a bids order1
    { availableI := a.availableI, maxValue := -1, bestAdvertiserID := -1 } hk
  obtain ⟨s2, hr2, hA2, _, hC2, hD2, _⟩ := gpgScan_spec exp a bids order2
    { availableI := a.availableI, maxValue := -1, bestAdvertiserID := -1 } hk
  have e1 : s1 = st1 := by rw [h1] at hr1; exact (Option.some.inj hr1).symm
  have e2 : s2 = st2 := by rw [h2] at hr2; exact (Option.some.inj hr2).symm
  subst e1; subst e2
  have hfl : s1.availableI = s2.availableI := by
    funext j
    rw [hA1 j, hA2 j]
    by_cases hav : availableAt a.availableI j = true
    · simp [(hmem j hav).1, (hmem j hav).2]
    · simp [hav]
  have hbm : s1.bestAdvertiserID = s2.bestAdvertiserID ∧ s1.maxValue = s2.maxValue := by
    rcases hD1 with ⟨hb1, hm1⟩ | ⟨_, he1, hv1, hlt1⟩
    · rcases hD2 with ⟨hb2, hm2⟩ | ⟨_, he2, hv2, hlt2⟩
      · exact ⟨hb1.trans hb2.symm, hm1.trans hm2.symm⟩
      · have := hC1 _ (hmem _ he2.1).1 he2
        rw [hv2, hm1] at this
        exact absurd hlt2 (not_lt.mpr this)
    · rcases hD2 with ⟨hb2, hm2⟩ | ⟨_, he2, hv2, hlt2⟩
      · have := hC2 _ (hmem _ he1.1).2 he1
        rw [hv1, hm2] at this
        exact absurd hlt1 (not_lt.mpr this)
      · have l1 := hC1 _ (hmem _ he2.1).1 he2
        have l2 := hC2 _ (hmem _ he1.1).2 he1
        rw [hv2] at l1
        rw [hv1] at l2
        have hmx : s1.maxValue = s2.maxValue := le_antisymm l2 l1
        refine ⟨hnotie _ _ he1 he2 ?_, hmx⟩
        rw [hv1, hv2, hmx]
  obtain ⟨f1, m1, b1⟩ := s1
  obtain ⟨f2, m2, b2⟩ := s2
  simp only at hfl hbm
  obtain ⟨hb, hm⟩ := hbm
  subst hfl; subst hb; subst hm
  rfl

/-- The result of `processGPG` is the same for two enumerations of the keys when no two
eligible consumers have the same value. -/
theorem processGPG_order_independent (exp : K → K) (a : AdSystem K) (order1 order2 : List Int)
    (bids : Int → Option K)
    (hk : ∀ id, availableAt a.availableI id = true → (a.advertisers id).isSome = true)
    (hmem : ∀ j, availableAt a.availableI j = true → j ∈ order1 ∧ j ∈ order2)
    (hnotie : ∀ i j, gpgEligible a a.availableI bids i → gpgEligible a a.availableI bids j →
      gpgValue exp a bids i = gpgValue exp a bids j → i = j) :
    processGPG exp a order1 bids = processGPG exp a order2 bids := by
  obtain ⟨s1, hr1, _⟩ := gpgScan_spec exp a bids order1
    { availableI := a.availableI, maxValue := -1, bestAdvertiserID := -1 } hk
  obtain ⟨s2, hr2, _⟩ := gpgScan_spec exp a bids order2
    { availableI := a.availableI, maxValue := -1, bestAdvertiserID := -1 } hk
  have hs := gpgScan_order_independent exp a order1 order2 bids s1 s2 hk hmem hnotie hr1 hr2
  subst hs
  unfold processGPG
  rw [hr1, hr2]

theorem paValueFl_id (gt : K) (a : AdSystem K) (bids : Int → Option K) (j : Int) :
    paValueFl id gt a bids j = paValue gt a bids j := rfl

/-- The scan of `processPartialAllocation`, with or without rounding: the values of the
consumers scanned are bounded by the final maximum, and when the best changed the consumer
kept attains the maximum and every bidder scanned before it has a strictly smaller value. -/
theorem selectBestFl_spec (rnd : K → K) (a : AdSystem K) (bids : Int → Option K) (gt : K) :
    ∀ (avail : List Int) (best : Option (Int × Advertiser K)) (mx : K),
      mx ≤ (selectBestFl rnd a bids gt avail (best, mx)).2 ∧
      (∀ j ∈ avail, 0 < bidAt bids j → (a.advertisers j).isSome = true →
        paValueFl rnd gt a bids j ≤ (selectBestFl rnd a bids gt avail (best, mx)).2) ∧
      (((selectBestFl rnd a bids gt avail (best, mx)).1 = best ∧
          (selectBestFl rnd a bids gt avail (best, mx)).2 = mx) ∨
        (∃ w adv pre post,
          (selectBestFl rnd a bids gt avail (best, mx)).1 = some (w, adv) ∧
          avail = pre ++ w :: post ∧ a.advertisers w = some adv ∧ 0 < bidAt bids w ∧
          paValueFl rnd gt a bids w = (selectBestFl rnd a bids gt avail (best, mx)).2 ∧
          mx < (selectBestFl rnd a bids gt avail (best, mx)).2 ∧
          ∀ j ∈ pre, 0 < bidAt bids j → (a.advertisers j).isSome = true →
            paValueFl rnd gt a bids j < (selectBestFl rnd a bids gt avail (best, mx)).2)) := by
  intro avail
  induction avail with
  | nil =>
    intro best mx
    simp [selectBestFl]
  | cons id rest ih =>
    intro best mx
    by_cases h1 : bidAt bids id ≤ 0
    · have hstep : selectBestFl rnd a bids gt (id :: rest) (best, mx) =
          selectBestFl rnd a bids gt rest (best, mx) := by simp [selectBestFl, h1]
      rw [hstep]
      obtain ⟨hB, hC, hD⟩ := ih best mx
      refine ⟨hB, ?_, ?_⟩
      · intro j hj hbid hs
        rcases List.mem_cons.mp hj with hji | hjr
        · subst hji; exact absurd hbid (not_lt.mpr h1)
        · exact hC j hjr hbid hs
      · rcases hD with hD | ⟨w, adv, pre, post, hr, hsplit, hadv, hbid, hv, hlt, hpre⟩
        · exact Or.inl hD
        · refine Or.inr ⟨w, adv, id :: pre, post, hr, by rw [hsplit]; rfl, hadv, hbid, hv, hlt,
            fun j hj hb hs => ?_⟩
          rcases List.mem_cons.mp hj with hji | hjr
          · subst hji; exact absurd hb (not_lt.mpr h1)
          · exact hpre j hjr hb hs
    · cases hadv : a.advertisers id with
      | none =>
        have hstep : selectBestFl rnd a bids gt (id :: rest) (best, mx) =
            selectBestFl rnd a bids gt rest (best, mx) := by simp [selectBestFl, h1, hadv]
        rw [hstep]
        obtain ⟨hB, hC, hD⟩ := ih best mx
        refine ⟨hB, ?_, ?_⟩
        · intro j hj hbid hs
          rcases List.mem_cons.mp hj with hji | hjr
          · subst hji; rw [hadv] at hs; simp at hs
          · exact hC j hjr hbid hs
        · rcases hD with hD | ⟨w, adv, pre, post, hr, hsplit, hadv', hbid, hv, hlt, hpre⟩
          · exact Or.inl hD
          · refine Or.inr ⟨w, adv, id :: pre, post, hr, by rw [hsplit]; rfl, hadv', hbid, hv,
              hlt, fun j hj hb hs => ?_⟩
            rcases List.mem_cons.mp hj with hji | hjr
            · subst hji; rw [hadv] at hs; simp at hs
            · exact hpre j hjr hb hs
      | some adv =>
        have hval : paValueFl rnd gt a bids id =
            rnd (bidAt bids id * rnd (1 - rnd (gt * adv.Y))) := by
          simp [paValueFl, hadv]
        by_cases h3 : rnd (bidAt bids id * rnd (1 - rnd (gt * adv.Y))) > mx
        · have hstep : selectBestFl rnd a bids gt (id :: rest) (best, mx) =
              selectBestFl rnd a bids gt rest
                (some (id, adv), rnd (bidAt bids id * rnd (1 - rnd (gt * adv.Y)))) := by
            simp [selectBestFl, h1, hadv, h3]
          rw [hstep]
          obtain ⟨hB, hC, hD⟩ :=
            ih (some (id, adv)) (rnd (bidAt bids id * rnd (1 - rnd (gt * adv.Y))))
          refine ⟨le_trans (le_of_lt h3) hB, ?_, ?_⟩
          · intro j hj hbid hs
            rcases List.mem_cons.mp hj with hji | hjr
            · subst hji; rw [hval]; exact hB
            · exact hC j hjr hbid hs
          · rcases hD with ⟨hb, hm⟩ | ⟨w, adv', pre, post, hr, hsplit, hadv', hbid, hv, hlt, hpre⟩
            · refine Or.inr ⟨id, adv, [], rest, hb, rfl, hadv, not_le.mp h1, ?_, ?_, by simp⟩
              · rw [hm]; exact hval
              · rw [hm]; exact h3
            · refine Or.inr ⟨w, adv', id :: pre, post, hr, by rw [hsplit]; rfl, hadv', hbid, hv,
                lt_trans h3 hlt, fun j hj hb hs => ?_⟩
              rcases List.mem_cons.mp hj with hji | hjr
              · subst hji; rw [hval]; exact hlt
              · exact hpre j hjr hb hs
        · have hstep : selectBestFl rnd a bids gt (id :: rest) (best, mx) =
              selectBestFl rnd a bids gt rest (best, mx) := by
            simp [selectBestFl, h1, hadv, h3]
          rw [hstep]
          obtain ⟨hB, hC, hD⟩ := ih best mx
          refine ⟨hB, ?_, ?_⟩
          · intro j hj hbid hs
            rcases List.mem_cons.mp hj with hji | hjr
            · subst hji; rw [hval]; exact le_trans (not_lt.mp h3) hB
            · exact hC j hjr hbid hs
          · rcases hD with hD | ⟨w, adv', pre, post, hr, hsplit, hadv', hbid, hv, hlt, hpre⟩
            · exact Or.inl hD
            · refine Or.inr ⟨w, adv', id :: pre, post, hr, by rw [hsplit]; rfl, hadv', hbid, hv,
                hlt, fun j hj hb hs => ?_⟩
              rcases List.mem_cons.mp hj with hji | hjr
              · subst hji; rw [hval]; exact lt_of_le_of_lt (not_lt.mp h3) hlt
              · exact hpre j hjr hb hs

/-- The scan selects the same consumer from two lists with the same members when no two
bidders of the list have the same value. -/
theorem selectBestFl_perm (rnd : K → K) (a : AdSystem K) (bids : Int → Option K) (gt : K)
    (l1 l2 : List Int) (best : Option (Int × Advertiser K)) (mx : K)
    (hmem : ∀ j, j ∈ l1 ↔ j ∈ l2)
    (hnotie : ∀ i ∈ l1, ∀ j ∈ l1, 0 < bidAt bids i → 0 < bidAt bids j →
      (a.advertisers i).isSome = true → (a.advertisers j).isSome = true →
      paValueFl rnd gt a bids i = paValueFl rnd gt a bids j → i = j) :
    (selectBestFl rnd a bids gt l1 (best, mx)).1 =
      (selectBestFl rnd a bids gt l2 (best, mx)).1 := by
  obtain ⟨_, hC1, hD1⟩ := selectBestFl_spec rnd a bids gt l1 best mx
  obtain ⟨_, hC2, hD2⟩ := selectBestFl_spec rnd a bids gt l2 best mx
  rcases hD1 with ⟨hb1, hm1⟩ | ⟨w1, adv1, pre1, post1, hr1, hs1, ha1, hbid1, hv1, hlt1, _⟩
  · rcases hD2 with ⟨hb2, _⟩ | ⟨w2, adv2, pre2, post2, hr2, hs2, ha2, hbid2, hv2, hlt2, _⟩
    · rw [hb1, hb2]
    · have hw2 : w2 ∈ l2 := by rw [hs2]; simp
      have := hC1 w2 ((hmem w2).mpr hw2) hbid2 (by simp [ha2])
      rw [hv2, hm1] at this
      exact absurd hlt2 (not_lt.mpr this)
  · have hw1 : w1 ∈ l1 := by rw [hs1]; simp
    rcases hD2 with ⟨_, hm2⟩ | ⟨w2, adv2, pre2, post2, hr2, hs2, ha2, hbid2, hv2, hlt2, _⟩
    · have := hC2 w1 ((hmem w1).mp hw1) hbid1 (by simp [ha1])
      rw [hv1, hm2] at this
      exact absurd hlt1 (not_lt.mpr this)
    · have hw2 : w2 ∈ l2 := by rw [hs2]; simp
      have l1' := hC1 w2 ((hmem w2).mpr hw2) hbid2 (by simp [ha2])
      have l2' := hC2 w1 ((hmem w1).mp hw1) hbid1 (by simp [ha1])
      rw [hv2] at l1'
      rw [hv1] at l2'
      have hw : w1 = w2 := hnotie w1 hw1 w2 ((hmem w2).mpr hw2) hbid1 hbid2 (by simp [ha1])
        (by simp [ha2]) (by rw [hv1, hv2]; exact le_antisymm l2' l1')
      subst hw
      rw [ha1] at ha2
      rw [hr1, hr2, Option.some.inj ha2]

/-- The loop of `processPartialAllocation`, with or without rounding, ends with the same
records and the same map from two states that differ only in the order of the available
list, when no two bidders with budget have the same value. -/
theorem paLoopFl_perm (rnd : K → K) (a0 : AdSystem K) (bids : Int → Option K) (gt : K)
    (hnotie : ∀ i j, hasBudget a0.advertisers i = true → hasBudget a0.advertisers j = true →
      0 < bidAt bids i → 0 < bidAt bids j →
      paValueFl rnd gt a0 bids i = paValueFl rnd gt a0 bids j → i = j) :
    ∀ (fuel : Nat) (sys : AdSystem K) (al : List (Int × K)) (d : K) (av1 av2 : List Int),
      av1.Perm av2 →
      (∀ k, (sys.advertisers k).map (fun adv => adv.Y) =
        (a0.advertisers k).map (fun adv => adv.Y)) →
      (∀ k ∈ av1, hasBudget a0.advertisers k = true) →
      (paLoopFl rnd bids gt fuel
          { sys := sys, allocations := al, delta := d, available := av1 }).map
          (fun s => (s.sys, s.allocations)) =
        (paLoopFl rnd bids gt fuel
          { sys := sys, allocations := al, delta := d, available := av2 }).map
          (fun s => (s.sys, s.allocations)) := by
  intro fuel
  induction fuel with
  | zero =>
    intro sys al d av1 av2 hp _ _
    have hg : paGuard { sys := sys, allocations := al, delta := d, available := av1 } =
        paGuard { sys := sys, allocations := al, delta := d, available := av2 } := by
      simp [paGuard, hp.length_eq]
    simp only [paLoopFl, hg]
    split <;> rfl
  | succ n ih =>
    intro sys al d av1 av2 hp hY hav
    have hg : paGuard { sys := sys, allocations := al, delta := d, available := av1 } =
        paGuard { sys := sys, allocations := al, delta := d, available := av2 } := by
      simp [paGuard, hp.length_eq]
    have hval : ∀ k, paValueFl rnd gt sys bids k = paValueFl rnd gt a0 bids k := by
      intro k
      have := hY k
      unfold paValueFl
      cases h1 : sys.advertisers k with
      | none =>
        cases h2 : a0.advertisers k with
        | none => rfl
        | some adv0 => rw [h1, h2] at this; simp at this
      | some adv =>
        cases h2 : a0.advertisers k with
        | none => rw [h1, h2] at this; simp at this
        | some adv0 =>
          rw [h1, h2] at this
          simp only [Option.map_some', Option.some.injEq] at this
          simp only [this]
    have hsel : (selectBestFl rnd sys bids gt av1 (none, -1)).1 =
        (selectBestFl rnd sys bids gt av2 (none, -1)).1 := by
      apply selectBestFl_perm rnd sys bids gt av1 av2 none (-1) (fun j => hp.mem_iff)
      intro i hi j hj hbi hbj _ _ hv
      rw [hval i, hval j] at hv
      exact hnotie i j (hav i hi) (hav j hj) hbi hbj hv
    simp only [paLoopFl, hg, paBodyFl]
    rw [← hsel]
    by_cases hgd : paGuard { sys := sys, allocations := al, delta := d, available := av2 } = true
    · simp only [hgd, if_true]
      obtain ⟨_, _, hD⟩ := selectBestFl_spec rnd sys bids gt av1 none (-1)
      rcases hD with ⟨hb, _⟩ | ⟨w, adv, pre, post, hr, hs, ha, _, _, _, _⟩
      · simp only [hb, Option.map_some']
      · simp only [hr, paRefresh, paAllocateFl]
        split
        · simp only
          apply ih
          · exact hp.filter _
          · intro k
            by_cases hkw : k = w
            · subst hkw
              simp [ha, ← hY k]
            · simp [Function.update_noteq hkw, hY k]
          · intro k hk
            exact hav k (List.mem_filter.mp hk).1
        · simp only
          apply ih
          · exact hp.filter _
          · exact hY
          · intro k hk
            exact hav k (List.mem_filter.mp hk).1
    · have hgd' : paGuard { sys := sys, allocations := al, delta := d, available := av2 } =
          false := by simpa using hgd
      simp only [hgd', Bool.false_eq_true, if_false, Option.map_some']

/-- Without ties `processPartialAllocation`, with or without rounding, returns the same
result for every two enumerations of the same keys. -/
theorem processPartialAllocationFl_order_independent (rnd exp : K → K) (fuel : Nat)
    (a : AdSystem K) (order1 order2 : List Int) (bids : Int → Option K)
    (hp : order1.Perm order2)
    (hnotie : ∀ i j, hasBudget a.advertisers i = true → hasBudget a.advertisers j = true →
      0 < bidAt bids i → 0 < bidAt bids j →
      paValueFl rnd (calculateGFl rnd exp a a.time) a bids i =
        paValueFl rnd (calculateGFl rnd exp a a.time) a bids j → i = j) :
    processPartialAllocationFl rnd exp fuel a order1 bids =
      processPartialAllocationFl rnd exp fuel a order2 bids := by
  have h := paLoopFl_perm rnd a bids (calculateGFl rnd exp a a.time) hnotie fuel a [] 0
    (initialAvailable a order1) (initialAvailable a order2) (hp.filter _) (fun _ => rfl)
    (fun k hk => (List.mem_filter.mp hk).2)
  unfold processPartialAllocationFl
  simp only
  generalize paLoopFl rnd bids (calculateGFl rnd exp a a.time) fuel
    { sys := a, allocations := [], delta := 0, available := initialAvailable a order1 } = r1
    at h
  generalize paLoopFl rnd bids (calculateGFl rnd exp a a.time) fuel
    { sys := a, allocations := [], delta := 0, available := initialAvailable a order2 } = r2
    at h
  cases r1 <;> cases r2 <;> simp_all

theorem calculateGFl_id (exp : K → K) (a : AdSystem K) (t : Int) :
    calculateGFl id exp a t = calculateG exp a t := by
  simp [calculateGFl, calculateG]

theorem enumerates_perm {V : Type} (order1 order2 : List Int) (m : Int → Option V)
    (h1 : Enumerates order1 m) (h2 : Enumerates order2 m) : order1.Perm order2 :=
  (List.perm_ext_iff_of_nodup h1.1 h2.1).mpr (fun k => (h1.2 k).trans (h2.2 k).symm)

end OrderLemmas

/-! ## One consumer, first arrival, over `float64` -/

section FloatOneBidder

theorem round64_one : round64 (1 : ℝ) = 1 :=
  round64_eq_lo _ _ 0 (-52) 4503599627370496 (by norm_num)

/-- A pass on the single consumer `1` that allocates `dI` and leaves the budget `nb > 0`. -/
theorem oneBidder_pass_step (B0 b bud δ d1 d2 dI t nb nδ : ℝ) (al : List (Int × ℝ))
    (hbpos : 0 < b) (hv : round64 b = b)
    (h1 : round64 (1 - δ) = d1) (h2 : round64 (bud / b) = d2) (hmin : min d1 d2 = dI)
    (hpos : 0 < dI) (h3 : round64 (b * dI) = t) (h4 : round64 (bud - t) = nb)
    (h5 : round64 (δ + dI) = nδ) (hnb : 0 < nb) :
    paBodyFl round64 (oneBid b) 1 (oneBidderState B0 bud δ al) =
      some (oneBidderState B0 nb nδ (mapSet al 1 dI)) := by
  have hval : -1 < b := by linarith
  simp [paBodyFl, selectBestFl, paAllocateFl, paRefresh, oneBidderState, hasBudget, bidAt,
    oneBid, not_le.mpr hbpos, round64_zero, round64_one, hv, hval, h1, h2, hmin, hpos, h3, h4,
    h5, hnb]

/-- A pass on the single consumer `1` in which `Budget / bid` rounds to `0`: nothing is
allocated and the state is left as it was. -/
theorem oneBidder_pass_idle (B0 b bud δ d1 : ℝ) (al : List (Int × ℝ))
    (hbpos : 0 < b) (hb : 0 < bud) (hv : round64 b = b)
    (h1 : round64 (1 - δ) = d1) (h2 : round64 (bud / b) = 0) (hd1 : 0 ≤ d1) :
    paBodyFl round64 (oneBid b) 1 (oneBidderState B0 bud δ al) =
      some (oneBidderState B0 bud δ al) := by
  have hval : -1 < b := by linarith
  simp [paBodyFl, selectBestFl, paAllocateFl, paRefresh, oneBidderState, hasBudget, bidAt,
    oneBid, not_le.mpr hbpos, round64_zero, round64_one, hv, hval, h1, h2, hd1, hb]

theorem float49_bid : round64 (49 : ℝ) = 49 :=
  round64_eq_lo _ _ 5 (-47) 6896136929411072 (by norm_num)

theorem float49_pass_22 (al : List (Int × ℝ)) (fuel : Nat) :
    paLoopFl round64 (oneBid 49) 1 fuel
      (oneBidderState 4 (23 / 2 ^ 1074) (2941126287262365 / 36028797018963968) al) = none :=
  paLoopFl_never_of_fixed _ _ _ _ (oneBidderState_guard _ _ _ _ (by norm_num))
    (oneBidder_pass_idle 4 49 _ _ (8271917682925401 / 9007199254740992) al (by norm_num)
      (by norm_num) float49_bid
      (round64_eq_hi _ _ (-1) (-53) (8271917682925400) (by norm_num))
      (round64_eq_lo _ _ (-1076) (-1074) (0) (by norm_num)) (by norm_num)) fuel

theorem float49_pass_21 (al : List (Int × ℝ)) (fuel : Nat) :
    paLoopFl round64 (oneBid 49) 1 fuel
      (oneBidderState 4 (1 / 2 ^ 1058) (2941126287262365 / 36028797018963968) al) = none :=
  paLoopFl_never_of_step _ _ _ _ _ (oneBidderState_guard _ _ _ _ (by norm_num))
    (oneBidder_pass_step 4 49 (1 / 2 ^ 1058) (2941126287262365 / 36028797018963968)
      (8271917682925401 / 9007199254740992)
      (1337 / 2 ^ 1074) (1337 / 2 ^ 1074)
      (65513 / 2 ^ 1074) (23 / 2 ^ 1074)
      (2941126287262365 / 36028797018963968) al (by norm_num) float49_bid
      (round64_eq_hi _ _ (-1) (-53) (8271917682925400) (by norm_num))
      (round64_eq_lo _ _ (-1064) (-1074) (1337) (by norm_num))
      (min_eq_right (by norm_num)) (by norm_num)
      (round64_eq_lo _ _ (-1059) (-1074) (65513) (by norm_num))
      (round64_eq_lo _ _ (-1070) (-1074) (23) (by norm_num))
      (round64_eq_lo _ _ (-4) (-56) (5882252574524730) (by norm_num))
      (by norm_num))
    (fun fuel' => float49_pass_22 _ fuel') fuel

theorem float49_pass_20 (al : List (Int × ℝ)) (fuel : Nat) :
    paLoopFl round64 (oneBid 49) 1 fuel
      (oneBidderState 4 (1 / 2 ^ 1005) (2941126287262365 / 36028797018963968) al) = none :=
  paLoopFl_never_of_step _ _ _ _ _ (oneBidderState_guard _ _ _ _ (by norm_num))
    (oneBidder_pass_step 4 49 (1 / 2 ^ 1005) (2941126287262365 / 36028797018963968)
      (8271917682925401 / 9007199254740992)
      (5882252574524729 / 2 ^ 1063) (5882252574524729 / 2 ^ 1063)
      (9007199254740991 / 2 ^ 1058) (1 / 2 ^ 1058)
      (2941126287262365 / 36028797018963968) al (by norm_num) float49_bid
      (round64_eq_hi _ _ (-1) (-53) (8271917682925400) (by norm_num))
      (round64_eq_lo _ _ (-1011) (-1063) (5882252574524729) (by norm_num))
      (min_eq_right (by norm_num)) (by norm_num)
      (round64_eq_lo _ _ (-1006) (-1058) (9007199254740991) (by norm_num))
      (round64_eq_lo _ _ (-1058) (-1074) (65536) (by norm_num))
      (round64_eq_lo _ _ (-4) (-56) (5882252574524730) (by norm_num))
      (by norm_num))
    (fun fuel' => float49_pass_21 _ fuel') fuel

theorem float49_pass_19 (al : List (Int × ℝ)) (fuel : Nat) :
    paLoopFl round64 (oneBid 49) 1 fuel
      (oneBidderState 4 (1 / 2 ^ 952) (2941126287262365 / 36028797018963968) al) = none :=
  paLoopFl_never_of_step _ _ _ _ _ (oneBidderState_guard _ _ _ _ (by norm_num))
    (oneBidder_pass_step 4 49 (1 / 2 ^ 952) (2941126287262365 / 36028797018963968)
      (8271917682925401 / 9007199254740992)
      (5882252574524729 / 2 ^ 1010) (5882252574524729 / 2 ^ 1010)
      (9007199254740991 / 2 ^ 1005) (1 / 2 ^ 1005)
      (2941126287262365 / 36028797018963968) al (by norm_num) float49_bid
      (round64_eq_hi _ _ (-1) (-53) (8271917682925400) (by norm_num))
      (round64_eq_lo _ _ (-958) (-1010) (5882252574524729) (by norm_num))
      (min_eq_right (by norm_num)) (by norm_num)
      (round64_eq_lo _ _ (-953) (-1005) (9007199254740991) (by norm_num))
      (round64_eq_lo _ _ (-1005) (-1057) (4503599627370496) (by norm_num))
      (round64_eq_lo _ _ (-4) (-56) (5882252574524730) (by norm_num))
      (by norm_num))
    (fun fuel' => float49_pass_20 _ fuel') fuel

theorem float49_pass_18 (al : List (Int × ℝ)) (fuel : Nat) :
    paLoopFl round64 (oneBid 49) 1 fuel
      (oneBidderState 4 (1 / 2 ^ 899) (2941126287262365 / 36028797018963968) al) = none :=
  paLoopFl_never_of_step _ _ _ _ _ (oneBidderState_guard _ _ _ _ (by norm_num))
    (oneBidder_pass_step 4 49 (1 / 2 ^ 899) (2941126287262365 / 36028797018963968)
      (8271917682925401 / 9007199254740992)
      (5882252574524729 / 2 ^ 957) (5882252574524729 / 2 ^ 957)
      (9007199254740991 / 2 ^ 952) (1 / 2 ^ 952)
      (2941126287262365 / 36028797018963968) al (by norm_num) float49_bid
      (round64_eq_hi _ _ (-1) (-53) (8271917682925400) (by norm_num))
      (round64_eq_lo _ _ (-905) (-957) (5882252574524729) (by norm_num))
      (min_eq_right (by norm_num)) (by norm_num)
      (round64_eq_lo _ _ (-900) (-952) (9007199254740991) (by norm_num))
      (round64_eq_lo _ _ (-952) (-1004) (4503599627370496) (by norm_num))
      (round64_eq_lo _ _ (-4) (-56) (5882252574524730) (by norm_num))
      (by norm_num))
    (fun fuel' => float49_pass_19 _ fuel') fuel

theorem float49_pass_17 (al : List (Int × ℝ)) (fuel : Nat) :
    paLoopFl round64 (oneBid 49) 1 fuel
      (oneBidderState 4 (1 / 2 ^ 846) (2941126287262365 / 36028797018963968) al) = none :=
  paLoopFl_never_of_step _ _ _ _ _ (oneBidderState_guard _ _ _ _ (by norm_num))
    (oneBidder_pass_step 4 49 (1 / 2 ^ 846) (2941126287262365 / 36028797018963968)
      (8271917682925401 / 9007199254740992)
      (5882252574524729 / 2 ^ 904) (5882252574524729 / 2 ^ 904)
      (9007199254740991 / 2 ^ 899) (1 / 2 ^ 899)
      (2941126287262365 / 36028797018963968) al (by norm_num) float49_bid
      (round64_eq_hi _ _ (-1) (-53) (8271917682925400) (by norm_num))
      (round64_eq_lo _ _ (-852) (-904) (5882252574524729) (by norm_num))
      (min_eq_right (by norm_num)) (by norm_num)
      (round64_eq_lo _ _ (-847) (-899) (9007199254740991) (by norm_num))
      (round64_eq_lo _ _ (-899) (-951) (4503599627370496) (by norm_num))
      (round64_eq_lo _ _ (-4) (-56) (5882252574524730) (by norm_num))
      (by norm_num))
    (fun fuel' => float49_pass_18 _ fuel') fuel

theorem float49_pass_16 (al : List (Int × ℝ)) (fuel : Nat) :
    paLoopFl round64 (oneBid 49) 1 fuel
      (oneBidderState 4 (1 / 2 ^ 793) (2941126287262365 / 36028797018963968) al) = none :=
  paLoopFl_never_of_step _ _ _ _ _ (oneBidderState_guard _ _ _ _ (by norm_num))
    (oneBidder_pass_step 4 49 (1 / 2 ^ 793) (2941126287262365 / 36028797018963968)
      (8271917682925401 / 9007199254740992)
      (5882252574524729 / 2 ^ 851) (5882252574524729 / 2 ^ 851)
      (9007199254740991 / 2 ^ 846) (1 / 2 ^ 846)
      (2941126287262365 / 36028797018963968) al (by norm_num) float49_bid
      (round64_eq_hi _ _ (-1) (-53) (8271917682925400) (by norm_num))
      (round64_eq_lo _ _ (-799) (-851) (5882252574524729) (by norm_num))
      (min_eq_right (by norm_num)) (by norm_num)
      (round64_eq_lo _ _ (-794) (-846) (9007199254740991) (by norm_num))
      (round64_eq_lo _ _ (-846) (-898) (4503599627370496) (by norm_num))
      (round64_eq_lo _ _ (-4) (-56) (5882252574524730) (by norm_num))
      (by norm_num))
    (fun fuel' => float49_pass_17 _ fuel') fuel

theorem float49_pass_15 (al : List (Int × ℝ)) (fuel : Nat) :
    paLoopFl round64 (oneBid 49) 1 fuel
      (oneBidderState 4 (1 / 2 ^ 740) (2941126287262365 / 36028797018963968) al) = none :=
  paLoopFl_never_of_step _ _ _ _ _ (oneBidderState_guard _ _ _ _ (by norm_num))
    (oneBidder_pass_step 4 49 (1 / 2 ^ 740) (2941126287262365 / 36028797018963968)
      (8271917682925401 / 9007199254740992)
      (5882252574524729 / 2 ^ 798) (5882252574524729 / 2 ^ 798)
      (9007199254740991 / 2 ^ 793) (1 / 2 ^ 793)
      (2941126287262365 / 36028797018963968) al (by norm_num) float49_bid
      (round64_eq_hi _ _ (-1) (-53) (8271917682925400) (by norm_num))
      (round64_eq_lo _ _ (-746) (-798) (5882252574524729) (by norm_num))
      (min_eq_right (by norm_num)) (by norm_num)
      (round64_eq_lo _ _ (-741) (-793) (9007199254740991) (by norm_num))
      (round64_eq_lo _ _ (-793) (-845) (4503599627370496) (by norm_num))
      (round64_eq_lo _ _ (-4) (-56) (5882252574524730) (by norm_num))
      (by norm_num))
    (fun fuel' => float49_pass_16 _ fuel') fuel

theorem float49_pass_14 (al : List (Int × ℝ)) (fuel : Nat) :
    paLoopFl round64 (oneBid 49) 1 fuel
      (oneBidderState 4 (1 / 2 ^ 687) (2941126287262365 / 36028797018963968) al) = none :=
  paLoopFl_never_of_step _ _ _ _ _ (oneBidderState_guard _ _ _ _ (by norm_num))
    (oneBidder_pass_step 4 49 (1 / 2 ^ 687) (2941126287262365 / 36028797018963968)
      (8271917682925401 / 9007199254740992)
      (5882252574524729 / 2 ^ 745) (5882252574524729 / 2 ^ 745)
      (9007199254740991 / 2 ^ 740) (1 / 2 ^ 740)
      (2941126287262365 / 36028797018963968) al (by norm_num) float49_bid
      (round64_eq_hi _ _ (-1) (-53) (8271917682925400) (by norm_num))
      (round64_eq_lo _ _ (-693) (-745) (5882252574524729) (by norm_num))
      (min_eq_right (by norm_num)) (by norm_num)
      (round64_eq_lo _ _ (-688) (-740) (9007199254740991) (by norm_num))
      (round64_eq_lo _ _ (-740) (-792) (4503599627370496) (by norm_num))
      (round64_eq_lo _ _ (-4) (-56) (5882252574524730) (by norm_num))
      (by norm_num))
    (fun fuel' => float49_pass_15 _ fuel') fuel

theorem float49_pass_13 (al : List (Int × ℝ)) (fuel : Nat) :
    paLoopFl round64 (oneBid 49) 1 fuel
      (oneBidderState 4 (1 / 2 ^ 634) (2941126287262365 / 36028797018963968) al) = none :=
  paLoopFl_never_of_step _ _ _ _ _ (oneBidderState_guard _ _ _ _ (by norm_num))
    (oneBidder_pass_step 4 49 (1 / 2 ^ 634) (2941126287262365 / 36028797018963968)
      (8271917682925401 / 9007199254740992)
      (5882252574524729 / 2 ^ 692) (5882252574524729 / 2 ^ 692)
      (9007199254740991 / 2 ^ 687) (1 / 2 ^ 687)
      (2941126287262365 / 36028797018963968) al (by norm_num) float49_bid
      (round64_eq_hi _ _ (-1) (-53) (8271917682925400) (by norm_num))
      (round64_eq_lo _ _ (-640) (-692) (5882252574524729) (by norm_num))
      (min_eq_right (by norm_num)) (by norm_num)
      (round64_eq_lo _ _ (-635) (-687) (9007199254740991) (by norm_num))
      (round64_eq_lo _ _ (-687) (-739) (4503599627370496) (by norm_num))
      (round64_eq_lo _ _ (-4) (-56) (5882252574524730) (by norm_num))
      (by norm_num))
    (fun fuel' => float49_pass_14 _ fuel') fuel

theorem float49_pass_12 (al : List (Int × ℝ)) (fuel : Nat) :
    paLoopFl round64 (oneBid 49) 1 fuel
      (oneBidderState 4 (1 / 2 ^ 581) (2941126287262365 / 36028797018963968) al) = none :=
  paLoopFl_never_of_step _ _ _ _ _ (oneBidderState_guard _ _ _ _ (by norm_num))
    (oneBidder_pass_step 4 49 (1 / 2 ^ 581) (2941126287262365 / 36028797018963968)
      (8271917682925401 / 9007199254740992)
      (5882252574524729 / 2 ^ 639) (5882252574524729 / 2 ^ 639)
      (9007199254740991 / 2 ^ 634) (1 / 2 ^ 634)
      (2941126287262365 / 36028797018963968) al (by norm_num) float49_bid
      (round64_eq_hi _ _ (-1) (-53) (8271917682925400) (by norm_num))
      (round64_eq_lo _ _ (-587) (-639) (5882252574524729) (by norm_num))
      (min_eq_right (by norm_num)) (by norm_num)
      (round64_eq_lo _ _ (-582) (-634) (9007199254740991) (by norm_num))
      (round64_eq_lo _ _ (-634) (-686) (4503599627370496) (by norm_num))
      (round64_eq_lo _ _ (-4) (-56) (5882252574524730) (by norm_num))
      (by norm_num))
    (fun fuel' => float49_pass_13 _ fuel') fuel

theorem float49_pass_11 (al : List (Int × ℝ)) (fuel : Nat) :
    paLoopFl round64 (oneBid 49) 1 fuel
      (oneBidderState 4 (1 / 2 ^ 528) (2941126287262365 / 36028797018963968) al) = none :=
  paLoopFl_never_of_step _ _ _ _ _ (oneBidderState_guard _ _ _ _ (by norm_num))
    (oneBidder_pass_step 4 49 (1 / 2 ^ 528) (2941126287262365 / 36028797018963968)
      (8271917682925401 / 9007199254740992)
      (5882252574524729 / 2 ^ 586) (5882252574524729 / 2 ^ 586)
      (9007199254740991 / 2 ^ 581) (1 / 2 ^ 581)
      (2941126287262365 / 36028797018963968) al (by norm_num) float49_bid
      (round64_eq_hi _ _ (-1) (-53) (8271917682925400) (by norm_num))
      (round64_eq_lo _ _ (-534) (-586) (5882252574524729) (by norm_num))
      (min_eq_right (by norm_num)) (by norm_num)
      (round64_eq_lo _ _ (-529) (-581) (9007199254740991) (by norm_num))
      (round64_eq_lo _ _ (-581) (-633) (4503599627370496) (by norm_num))
      (round64_eq_lo _ _ (-4) (-56) (5882252574524730) (by norm_num))
      (by norm_num))
    (fun fuel' => float49_pass_12 _ fuel') fuel

theorem float49_pass_10 (al : List (Int × ℝ)) (fuel : Nat) :
    paLoopFl round64 (oneBid 49) 1 fuel
      (oneBidderState 4 (1 / 2 ^ 475) (2941126287262365 / 36028797018963968) al) = none :=
  paLoopFl_never_of_step _ _ _ _ _ (oneBidderState_guard _ _ _ _ (by norm_num))
    (oneBidder_pass_step 4 49 (1 / 2 ^ 475) (2941126287262365 / 36028797018963968)
      (8271917682925401 / 9007199254740992)
      (5882252574524729 / 2 ^ 533) (5882252574524729 / 2 ^ 533)
      (9007199254740991 / 2 ^ 528) (1 / 2 ^ 528)
      (2941126287262365 / 36028797018963968) al (by norm_num) float49_bid
      (round64_eq_hi _ _ (-1) (-53) (8271917682925400) (by norm_num))
      (round64_eq_lo _ _ (-481) (-533) (5882252574524729) (by norm_num))
      (min_eq_right (by norm_num)) (by norm_num)
      (round64_eq_lo _ _ (-476) (-528) (9007199254740991) (by norm_num))
      (round64_eq_lo _ _ (-528) (-580) (4503599627370496) (by norm_num))
      (round64_eq_lo _ _ (-4) (-56) (5882252574524730) (by norm_num))
      (by norm_num))
    (fun fuel' => float49_pass_11 _ fuel') fuel

theorem float49_pass_9 (al : List (Int × ℝ)) (fuel : Nat) :
    paLoopFl round64 (oneBid 49) 1 fuel
      (oneBidderState 4 (1 / 2 ^ 422) (2941126287262365 / 36028797018963968) al) = none :=
  paLoopFl_never_of_step _ _ _ _ _ (oneBidderState_guard _ _ _ _ (by norm_num))
    (oneBidder_pass_step 4 49 (1 / 2 ^ 422) (2941126287262365 / 36028797018963968)
      (8271917682925401 / 9007199254740992)
      (5882252574524729 / 2 ^ 480) (5882252574524729 / 2 ^ 480)
      (9007199254740991 / 2 ^ 475) (1 / 2 ^ 475)
      (2941126287262365 / 36028797018963968) al (by norm_num) float49_bid
      (round64_eq_hi _ _ (-1) (-53) (8271917682925400) (by norm_num))
      (round64_eq_lo _ _ (-428) (-480) (5882252574524729) (by norm_num))
      (min_eq_right (by norm_num)) (by norm_num)
      (round64_eq_lo _ _ (-423) (-475) (9007199254740991) (by norm_num))
      (round64_eq_lo _ _ (-475) (-527) (4503599627370496) (by norm_num))
      (round64_eq_lo _ _ (-4) (-56) (5882252574524730) (by norm_num))
      (by norm_num))
    (fun fuel' => float49_pass_10 _ fuel') fuel

theorem float49_pass_8 (al : List (Int × ℝ)) (fuel : Nat) :
    paLoopFl round64 (oneBid 49) 1 fuel
      (oneBidderState 4 (1 / 2 ^ 369) (2941126287262365 / 36028797018963968) al) = none :=
  paLoopFl_never_of_step _ _ _ _ _ (oneBidderState_guard _ _ _ _ (by norm_num))
    (oneBidder_pass_step 4 49 (1 / 2 ^ 369) (2941126287262365 / 36028797018963968)
      (8271917682925401 / 9007199254740992)
      (5882252574524729 / 2 ^ 427) (5882252574524729 / 2 ^ 427)
      (9007199254740991 / 2 ^ 422) (1 / 2 ^ 422)
      (2941126287262365 / 36028797018963968) al (by norm_num) float49_bid
      (round64_eq_hi _ _ (-1) (-53) (8271917682925400) (by norm_num))
      (round64_eq_lo _ _ (-375) (-427) (5882252574524729) (by norm_num))
      (min_eq_right (by norm_num)) (by norm_num)
      (round64_eq_lo _ _ (-370) (-422) (9007199254740991) (by norm_num))
      (round64_eq_lo _ _ (-422) (-474) (4503599627370496) (by norm_num))
      (round64_eq_lo _ _ (-4) (-56) (5882252574524730) (by norm_num))
      (by norm_num))
    (fun fuel' => float49_pass_9 _ fuel') fuel

theorem float49_pass_7 (al : List (Int × ℝ)) (fuel : Nat) :
    paLoopFl round64 (oneBid 49) 1 fuel
      (oneBidderState 4 (1 / 2 ^ 316) (2941126287262365 / 36028797018963968) al) = none :=
  paLoopFl_never_of_step _ _ _ _ _ (oneBidderState_guard _ _ _ _ (by norm_num))
    (oneBidder_pass_step 4 49 (1 / 2 ^ 316) (2941126287262365 / 36028797018963968)
      (8271917682925401 / 9007199254740992)
      (5882252574524729 / 2 ^ 374) (5882252574524729 / 2 ^ 374)
      (9007199254740991 / 2 ^ 369) (1 / 2 ^ 369)
      (2941126287262365 / 36028797018963968) al (by norm_num) float49_bid
      (round64_eq_hi _ _ (-1) (-53) (8271917682925400) (by norm_num))
      (round64_eq_lo _ _ (-322) (-374) (5882252574524729) (by norm_num))
      (min_eq_right (by norm_num)) (by norm_num)
      (round64_eq_lo _ _ (-317) (-369) (9007199254740991) (by norm_num))
      (round64_eq_lo _ _ (-369) (-421) (4503599627370496) (by norm_num))
      (round64_eq_lo _ _ (-4) (-56) (5882252574524730) (by norm_num))
      (by norm_num))
    (fun fuel' => float49_pass_8 _ fuel') fuel

theorem float49_pass_6 (al : List (Int × ℝ)) (fuel : Nat) :
    paLoopFl round64 (oneBid 49) 1 fuel
      (oneBidderState 4 (1 / 2 ^ 263) (2941126287262365 / 36028797018963968) al) = none :=
  paLoopFl_never_of_step _ _ _ _ _ (oneBidderState_guard _ _ _ _ (by norm_num))
    (oneBidder_pass_step 4 49 (1 / 2 ^ 263) (2941126287262365 / 36028797018963968)
      (8271917682925401 / 9007199254740992)
      (5882252574524729 / 2 ^ 321) (5882252574524729 / 2 ^ 321)
      (9007199254740991 / 2 ^ 316) (1 / 2 ^ 316)
      (2941126287262365 / 36028797018963968) al (by norm_num) float49_bid
      (round64_eq_hi _ _ (-1) (-53) (8271917682925400) (by norm_num))
      (round64_eq_lo _ _ (-269) (-321) (5882252574524729) (by norm_num))
      (min_eq_right (by norm_num)) (by norm_num)
      (round64_eq_lo _ _ (-264) (-316) (9007199254740991) (by norm_num))
      (round64_eq_lo _ _ (-316) (-368) (4503599627370496) (by norm_num))
      (round64_eq_lo _ _ (-4) (-56) (5882252574524730) (by norm_num))
      (by norm_num))
    (fun fuel' => float49_pass_7 _ fuel') fuel

theorem float49_pass_5 (al : List (Int × ℝ)) (fuel : Nat) :
    paLoopFl round64 (oneBid 49) 1 fuel
      (oneBidderState 4 (1 / 2 ^ 210) (2941126287262365 / 36028797018963968) al) = none :=
  paLoopFl_never_of_step _ _ _ _ _ (oneBidderState_guard _ _ _ _ (by norm_num))
    (oneBidder_pass_step 4 49 (1 / 2 ^ 210) (2941126287262365 / 36028797018963968)
      (8271917682925401 / 9007199254740992)
      (5882252574524729 / 2 ^ 268) (5882252574524729 / 2 ^ 268)
      (9007199254740991 / 2 ^ 263) (1 / 2 ^ 263)
      (2941126287262365 / 36028797018963968) al (by norm_num) float49_bid
      (round64_eq_hi _ _ (-1) (-53) (8271917682925400) (by norm_num))
      (round64_eq_lo _ _ (-216) (-268) (5882252574524729) (by norm_num))
      (min_eq_right (by norm_num)) (by norm_num)
      (round64_eq_lo _ _ (-211) (-263) (9007199254740991) (by norm_num))
      (round64_eq_lo _ _ (-263) (-315) (4503599627370496) (by norm_num))
      (round64_eq_lo _ _ (-4) (-56) (5882252574524730) (by norm_num))
      (by norm_num))
    (fun fuel' => float49_pass_6 _ fuel') fuel

theorem float49_pass_4 (al : List (Int × ℝ)) (fuel : Nat) :
    paLoopFl round64 (oneBid 49) 1 fuel
      (oneBidderState 4 (1 / 2 ^ 157) (2941126287262365 / 36028797018963968) al) = none :=
  paLoopFl_never_of_step _ _ _ _ _ (oneBidderState_guard _ _ _ _ (by norm_num))
    (oneBidder_pass_step 4 49 (1 / 2 ^ 157) (2941126287262365 / 36028797018963968)
      (8271917682925401 / 9007199254740992)
      (5882252574524729 / 2 ^ 215) (5882252574524729 / 2 ^ 215)
      (9007199254740991 / 2 ^ 210) (1 / 2 ^ 210)
      (2941126287262365 / 36028797018963968) al (by norm_num) float49_bid
      (round64_eq_hi _ _ (-1) (-53) (8271917682925400) (by norm_num))
      (round64_eq_lo _ _ (-163) (-215) (5882252574524729) (by norm_num))
      (min_eq_right (by norm_num)) (by norm_num)
      (round64_eq_lo _ _ (-158) (-210) (9007199254740991) (by norm_num))
      (round64_eq_lo _ _ (-210) (-262) (4503599627370496) (by norm_num))
      (round64_eq_lo _ _ (-4) (-56) (5882252574524730) (by norm_num))
      (by norm_num))
    (fun fuel' => float49_pass_5 _ fuel') fuel

theorem float49_pass_3 (al : List (Int × ℝ)) (fuel : Nat) :
    paLoopFl round64 (oneBid 49) 1 fuel
      (oneBidderState 4 (1 / 2 ^ 104) (2941126287262365 / 36028797018963968) al) = none :=
  paLoopFl_never_of_step _ _ _ _ _ (oneBidderState_guard _ _ _ _ (by norm_num))
    (oneBidder_pass_step 4 49 (1 / 2 ^ 104) (2941126287262365 / 36028797018963968)
      (8271917682925401 / 9007199254740992)
      (5882252574524729 / 2 ^ 162) (5882252574524729 / 2 ^ 162)
      (9007199254740991 / 2 ^ 157) (1 / 2 ^ 157)
      (2941126287262365 / 36028797018963968) al (by norm_num) float49_bid
      (round64_eq_hi _ _ (-1) (-53) (8271917682925400) (by norm_num))
      (round64_eq_lo _ _ (-110) (-162) (5882252574524729) (by norm_num))
      (min_eq_right (by norm_num)) (by norm_num)
      (round64_eq_lo _ _ (-105) (-157) (9007199254740991) (by norm_num))
      (round64_eq_lo _ _ (-157) (-209) (4503599627370496) (by norm_num))
      (round64_eq_lo _ _ (-4) (-56) (5882252574524730) (by norm_num))
      (by norm_num))
    (fun fuel' => float49_pass_4 _ fuel') fuel

theorem float49_pass_2 (al : List (Int × ℝ)) (fuel : Nat) :
    paLoopFl round64 (oneBid 49) 1 fuel
      (oneBidderState 4 (1 / 2251799813685248) (5882252574524729 / 72057594037927936) al) = none :=
  paLoopFl_never_of_step _ _ _ _ _ (oneBidderState_guard _ _ _ _ (by norm_num))
    (oneBidder_pass_step 4 49 (1 / 2251799813685248) (5882252574524729 / 72057594037927936)
      (8271917682925401 / 9007199254740992)
      (5882252574524729 / 2 ^ 109) (5882252574524729 / 2 ^ 109)
      (9007199254740991 / 2 ^ 104) (1 / 2 ^ 104)
      (2941126287262365 / 36028797018963968) al (by norm_num) float49_bid
      (round64_eq_hi _ _ (-1) (-53) (8271917682925400) (by norm_num))
      (round64_eq_lo _ _ (-57) (-109) (5882252574524729) (by norm_num))
      (min_eq_right (by norm_num)) (by norm_num)
      (round64_eq_lo _ _ (-52) (-104) (9007199254740991) (by norm_num))
      (round64_eq_lo _ _ (-104) (-156) (4503599627370496) (by norm_num))
      (round64_eq_hi _ _ (-4) (-56) (5882252574524729) (by norm_num))
      (by norm_num))
    (fun fuel' => float49_pass_3 _ fuel') fuel

theorem float49_pass_1 (al : List (Int × ℝ)) (fuel : Nat) :
    paLoopFl round64 (oneBid 49) 1 fuel
      (oneBidderState 4 (4) (0) al) = none :=
  paLoopFl_never_of_step _ _ _ _ _ (oneBidderState_guard _ _ _ _ (by norm_num))
    (oneBidder_pass_step 4 49 (4) (0) (1)
      (5882252574524729 / 72057594037927936) (5882252574524729 / 72057594037927936)
      (9007199254740991 / 2251799813685248) (1 / 2251799813685248)
      (5882252574524729 / 72057594037927936) al (by norm_num) float49_bid
      (round64_eq_lo _ _ (0) (-52) (4503599627370496) (by norm_num))
      (round64_eq_lo _ _ (-4) (-56) (5882252574524729) (by norm_num))
      (min_eq_right (by norm_num)) (by norm_num)
      (round64_eq_lo _ _ (1) (-51) (9007199254740991) (by norm_num))
      (round64_eq_lo _ _ (-51) (-103) (4503599627370496) (by norm_num))
      (round64_eq_lo _ _ (-4) (-56) (5882252574524729) (by norm_num))
      (by norm_num))
    (fun fuel' => float49_pass_2 _ fuel') fuel

theorem round64_fact_1 :
    round64 (23 : ℝ) =
      23 :=
  round64_eq_lo _ _ (4) (-48) (6473924464345088) (by norm_num)

theorem round64_fact_2 :
    round64 ((13 : ℝ) / 23) =
      5091025665723169 / 9007199254740992 :=
  round64_eq_lo _ _ (-1) (-53) (5091025665723169) (by norm_num)

theorem round64_fact_3 :
    round64 ((117093590311632887 : ℝ) / 9007199254740992) =
      7318349394477055 / 562949953421312 :=
  round64_eq_lo _ _ (3) (-49) (7318349394477055) (by norm_num)

theorem round64_fact_4 :
    round64 ((1 : ℝ) / 562949953421312) =
      1 / 562949953421312 :=
  round64_eq_lo _ _ (-49) (-101) (4503599627370496) (by norm_num)

theorem round64_fact_5 :
    round64 ((5091025665723169 : ℝ) / 9007199254740992) =
      5091025665723169 / 9007199254740992 :=
  round64_eq_lo _ _ (-1) (-53) (5091025665723169) (by norm_num)

theorem round64_fact_6 :
    round64 ((3916173589017823 : ℝ) / 9007199254740992) =
      3916173589017823 / 9007199254740992 :=
  round64_eq_lo _ _ (-2) (-54) (7832347178035646) (by norm_num)

theorem round64_fact_7 :
    round64 ((1 : ℝ) / 12947848928690176) =
      1566469435607129 / 20282409603651670423947251286016 :=
  round64_eq_lo _ _ (-54) (-106) (6265877742428516) (by norm_num)

theorem round64_fact_8 :
    round64 ((36028797018963967 : ℝ) / 20282409603651670423947251286016) =
      1 / 562949953421312 :=
  round64_eq_hi _ _ (-50) (-102) (9007199254740991) (by norm_num)

theorem round64_fact_9 :
    round64 ((11463970645542249185822302718041 : ℝ) / 20282409603651670423947251286016) =
      2545512832861585 / 4503599627370496 :=
  round64_eq_hi _ _ (-1) (-53) (5091025665723169) (by norm_num)

theorem round64_fact_10 :
    round64 ((1 : ℝ) / 2) =
      1 / 2 :=
  round64_eq_lo _ _ (-1) (-53) (4503599627370496) (by norm_num)

theorem round64_fact_11 :
    round64 (15 : ℝ) =
      15 :=
  round64_eq_lo _ _ (3) (-49) (8444249301319680) (by norm_num)

theorem round64_fact_12 :
    round64 ((1958086794508911 : ℝ) / 4503599627370496) =
      1958086794508911 / 4503599627370496 :=
  round64_eq_lo _ _ (-2) (-54) (7832347178035644) (by norm_num)

theorem round64_fact_13 :
    round64 ((10 : ℝ) / 3) =
      7505999378950827 / 2251799813685248 :=
  round64_eq_hi _ _ (1) (-51) (7505999378950826) (by norm_num)

theorem round64_fact_14 :
    round64 ((29371301917633665 : ℝ) / 2251799813685248) =
      229463296231513 / 17592186044416 :=
  round64_eq_lo _ _ (3) (-49) (7342825479408416) (by norm_num)

theorem round64_fact_15 :
    round64 ((1529755308210087 : ℝ) / 17592186044416) =
      1529755308210087 / 17592186044416 :=
  round64_eq_lo _ _ (6) (-46) (6119021232840348) (by norm_num)

end FloatOneBidder

/-! ## Claims -/

section Claims

/-- C1. Budget monotonicity: from a well-formed state in which every `Budget` is `≥ 0`, with
either algorithm type, `ProcessNewArrival` returns (given more fuel than keys) and every
record is kept with a `Budget` that is `≥ 0` and `≤` its `Budget` before the call; the same
holds between the start and the end of every sequence of arrivals. -/
theorem ProcessNewArrival_budget_monotone (a : AdSystem ℝ) (order : List Int)
    (bids : Int → Option ℝ) (arrivals : List (List Int × (Int → Option ℝ))) (fuel : Nat)
    (hwf : a.WF) (hnonneg : ∀ id, 0 ≤ budgetAt a id) (hfuel : order.length < fuel)
    (hfuels : ∀ arr ∈ arrivals, arr.1.length < fuel) :
    (∃ a' r, ProcessNewArrival Real.exp fuel a order bids = some (a', r) ∧
      ∀ id, (a'.advertisers id).isSome = (a.advertisers id).isSome ∧
        0 ≤ budgetAt a' id ∧ budgetAt a' id ≤ budgetAt a id) ∧
    (∃ a', runArrivals Real.exp fuel a arrivals = some a' ∧
      ∀ id, (a'.advertisers id).isSome = (a.advertisers id).isSome ∧
        0 ≤ budgetAt a' id ∧ budgetAt a' id ≤ budgetAt a id) := by
  obtain ⟨a1, r, hrun1, _, hb1⟩ :=
    ProcessNewArrival_budgets Real.exp fuel a order bids hwf hfuel
  obtain ⟨a2, hrun2, _, hb2⟩ := runArrivals_budgets Real.exp fuel arrivals a hwf hfuels
  exact ⟨⟨a1, r, hrun1, fun id => ⟨(hb1 id).1, (hb1 id).2.2 (hnonneg id), (hb1 id).2.1⟩⟩,
    ⟨a2, hrun2, fun id => ⟨(hb2 id).1, (hb2 id).2.2 (hnonneg id), (hb2 id).2.1⟩⟩⟩

/-- C1, at a concrete input: consumers `1` and `2` with budgets `10` and `100` under
`PartialAllocation`, and a sequence of two arrivals. -/
theorem ProcessNewArrival_budget_monotone_witness :
    (twoConsumers (10 : ℝ) 100 (1 / 5) (4 / 5) (23 / 20) PartialAllocation).WF ∧
    (∀ id, 0 ≤ budgetAt
      (twoConsumers (10 : ℝ) 100 (1 / 5) (4 / 5) (23 / 20) PartialAllocation) id) ∧
    (∃ a' r, ProcessNewArrival Real.exp 3
        (twoConsumers (10 : ℝ) 100 (1 / 5) (4 / 5) (23 / 20) PartialAllocation) [1, 2]
        (twoBids 15 30) = some (a', r) ∧
      ∀ id, (a'.advertisers id).isSome =
          ((twoConsumers (10 : ℝ) 100 (1 / 5) (4 / 5) (23 / 20) PartialAllocation).advertisers
            id).isSome ∧
        0 ≤ budgetAt a' id ∧
        budgetAt a' id ≤ budgetAt
          (twoConsumers (10 : ℝ) 100 (1 / 5) (4 / 5) (23 / 20) PartialAllocation) id) ∧
    (∃ a', runArrivals Real.exp 3
        (twoConsumers (10 : ℝ) 100 (1 / 5) (4 / 5) (23 / 20) PartialAllocation)
        [([1, 2], twoBids 15 30), ([2, 1], twoBids 5 30)] = some a' ∧
      ∀ id, (a'.advertisers id).isSome =
          ((twoConsumers (10 : ℝ) 100 (1 / 5) (4 / 5) (23 / 20) PartialAllocation).advertisers
            id).isSome ∧
        0 ≤ budgetAt a' id ∧
        budgetAt a' id ≤ budgetAt
          (twoConsumers (10 : ℝ) 100 (1 / 5) (4 / 5) (23 / 20) PartialAllocation) id) :=
  ⟨NewAdSystem_WF _ _ _ _,
    twoConsumers_budget_nonneg _ _ _ _ _ _ (by norm_num) (by norm_num),
    ProcessNewArrival_budget_monotone _ [1, 2] (twoBids 15 30)
      [([1, 2], twoBids 15 30), ([2, 1], twoBids 5 30)] 3 (NewAdSystem_WF _ _ _ _)
      (twoConsumers_budget_nonneg _ _ _ _ _ _ (by norm_num) (by norm_num)) (by decide)
      (by
        intro arr harr
        simp only [List.mem_cons, List.mem_singleton, List.not_mem_nil, or_false] at harr
        rcases harr with rfl | rfl <;> decide)⟩

/-- C2. Fraction bound: on a well-formed state, with more fuel than there are available
consumers with a positive bid, `processPartialAllocation` returns and the fractions of the
returned map sum to at most `1`. -/
theorem processPartialAllocation_fraction_bound (a : AdSystem ℝ) (order : List Int)
    (bids : Int → Option ℝ) (fuel : Nat) (hwf : a.WF)
    (hfuel : (positiveBidders bids (initialAvailable a order)).length < fuel) :
    ∃ a' allocs, processPartialAllocation Real.exp fuel a order bids = some (a', allocs) ∧
      mapSum allocs ≤ 1 := by
  obtain ⟨s', hrun, _, hinv, _⟩ :=
    processPartialAllocation_props Real.exp fuel a order bids hwf hfuel
  exact ⟨_, _, hrun, by rw [hinv.sum_eq]; exact hinv.delta_le⟩

/-- C2, at a concrete input: consumers `1` and `2` with budgets `10` and `100` bid `15` and
`30` on the first arrival. -/
theorem processPartialAllocation_fraction_bound_witness :
    (twoConsumers (10 : ℝ) 100 (1 / 5) (4 / 5) (23 / 20) PartialAllocation).WF ∧
    (positiveBidders (twoBids (15 : ℝ) 30)
      (initialAvailable (twoConsumers (10 : ℝ) 100 (1 / 5) (4 / 5) (23 / 20) PartialAllocation)
        [1, 2])).length < 3 ∧
    ∃ a' allocs, processPartialAllocation Real.exp 3
        (twoConsumers (10 : ℝ) 100 (1 / 5) (4 / 5) (23 / 20) PartialAllocation) [1, 2]
        (twoBids 15 30) = some (a', allocs) ∧
      mapSum allocs ≤ 1 :=
  ⟨NewAdSystem_WF _ _ _ _,
    lt_of_le_of_lt (positiveBidders_length_le _ _ _) (by decide),
    processPartialAllocation_fraction_bound _ [1, 2] (twoBids 15 30) 3 (NewAdSystem_WF _ _ _ _)
      (lt_of_le_of_lt (positiveBidders_length_le _ _ _) (by decide))⟩

/-- C3 fails on the code. On the second arrival (`time = 2`) with `beta = 1.15`, a single
consumer with `Budget = 100` and sample `Y = 0.8` that bids `30` has the value
`30 * (1 - e^1.15 * 0.8) < -1`, which does not beat the initial `maxValue = -1`: the scan
leaves `bestAdv` nil, the loop breaks, and the call returns the empty map (sum `0 < 1`)
although that consumer still has `Budget > 0` and a positive bid. -/
theorem processPartialAllocation_breaks_with_bidder_left :
    processPartialAllocation Real.exp 2
        { oneConsumer (100 : ℝ) (4 / 5) (23 / 20) PartialAllocation with time := 2 } [1]
        (oneBid 30) =
      some ({ oneConsumer (100 : ℝ) (4 / 5) (23 / 20) PartialAllocation with time := 2 },
        []) ∧
    mapSum ([] : List (Int × ℝ)) < 1 ∧
    (oneConsumer (100 : ℝ) (4 / 5) (23 / 20) PartialAllocation).advertisers 1 =
      some { ID := 1, InitialBudget := 100, Budget := 100, Y := 4 / 5 } ∧
    (0 : ℝ) < bidAt (oneBid 30) 1 := by
  have he : (43 / 20 : ℝ) ≤ Real.exp (23 / 20) := by
    have := Real.add_one_le_exp (23 / 20 : ℝ)
    linarith
  have h3 : ¬ (-1 < 30 * (1 - Real.exp (23 / 20) * (4 / 5))) := by linarith
  refine ⟨?_, ?_, ?_, ?_⟩
  · norm_num [processPartialAllocation, paLoop, paGuard, paBody, selectBest, initialAvailable,
      hasBudget, calculateG, oneConsumer, NewAdSystem, newAdSystemLoop, bidAt, oneBid, h3]
  · norm_num [mapSum]
  · simp [oneConsumer, NewAdSystem, newAdSystemLoop]
  · norm_num [bidAt, oneBid]

/-- C4. Single winner with exact debit: on a well-formed state `processGPG` returns, and if
the returned id `w` is not `-1` the record of `w` is the old one with `Budget` lowered by
exactly `bids[w]` while every other record is unchanged; if it returns `-1` no record
changes. -/
theorem processGPG_single_winner_exact_debit (a : AdSystem ℝ) (order : List Int)
    (bids : Int → Option ℝ) (hwf : a.WF) :
    ∃ a' w, processGPG Real.exp a order bids = some (a', w) ∧
      (w ≠ -1 →
        (∃ adv, a.advertisers w = some adv ∧
          a'.advertisers w = some { adv with Budget := adv.Budget - bidAt bids w }) ∧
        ∀ j, j ≠ w → a'.advertisers j = a.advertisers j) ∧
      (w = -1 → ∀ j, a'.advertisers j = a.advertisers j) := by
  obtain ⟨st, _, h | ⟨hb, _, _, _, _, adv, hadv, hrun⟩⟩ :=
    processGPG_spec Real.exp a order bids (available_isSome_of_WF a hwf)
  · refine ⟨_, _, h.2, fun hne => absurd rfl hne, fun _ j => rfl⟩
  · refine ⟨_, _, hrun, fun _ => ⟨⟨adv, hadv, by simp⟩, fun j hj => ?_⟩, fun h => absurd h hb⟩
    simp [Function.update_noteq hj]

/-- C4, at a concrete input: consumers `1` and `2` with budgets `100`, samples `0.2` and
`0.8`, `beta = 1.15`, both bidding `30`. -/
theorem processGPG_single_winner_exact_debit_witness :
    (twoConsumers (100 : ℝ) 100 (1 / 5) (4 / 5) (23 / 20) GPG).WF ∧
    ∃ a' w, processGPG Real.exp (twoConsumers (100 : ℝ) 100 (1 / 5) (4 / 5) (23 / 20) GPG)
        [1, 2] (twoBids 30 30) = some (a', w) ∧
      (w ≠ -1 →
        (∃ adv, (twoConsumers (100 : ℝ) 100 (1 / 5) (4 / 5) (23 / 20) GPG).advertisers w
            = some adv ∧
          a'.advertisers w =
            some { adv with Budget := adv.Budget - bidAt (twoBids (30 : ℝ) 30) w }) ∧
        ∀ j, j ≠ w → a'.advertisers j =
          (twoConsumers (100 : ℝ) 100 (1 / 5) (4 / 5) (23 / 20) GPG).advertisers j) ∧
      (w = -1 → ∀ j, a'.advertisers j =
        (twoConsumers (100 : ℝ) 100 (1 / 5) (4 / 5) (23 / 20) GPG).advertisers j) :=
  ⟨NewAdSystem_WF _ _ _ _,
    processGPG_single_winner_exact_debit _ [1, 2] (twoBids 30 30) (NewAdSystem_WF _ _ _ _)⟩

/-- C5. Availability monotonicity: along every sequence of arrivals handled by `processGPG`
from a well-formed state, a consumer whose flag `availableI[id]` is false at the start has a
false flag at the end and is not the winner of any of the arrivals. -/
theorem processGPG_availability_monotone (a : AdSystem ℝ)
    (arrivals : List (List Int × (Int → Option ℝ))) (hwf : a.WF) :
    ∃ a' ws, runGPG Real.exp a arrivals = some (a', ws) ∧ ws.length = arrivals.length ∧
      ∀ id, availableAt a.availableI id = false →
        availableAt a'.availableI id = false ∧ ∀ w ∈ ws, w ≠ -1 → w ≠ id := by
  induction arrivals generalizing a with
  | nil => exact ⟨a, [], rfl, rfl, fun id h => ⟨h, by simp⟩⟩
  | cons arr rest ih =>
    obtain ⟨order, bids⟩ := arr
    obtain ⟨a1, w, hrun, hwf1, hmono, hw, _⟩ := processGPG_props Real.exp a order bids hwf
    obtain ⟨a2, ws, hrun2, hlen, hrest⟩ := ih a1 hwf1
    refine ⟨a2, w :: ws, by simp [runGPG, hrun, hrun2], by simp [hlen], fun id hid => ?_⟩
    have hid1 : availableAt a1.availableI id = false := by
      cases h : availableAt a1.availableI id with
      | false => rfl
      | true => rw [hmono id h] at hid; exact absurd hid (by simp)
    obtain ⟨hfin, hws⟩ := hrest id hid1
    refine ⟨hfin, fun w' hw' hne => ?_⟩
    rcases List.mem_cons.mp hw' with h | h
    · subst h
      intro heq
      have := (hw hne).2.1.1
      rw [heq, hid] at this
      exact absurd this (by simp)
    · exact hws w' h hne

/-- C5, at a concrete input: two arrivals for the consumers `1` and `2`. -/
theorem processGPG_availability_monotone_witness :
    (twoConsumers (100 : ℝ) 100 (1 / 5) (4 / 5) (23 / 20) GPG).WF ∧
    ∃ a' ws, runGPG Real.exp (twoConsumers (100 : ℝ) 100 (1 / 5) (4 / 5) (23 / 20) GPG)
        [([1, 2], twoBids 300 30), ([2, 1], twoBids 30 30)] = some (a', ws) ∧
      ws.length = [([1, 2], twoBids (300 : ℝ) 30), ([2, 1], twoBids (30 : ℝ) 30)].length ∧
      ∀ id, availableAt
          (twoConsumers (100 : ℝ) 100 (1 / 5) (4 / 5) (23 / 20) GPG).availableI id = false →
        availableAt a'.availableI id = false ∧ ∀ w ∈ ws, w ≠ -1 → w ≠ id :=
  ⟨NewAdSystem_WF _ _ _ _,
    processGPG_availability_monotone _
      [([1, 2], twoBids 300 30), ([2, 1], twoBids 30 30)] (NewAdSystem_WF _ _ _ _)⟩

/-- C6 as stated fails for a negative coefficient: with `beta = -1`, one available consumer
with sample `Y = 0` and budget `100` bidding `2` has the value `2 * (1 - e) ≤ -1`, which does
not beat the initial best value `-1`, so `processGPG` returns `-1` although that consumer is
available with a positive bid that its budget covers. -/
theorem processGPG_noMatch_negative_beta_counterexample :
    (∃ a', processGPG Real.exp (oneConsumer (100 : ℝ) 0 (-1) GPG) [1] (oneBid 2)
        = some (a', -1)) ∧
    (oneConsumer (100 : ℝ) 0 (-1) GPG).advertisers 1 =
        some { ID := 1, InitialBudget := 100, Budget := 100, Y := 0 } ∧
    availableAt (oneConsumer (100 : ℝ) 0 (-1) GPG).availableI 1 = true ∧
    (0 : ℝ) < bidAt (oneBid 2) 1 ∧ bidAt (oneBid (2 : ℝ)) 1 ≤ 100 ∧
    bidAt (oneBid (2 : ℝ)) 1 *
      (1 - calculateGForY Real.exp (oneConsumer (100 : ℝ) 0 (-1) GPG) 0) ≤ -1 := by
  have he : (2 : ℝ) ≤ Real.exp 1 := by
    have := Real.add_one_le_exp (1 : ℝ)
    linarith
  have h3 : ¬ (-1 < 2 * (1 - Real.exp 1)) := by linarith
  refine ⟨?_, ?_, ?_, ?_, ?_, ?_⟩
  · norm_num [processGPG, gpgScan, oneConsumer, NewAdSystem, newAdSystemLoop, availableAt,
      bidAt, oneBid, calculateGForY, h3]
  · simp [oneConsumer, NewAdSystem, newAdSystemLoop]
  · simp [oneConsumer, NewAdSystem, newAdSystemLoop, availableAt]
  · norm_num [bidAt, oneBid]
  · norm_num [bidAt, oneBid]
  · norm_num [bidAt, oneBid, calculateGForY, oneConsumer, NewAdSystem]
    linarith

/-- C6, amended. For `beta ≥ 0`, samples `Y` in `[0,1)` and `-1` not a consumer id,
`processGPG` returns `-1` exactly when no consumer is available with a positive bid that its
budget covers; and the initial best value `-1` is below every value `bid * (1 - g(y))` with
`bid > 0` and `y` in `[0,1)`. -/
theorem processGPG_noMatch_iff_of_beta_nonneg (a : AdSystem ℝ) (order : List Int)
    (bids : Int → Option ℝ) (hwf : a.WF) (henum : Enumerates order a.availableI)
    (hbeta : 0 ≤ a.beta)
    (hY : ∀ k adv, a.advertisers k = some adv → 0 ≤ adv.Y ∧ adv.Y < 1)
    (hid : a.advertisers (-1) = none) :
    (∃ a' w, processGPG Real.exp a order bids = some (a', w) ∧
      (w = -1 ↔ ¬ ∃ id adv, a.advertisers id = some adv ∧ availableAt a.availableI id = true ∧
        0 < bidAt bids id ∧ bidAt bids id ≤ adv.Budget)) ∧
    ∀ b y : ℝ, 0 < b → 0 ≤ y → y < 1 → -1 < b * (1 - calculateGForY Real.exp a y) := by
  have hval : ∀ b y : ℝ, 0 < b → 0 ≤ y → y < 1 →
      0 ≤ b * (1 - calculateGForY Real.exp a y) := by
    intro b y hb _ hy
    have h1 : a.beta * (y - 1) ≤ 0 :=
      mul_nonpos_of_nonneg_of_nonpos hbeta (by linarith)
    have h2 : Real.exp (a.beta * (y - 1)) ≤ 1 := Real.exp_le_one_iff.mpr h1
    exact mul_nonneg (le_of_lt hb) (by unfold calculateGForY; linarith)
  refine ⟨?_, fun b y hb hy0 hy1 => lt_of_lt_of_le (by norm_num) (hval b y hb hy0 hy1)⟩
  obtain ⟨a', w, hrun, _, _, hw, hno⟩ := processGPG_props Real.exp a order bids hwf
  refine ⟨a', w, hrun, ⟨fun h => ?_, fun h => ?_⟩⟩
  · rintro ⟨id, adv, hadv, hav, hbid, hbud⟩
    have hje : gpgEligible a a.availableI bids id :=
      ⟨hav, hbid, by simp [hadv], by simpa [budgetAt, hadv] using hbud⟩
    rcases hno h with he | hall
    · have := he.2.2.1
      rw [hid] at this
      simp at this
    · have hj : id ∈ order := (henum.2 id).mpr (isSome_of_availableAt _ _ hav)
      have h1 := hall id hj hje
      have h2 := hval (bidAt bids id) adv.Y hbid (hY id adv hadv).1 (hY id adv hadv).2
      simp only [gpgValue, hadv] at h1
      linarith
  · by_contra hne
    obtain ⟨_, he, _⟩ := hw hne
    obtain ⟨advw, hadvw⟩ := Option.isSome_iff_exists.mp he.2.2.1
    exact h ⟨w, advw, hadvw, he.1, he.2.1, by simpa [budgetAt, hadvw] using he.2.2.2⟩

/-- C6 amended, at a concrete input: consumers `1` and `2` with budgets `100`, samples `0.2`
and `0.8`, `beta = 1.15`, both bidding `30`. -/
theorem processGPG_noMatch_iff_of_beta_nonneg_witness :
    (twoConsumers (100 : ℝ) 100 (1 / 5) (4 / 5) (23 / 20) GPG).WF ∧
    Enumerates [1, 2] (twoConsumers (100 : ℝ) 100 (1 / 5) (4 / 5) (23 / 20) GPG).availableI ∧
    (0 : ℝ) ≤ (twoConsumers (100 : ℝ) 100 (1 / 5) (4 / 5) (23 / 20) GPG).beta ∧
    ((∃ a' w, processGPG Real.exp (twoConsumers (100 : ℝ) 100 (1 / 5) (4 / 5) (23 / 20) GPG)
        [1, 2] (twoBids 30 30) = some (a', w) ∧
      (w = -1 ↔ ¬ ∃ id adv,
        (twoConsumers (100 : ℝ) 100 (1 / 5) (4 / 5) (23 / 20) GPG).advertisers id = some adv ∧
        availableAt (twoConsumers (100 : ℝ) 100 (1 / 5) (4 / 5) (23 / 20) GPG).availableI id
          = true ∧
        0 < bidAt (twoBids (30 : ℝ) 30) id ∧ bidAt (twoBids (30 : ℝ) 30) id ≤ adv.Budget)) ∧
    ∀ b y : ℝ, 0 < b → 0 ≤ y → y < 1 → -1 < b *
      (1 - calculateGForY Real.exp (twoConsumers (100 : ℝ) 100 (1 / 5) (4 / 5) (23 / 20) GPG)
        y)) :=
  ⟨NewAdSystem_WF _ _ _ _,
    (twoConsumers_enumerates _ _ _ _ _ _ [1, 2] (by decide) (by simp)).1,
    by norm_num [twoConsumers, NewAdSystem],
    processGPG_noMatch_iff_of_beta_nonneg _ [1, 2] (twoBids 30 30) (NewAdSystem_WF _ _ _ _)
      (twoConsumers_enumerates _ _ _ _ _ _ [1, 2] (by decide) (by simp)).1
      (by norm_num [twoConsumers, NewAdSystem])
      (fun k adv h => by
        rcases twoConsumers_record _ _ _ _ _ _ k adv h with ⟨_, rfl⟩ | ⟨_, rfl⟩ <;> norm_num)
      (by
        cases h : (twoConsumers (100 : ℝ) 100 (1 / 5) (4 / 5) (23 / 20) GPG).advertisers (-1) with
        | none => rfl
        | some adv =>
          rcases twoConsumers_record _ _ _ _ _ _ _ adv h with ⟨h1, _⟩ | ⟨h1, _⟩ <;>
            exact absurd h1 (by decide))⟩

/-- C7. GPG picks an eligible maximiser: when `processGPG` returns `w ≠ -1`, before the call
`w` was available, bid a positive amount its budget covered, and its value
`bids[w] * (1 - exp(beta * (Y_w - 1)))` is at least the value of every consumer that was
available with a positive bid it could afford. -/
theorem processGPG_picks_eligible_maximiser (a : AdSystem ℝ) (order : List Int)
    (bids : Int → Option ℝ) (hwf : a.WF) (henum : Enumerates order a.availableI) :
    ∃ a' w, processGPG Real.exp a order bids = some (a', w) ∧
      (w ≠ -1 → ∃ advw, a.advertisers w = some advw ∧
        availableAt a.availableI w = true ∧ 0 < bidAt bids w ∧ bidAt bids w ≤ advw.Budget ∧
        ∀ j advj, a.advertisers j = some advj → availableAt a.availableI j = true →
          0 < bidAt bids j → bidAt bids j ≤ advj.Budget →
          bidAt bids j * (1 - Real.exp (a.beta * (advj.Y - 1))) ≤
            bidAt bids w * (1 - Real.exp (a.beta * (advw.Y - 1)))) := by
  obtain ⟨a', w, hrun, _, _, hw, _⟩ := processGPG_props Real.exp a order bids hwf
  refine ⟨a', w, hrun, fun hne => ?_⟩
  obtain ⟨_, he, _, hmax, _⟩ := hw hne
  obtain ⟨advw, hadvw⟩ := Option.isSome_iff_exists.mp he.2.2.1
  refine ⟨advw, hadvw, he.1, he.2.1, ?_, ?_⟩
  · have := he.2.2.2
    simpa [budgetAt, hadvw] using this
  · intro j advj hadvj hav hbid hbud
    have hj : j ∈ order := (henum.2 j).mpr (isSome_of_availableAt _ _ hav)
    have hje : gpgEligible a a.availableI bids j :=
      ⟨hav, hbid, by simp [hadvj], by simpa [budgetAt, hadvj] using hbud⟩
    have := hmax j hj hje
    simpa [gpgValue, hadvj, hadvw, calculateGForY] using this

/-- C7, at a concrete input: consumers `1` and `2` with budgets `100`, samples `0.2` and
`0.8`, `beta = 1.15`, both bidding `30`. -/
theorem processGPG_picks_eligible_maximiser_witness :
    (twoConsumers (100 : ℝ) 100 (1 / 5) (4 / 5) (23 / 20) GPG).WF ∧
    Enumerates [1, 2] (twoConsumers (100 : ℝ) 100 (1 / 5) (4 / 5) (23 / 20) GPG).availableI ∧
    ∃ a' w, processGPG Real.exp (twoConsumers (100 : ℝ) 100 (1 / 5) (4 / 5) (23 / 20) GPG)
        [1, 2] (twoBids 30 30) = some (a', w) ∧
      (w ≠ -1 → ∃ advw,
        (twoConsumers (100 : ℝ) 100 (1 / 5) (4 / 5) (23 / 20) GPG).advertisers w = some advw ∧
        availableAt (twoConsumers (100 : ℝ) 100 (1 / 5) (4 / 5) (23 / 20) GPG).availableI w
          = true ∧
        0 < bidAt (twoBids (30 : ℝ) 30) w ∧ bidAt (twoBids (30 : ℝ) 30) w ≤ advw.Budget ∧
        ∀ j advj,
          (twoConsumers (100 : ℝ) 100 (1 / 5) (4 / 5) (23 / 20) GPG).advertisers j = some advj →
          availableAt (twoConsumers (100 : ℝ) 100 (1 / 5) (4 / 5) (23 / 20) GPG).availableI j
            = true →
          0 < bidAt (twoBids (30 : ℝ) 30) j → bidAt (twoBids (30 : ℝ) 30) j ≤ advj.Budget →
          bidAt (twoBids (30 : ℝ) 30) j *
              (1 - Real.exp
                ((twoConsumers (100 : ℝ) 100 (1 / 5) (4 / 5) (23 / 20) GPG).beta *
                  (advj.Y - 1))) ≤
            bidAt (twoBids (30 : ℝ) 30) w *
              (1 - Real.exp
                ((twoConsumers (100 : ℝ) 100 (1 / 5) (4 / 5) (23 / 20) GPG).beta *
                  (advw.Y - 1)))) :=
  ⟨NewAdSystem_WF _ _ _ _,
    (twoConsumers_enumerates _ _ _ _ _ _ [1, 2] (by decide) (by simp)).1,
    processGPG_picks_eligible_maximiser _ [1, 2] (twoBids 30 30) (NewAdSystem_WF _ _ _ _)
      (twoConsumers_enumerates _ _ _ _ _ _ [1, 2] (by decide) (by simp)).1⟩

/-- C8 fails on the code, which computes in `float64`. With `Budget = 13` and a bid of `23`
on the first arrival, consumer `1` is selected in two passes of the same arrival: the first
pass records the fraction `fl(13/23)` and leaves `Budget = 2^-49`, the second overwrites
the fraction with `fl(2^-49 / 23)`, about `7.7e-17`, and brings the `Budget` to `0`. The
`Budget` after the call is not the `Budget` before minus `bids[1] * allocations[1]`: the
assignment of line 115 has dropped the fraction that an accumulation would have kept. -/
theorem processPartialAllocation_float_reselects_winner :
    paWinnersFl round64 (oneBid 23)
        (calculateGFl round64 Real.exp
          { oneConsumer (13 : ℝ) 0 1 PartialAllocation with time := 1 } 1) 2
        { sys := { oneConsumer (13 : ℝ) 0 1 PartialAllocation with time := 1 },
          allocations := [], delta := 0,
          available := initialAvailable
            { oneConsumer (13 : ℝ) 0 1 PartialAllocation with time := 1 } [1] } = [1, 1] ∧
    (paBodyFl round64 (oneBid 23)
        (calculateGFl round64 Real.exp
          { oneConsumer (13 : ℝ) 0 1 PartialAllocation with time := 1 } 1)
        { sys := { oneConsumer (13 : ℝ) 0 1 PartialAllocation with time := 1 },
          allocations := [], delta := 0,
          available := initialAvailable
            { oneConsumer (13 : ℝ) 0 1 PartialAllocation with time := 1 } [1] }).map
        (fun s => s.allocations) = some [(1, 5091025665723169 / 9007199254740992)] ∧
    ∃ a' m, processPartialAllocationFl round64 Real.exp 2
        { oneConsumer (13 : ℝ) 0 1 PartialAllocation with time := 1 } [1] (oneBid 23) =
        some (a', m) ∧
      m = [(1, 1566469435607129 / 2 ^ 104)] ∧ budgetAt a' 1 = 0 ∧
      budgetAt a' 1 ≠
        budgetAt { oneConsumer (13 : ℝ) 0 1 PartialAllocation with time := 1 } 1 -
          bidAt (oneBid 23) 1 * mapGet m 1 := by
  have hrun : ∃ a', processPartialAllocationFl round64 Real.exp 2
      { oneConsumer (13 : ℝ) 0 1 PartialAllocation with time := 1 } [1] (oneBid 23) =
        some (a', [(1, 1566469435607129 / 2 ^ 104)]) ∧
      a'.advertisers 1 = some { ID := 1, InitialBudget := 13, Budget := 0, Y := 0 } := by
    norm_num [processPartialAllocationFl, calculateGFl, paLoopFl, paGuard, paBodyFl,
      selectBestFl, paAllocateFl, paRefresh, initialAvailable, hasBudget, oneConsumer,
      twoConsumers, NewAdSystem, newAdSystemLoop, bidAt, oneBid, twoBids, mapSet, mapSum,
      paWinnersFl, Function.update, round64_zero, round64_one, round64_fact_1, round64_fact_2,
      round64_fact_3, round64_fact_4, round64_fact_5, round64_fact_6, round64_fact_7,
      round64_fact_8, round64_fact_9, round64_fact_10, round64_fact_11, round64_fact_12,
      round64_fact_13, round64_fact_14, round64_fact_15]
  obtain ⟨a', hres, hadv⟩ := hrun
  refine ⟨?_, ?_, a', _, hres, rfl, by simp [budgetAt, hadv], ?_⟩
  · norm_num [processPartialAllocationFl, calculateGFl, paLoopFl, paGuard, paBodyFl,
      selectBestFl, paAllocateFl, paRefresh, initialAvailable, hasBudget, oneConsumer,
      twoConsumers, NewAdSystem, newAdSystemLoop, bidAt, oneBid, twoBids, mapSet, mapSum,
      paWinnersFl, Function.update, round64_zero, round64_one, round64_fact_1, round64_fact_2,
      round64_fact_3, round64_fact_4, round64_fact_5, round64_fact_6, round64_fact_7,
      round64_fact_8, round64_fact_9, round64_fact_10, round64_fact_11, round64_fact_12,
      round64_fact_13, round64_fact_14, round64_fact_15]
  · norm_num [processPartialAllocationFl, calculateGFl, paLoopFl, paGuard, paBodyFl,
      selectBestFl, paAllocateFl, paRefresh, initialAvailable, hasBudget, oneConsumer,
      twoConsumers, NewAdSystem, newAdSystemLoop, bidAt, oneBid, twoBids, mapSet, mapSum,
      paWinnersFl, Function.update, round64_zero, round64_one, round64_fact_1, round64_fact_2,
      round64_fact_3, round64_fact_4, round64_fact_5, round64_fact_6, round64_fact_7,
      round64_fact_8, round64_fact_9, round64_fact_10, round64_fact_11, round64_fact_12,
      round64_fact_13, round64_fact_14, round64_fact_15]
  · norm_num [budgetAt, hadv, oneConsumer, NewAdSystem, newAdSystemLoop, bidAt, oneBid, mapGet]

/-- C9 as stated fails: the selection follows the enumeration order of the map.  Consumers
`1` and `2` with equal budgets `100`, equal samples `Y = 0.5` and equal bids `30` attain the
same value; when the `range` visits key `2` before key `1`, both engines select consumer `2`
rather than the lowest id `1`, and the results differ from those of the order `1, 2`. -/
theorem tie_break_follows_enumeration_order_counterexample :
    (∃ a', ProcessNewArrival Real.exp 3
        (twoConsumers (100 : ℝ) 100 (1 / 2) (1 / 2) (23 / 20) GPG) [2, 1] (twoBids 30 30)
        = some (a', Result.winner 2)) ∧
    (∃ a', ProcessNewArrival Real.exp 3
        (twoConsumers (100 : ℝ) 100 (1 / 2) (1 / 2) (23 / 20) GPG) [1, 2] (twoBids 30 30)
        = some (a', Result.winner 1)) ∧
    (∃ a', ProcessNewArrival Real.exp 3
        (twoConsumers (100 : ℝ) 100 (1 / 2) (1 / 2) (23 / 20) PartialAllocation) [2, 1]
        (twoBids 30 30) = some (a', Result.allocations [(2, 1)])) ∧
    (∃ a', ProcessNewArrival Real.exp 3
        (twoConsumers (100 : ℝ) 100 (1 / 2) (1 / 2) (23 / 20) PartialAllocation) [1, 2]
        (twoBids 30 30) = some (a', Result.allocations [(1, 1)])) := by
  have he : Real.exp (-(23 / 40)) ≤ 1 := Real.exp_le_one_iff.mpr (by norm_num)
  have h3 : -1 < 30 * (1 - Real.exp (-(23 / 40))) := by linarith
  refine ⟨?_, ?_, ?_, ?_⟩
  · norm_num [ProcessNewArrival, GPG, PartialAllocation, processGPG, gpgScan, twoConsumers,
      NewAdSystem, newAdSystemLoop, availableAt, bidAt, twoBids, calculateGForY,
      Function.update, h3]
  · norm_num [ProcessNewArrival, GPG, PartialAllocation, processGPG, gpgScan, twoConsumers,
      NewAdSystem, newAdSystemLoop, availableAt, bidAt, twoBids, calculateGForY,
      Function.update, h3]
  · norm_num [ProcessNewArrival, PartialAllocation, processPartialAllocation, paLoop, paGuard,
      paBody, paRefresh, paAllocate, selectBest, initialAvailable, hasBudget, calculateG,
      twoConsumers, NewAdSystem, newAdSystemLoop, bidAt, twoBids, Function.update, mapSet]
  · norm_num [ProcessNewArrival, PartialAllocation, processPartialAllocation, paLoop, paGuard,
      paBody, paRefresh, paAllocate, selectBest, initialAvailable, hasBudget, calculateG,
      twoConsumers, NewAdSystem, newAdSystemLoop, bidAt, twoBids, Function.update, mapSet]

/-- C9, amended. Both scans replace their candidate only on a strictly greater value, so the
consumer selected is the first one visited among those that attain the maximal value: every
eligible consumer visited before it has a strictly smaller value and every one visited after
it a value that is not greater, for `processGPG` and for every pass of the loop of
`processPartialAllocation`, whatever the enumeration.  Therefore, when the keys are enumerated
in ascending order the consumer selected has the lowest id among the eligible consumers with
its value; and when no two eligible consumers have the same value, `processGPG` and
`processPartialAllocation` (the latter also with every `float64` operation rounded) return
the same result and leave the same state for every two enumerations of the map. -/
theorem selection_first_visited_order_independent_without_ties (a : AdSystem ℝ)
    (order order' : List Int) (bids : Int → Option ℝ) (fuel : Nat) (hwf : a.WF)
    (henum : Enumerates order a.availableI) (henum' : Enumerates order' a.availableI) :
    (∃ a' w, processGPG Real.exp a order bids = some (a', w) ∧
      (w ≠ -1 → ∃ pre post, order = pre ++ w :: post ∧
        (∀ j ∈ pre, gpgEligible a a.availableI bids j →
          gpgValue Real.exp a bids j < gpgValue Real.exp a bids w) ∧
        (∀ j ∈ post, gpgEligible a a.availableI bids j →
          gpgValue Real.exp a bids j ≤ gpgValue Real.exp a bids w)) ∧
      (order.Pairwise (· < ·) → w ≠ -1 → ∀ j, gpgEligible a a.availableI bids j →
        gpgValue Real.exp a bids j = gpgValue Real.exp a bids w → w ≤ j)) ∧
    (∀ st ∈ paStates bids (calculateG Real.exp a a.time) fuel
        { sys := a, allocations := [], delta := 0, available := initialAvailable a order },
      ∀ w adv,
        (selectBest st.sys bids (calculateG Real.exp a a.time) st.available (none, -1)).1
          = some (w, adv) →
        (∃ pre post, st.available = pre ++ w :: post ∧
          (∀ j ∈ pre, 0 < bidAt bids j →
            paValue (calculateG Real.exp a a.time) a bids j <
              paValue (calculateG Real.exp a a.time) a bids w) ∧
          (∀ j ∈ post, 0 < bidAt bids j →
            paValue (calculateG Real.exp a a.time) a bids j ≤
              paValue (calculateG Real.exp a a.time) a bids w)) ∧
        (order.Pairwise (· < ·) → ∀ j ∈ st.available, 0 < bidAt bids j →
          paValue (calculateG Real.exp a a.time) a bids j =
            paValue (calculateG Real.exp a a.time) a bids w → w ≤ j)) ∧
    ((∀ i j, gpgEligible a a.availableI bids i → gpgEligible a a.availableI bids j →
        gpgValue Real.exp a bids i = gpgValue Real.exp a bids j → i = j) →
      processGPG Real.exp a order bids = processGPG Real.exp a order' bids) ∧
    ((∀ i j, hasBudget a.advertisers i = true → hasBudget a.advertisers j = true →
        0 < bidAt bids i → 0 < bidAt bids j →
        paValue (calculateG Real.exp a a.time) a bids i =
          paValue (calculateG Real.exp a a.time) a bids j → i = j) →
      processPartialAllocation Real.exp fuel a order bids =
        processPartialAllocation Real.exp fuel a order' bids) ∧
    ((∀ i j, hasBudget a.advertisers i = true → hasBudget a.advertisers j = true →
        0 < bidAt bids i → 0 < bidAt bids j →
        paValueFl round64 (calculateGFl round64 Real.exp a a.time) a bids i =
          paValueFl round64 (calculateGFl round64 Real.exp a a.time) a bids j → i = j) →
      processPartialAllocationFl round64 Real.exp fuel a order bids =
        processPartialAllocationFl round64 Real.exp fuel a order' bids) := by
  have hk := available_isSome_of_WF a hwf
  have hperm : order.Perm order' := enumerates_perm order order' _ henum henum'
  refine ⟨?_, ?_, ?_, ?_, ?_⟩
  · obtain ⟨st, hrun, _, _, hC, _, _⟩ :=
      gpgScan_spec Real.exp a bids order
        { availableI := a.availableI, maxValue := -1, bestAdvertiserID := -1 } hk
    obtain ⟨st2, hrun2, h | ⟨hb, _, _, hv, hlt, adv, _, hres⟩⟩ :=
      processGPG_spec Real.exp a order bids hk
    · exact ⟨_, _, h.2, fun hne => absurd rfl hne, fun _ hne => absurd rfl hne⟩
    · have hst : st2 = st := by rw [hrun] at hrun2; exact (Option.some.inj hrun2).symm
      subst hst
      obtain ⟨pre, post, hsplit, hpre⟩ := gpgScan_first Real.exp a bids order
        { availableI := a.availableI, maxValue := -1, bestAdvertiserID := -1 } st2 hk hrun hlt
      have hpre' : ∀ j ∈ pre, gpgEligible a a.availableI bids j →
          gpgValue Real.exp a bids j < gpgValue Real.exp a bids st2.bestAdvertiserID := by
        intro j hj he
        rw [hv]
        exact hpre j hj he
      refine ⟨_, _, hres, fun _ => ⟨pre, post, hsplit, hpre', fun j hj he => ?_⟩,
        fun hp _ j he hjv => ?_⟩
      · rw [hv]
        exact hC j (by rw [hsplit]; simp [hj]) he
      · have hjo : j ∈ order := (henum.2 j).mpr (isSome_of_availableAt _ _ he.1)
        rw [hsplit] at hjo hp
        rcases List.mem_append.mp hjo with hjp | hjw
        · exact absurd hjv (ne_of_lt (hpre' j hjp he))
        · rcases List.mem_cons.mp hjw with hji | hjr
          · exact le_of_eq hji.symm
          · exact le_of_lt (List.rel_of_pairwise_cons (List.pairwise_append.mp hp).2.1 hjr)
  · intro st hst w adv hsel
    obtain ⟨hinv, hsub⟩ := paStates_inv a bids (calculateG Real.exp a a.time) hwf.1 fuel _
      (PAInv_init a order bids) st hst
    have hsome : ∀ j ∈ st.available, (st.sys.advertisers j).isSome = true := by
      intro j hj
      obtain ⟨advj, hadvj, _⟩ := hasBudget_isSome _ _ (hinv.avail j hj)
      simp [hadvj]
    have hspec := selectBestFl_spec id st.sys bids (calculateG Real.exp a a.time)
      st.available none (-1)
    simp only [selectBestFl_id, paValueFl_id] at hspec
    obtain ⟨_, hC, hD⟩ := hspec
    rcases hD with ⟨hn, _⟩ | ⟨w', adv', pre, post, hr, hsplit, _, _, hval, _, hpre⟩
    · rw [hn] at hsel
      exact absurd hsel (by simp)
    · rw [hr] at hsel
      obtain ⟨rfl, rfl⟩ := Prod.mk.inj (Option.some.inj hsel)
      have hpre' : ∀ j ∈ pre, 0 < bidAt bids j →
          paValue (calculateG Real.exp a a.time) a bids j <
            paValue (calculateG Real.exp a a.time) a bids w' := by
        intro j hj hbid
        rw [← paValue_of_PAInv a bids _ st hinv j, ← paValue_of_PAInv a bids _ st hinv w', hval]
        exact hpre j hj hbid (hsome j (by rw [hsplit]; simp [hj]))
      refine ⟨⟨pre, post, hsplit, hpre', fun j hj hbid => ?_⟩, fun hp j hj hbid hv => ?_⟩
      · rw [← paValue_of_PAInv a bids _ st hinv j, ← paValue_of_PAInv a bids _ st hinv w', hval]
        exact hC j (by rw [hsplit]; simp [hj]) hbid (hsome j (by rw [hsplit]; simp [hj]))
      · have hp' : st.available.Pairwise (· < ·) :=
          List.Pairwise.sublist (hsub.trans (List.filter_sublist _)) hp
        rw [hsplit] at hj hp'
        rcases List.mem_append.mp hj with hjp | hjw
        · exact absurd hv (ne_of_lt (hpre' j hjp hbid))
        · rcases List.mem_cons.mp hjw with hji | hjr
          · exact le_of_eq hji.symm
          · exact le_of_lt (List.rel_of_pairwise_cons (List.pairwise_append.mp hp').2.1 hjr)
  · intro hnotie
    refine processGPG_order_independent Real.exp a order order' bids hk (fun j hj => ?_) hnotie
    have := isSome_of_availableAt _ _ hj
    exact ⟨(henum.2 j).mpr this, (henum'.2 j).mpr this⟩
  · intro hnotie
    have h := processPartialAllocationFl_order_independent id Real.exp fuel a order order' bids
      hperm (by simpa only [calculateGFl_id, paValueFl_id] using hnotie)
    simpa only [processPartialAllocationFl_id] using h
  · intro hnotie
    exact processPartialAllocationFl_order_independent round64 Real.exp fuel a order order' bids
      hperm hnotie

/-- C9 amended, at a concrete input without ties: the consumers `1` and `2` with the samples
`0.25` and `0.75` and equal bids `30`, enumerated as `1, 2` and as `2, 1`. -/
theorem selection_first_visited_order_independent_without_ties_witness :
    ({ twoConsumers (100 : ℝ) 100 (1 / 4) (3 / 4) (23 / 20) GPG with time := 1 } :
      AdSystem ℝ).WF ∧
    Enumerates [1, 2]
      ({ twoConsumers (100 : ℝ) 100 (1 / 4) (3 / 4) (23 / 20) GPG with time := 1 } :
        AdSystem ℝ).availableI ∧
    Enumerates [2, 1]
      ({ twoConsumers (100 : ℝ) 100 (1 / 4) (3 / 4) (23 / 20) GPG with time := 1 } :
        AdSystem ℝ).availableI ∧
    processGPG Real.exp
        { twoConsumers (100 : ℝ) 100 (1 / 4) (3 / 4) (23 / 20) GPG with time := 1 } [1, 2]
        (twoBids 30 30) =
      processGPG Real.exp
        { twoConsumers (100 : ℝ) 100 (1 / 4) (3 / 4) (23 / 20) GPG with time := 1 } [2, 1]
        (twoBids 30 30) ∧
    processPartialAllocation Real.exp 3
        { twoConsumers (100 : ℝ) 100 (1 / 4) (3 / 4) (23 / 20) GPG with time := 1 } [1, 2]
        (twoBids 30 30) =
      processPartialAllocation Real.exp 3
        { twoConsumers (100 : ℝ) 100 (1 / 4) (3 / 4) (23 / 20) GPG with time := 1 } [2, 1]
        (twoBids 30 30) ∧
    processPartialAllocationFl round64 Real.exp 3
        { twoConsumers (100 : ℝ) 100 (1 / 4) (3 / 4) (23 / 20) GPG with time := 1 } [1, 2]
        (twoBids 30 30) =
      processPartialAllocationFl round64 Real.exp 3
        { twoConsumers (100 : ℝ) 100 (1 / 4) (3 / 4) (23 / 20) GPG with time := 1 } [2, 1]
        (twoBids 30 30) := by
  have hwf : ({ twoConsumers (100 : ℝ) 100 (1 / 4) (3 / 4) (23 / 20) GPG with time := 1 } :
      AdSystem ℝ).WF :=
    (NewAdSystem_WF _ _ _ _ : (twoConsumers (100 : ℝ) 100 (1 / 4) (3 / 4) (23 / 20) GPG).WF)
  have h12 : Enumerates [1, 2]
      ({ twoConsumers (100 : ℝ) 100 (1 / 4) (3 / 4) (23 / 20) GPG with time := 1 } :
        AdSystem ℝ).availableI :=
    (twoConsumers_enumerates (100 : ℝ) 100 (1 / 4) (3 / 4) (23 / 20) GPG [1, 2] (by decide)
      (by simp)).1
  have h21 : Enumerates [2, 1]
      ({ twoConsumers (100 : ℝ) 100 (1 / 4) (3 / 4) (23 / 20) GPG with time := 1 } :
        AdSystem ℝ).availableI :=
    (twoConsumers_enumerates (100 : ℝ) 100 (1 / 4) (3 / 4) (23 / 20) GPG [2, 1] (by decide)
      (fun k => by simp only [List.mem_cons, List.mem_singleton, List.not_mem_nil, or_false]
                   exact or_comm)).1
  have hkeys : ∀ i, (({ twoConsumers (100 : ℝ) 100 (1 / 4) (3 / 4) (23 / 20) GPG with
      time := 1 } : AdSystem ℝ).advertisers i).isSome = true → i = 1 ∨ i = 2 := by
    intro i hi
    obtain ⟨adv, hadv⟩ := Option.isSome_iff_exists.mp hi
    rcases twoConsumers_record (100 : ℝ) 100 (1 / 4) (3 / 4) (23 / 20) GPG i adv hadv with
      ⟨h, _⟩ | ⟨h, _⟩
    · exact Or.inl h
    · exact Or.inr h
  have hbkeys : ∀ i, hasBudget ({ twoConsumers (100 : ℝ) 100 (1 / 4) (3 / 4) (23 / 20) GPG with
      time := 1 } : AdSystem ℝ).advertisers i = true → i = 1 ∨ i = 2 := by
    intro i hi
    obtain ⟨adv, hadv, _⟩ := hasBudget_isSome _ _ hi
    exact hkeys i (Option.isSome_iff_exists.mpr ⟨adv, hadv⟩)
  have hq : round64 (1 / 4 : ℝ) = 1 / 4 :=
    round64_eq_lo _ _ (-2) (-54) 4503599627370496 (by norm_num)
  have hq3 : round64 (3 / 4 : ℝ) = 3 / 4 :=
    round64_eq_lo _ _ (-1) (-53) 6755399441055744 (by norm_num)
  have hv1 : round64 (45 / 2 : ℝ) = 45 / 2 :=
    round64_eq_lo _ _ 4 (-48) 6333186975989760 (by norm_num)
  have hv2 : round64 (15 / 2 : ℝ) = 15 / 2 :=
    round64_eq_lo _ _ 2 (-50) 8444249301319680 (by norm_num)
  have hthm := selection_first_visited_order_independent_without_ties
    { twoConsumers (100 : ℝ) 100 (1 / 4) (3 / 4) (23 / 20) GPG with time := 1 } [1, 2] [2, 1]
    (twoBids 30 30) 3 hwf h12 h21
  refine ⟨hwf, h12, h21, hthm.2.2.1 ?_, hthm.2.2.2.1 ?_, hthm.2.2.2.2 ?_⟩
  · intro i j hi hj hv
    rcases hkeys i hi.2.2.1 with rfl | rfl <;> rcases hkeys j hj.2.2.1 with rfl | rfl
    · rfl
    · norm_num [gpgValue, twoConsumers, NewAdSystem, newAdSystemLoop, Function.update, bidAt,
        twoBids, calculateGForY] at hv
    · norm_num [gpgValue, twoConsumers, NewAdSystem, newAdSystemLoop, Function.update, bidAt,
        twoBids, calculateGForY] at hv
    · rfl
  · intro i j hi hj _ _ hv
    rcases hbkeys i hi with rfl | rfl <;> rcases hbkeys j hj with rfl | rfl
    · rfl
    · norm_num [paValue, calculateG, twoConsumers, NewAdSystem, newAdSystemLoop,
        Function.update, bidAt, twoBids] at hv
    · norm_num [paValue, calculateG, twoConsumers, NewAdSystem, newAdSystemLoop,
        Function.update, bidAt, twoBids] at hv
    · rfl
  · intro i j hi hj _ _ hv
    rcases hbkeys i hi with rfl | rfl <;> rcases hbkeys j hj with rfl | rfl
    · rfl
    · norm_num [paValueFl, calculateGFl, twoConsumers, NewAdSystem, newAdSystemLoop,
        Function.update, bidAt, twoBids, round64_zero, round64_one, hq, hq3, hv1, hv2] at hv
    · norm_num [paValueFl, calculateGFl, twoConsumers, NewAdSystem, newAdSystemLoop,
        Function.update, bidAt, twoBids, round64_zero, round64_one, hq, hq3, hv1, hv2] at hv
    · rfl

/-- C10. No positive bids: when every bid is absent or `≤ 0`, `processPartialAllocation`
(with any fuel `> 0`) returns the empty map and `processGPG` returns `-1`, and both leave
the whole state, budgets and availability flags included, as it was. -/
theorem no_positive_bids_no_allocation (a : AdSystem ℝ) (order : List Int)
    (bids : Int → Option ℝ) (fuel : Nat) (hfuel : 0 < fuel)
    (hbids : ∀ id, bidAt bids id ≤ 0) :
    processPartialAllocation Real.exp fuel a order bids = some (a, []) ∧
      processGPG Real.exp a order bids = some (a, -1) := by
  constructor
  · obtain ⟨n, rfl⟩ : ∃ n, fuel = n + 1 := ⟨fuel - 1, by omega⟩
    have hloop : paLoop bids (calculateG Real.exp a a.time) (n + 1)
        { sys := a, allocations := [], delta := 0, available := initialAvailable a order } =
        some { sys := a, allocations := [], delta := 0,
               available := initialAvailable a order } := by
      simp only [paLoop, paBody, selectBest_no_positive_bid _ bids _ hbids]
      split <;> rfl
    simp only [processPartialAllocation, hloop]
  · simp [processGPG, gpgScan_no_positive_bid Real.exp a bids hbids]

/-- C10, at a concrete input: consumers `1` and `2` with budgets `100`; consumer `1` bids
`0`, consumer `2` bids `-5`. -/
theorem no_positive_bids_no_allocation_witness :
    (0 < 1) ∧ (∀ id, bidAt (twoBids (0 : ℝ) (-5)) id ≤ 0) ∧
    processPartialAllocation Real.exp 1
        (twoConsumers (100 : ℝ) 100 (1 / 5) (4 / 5) (23 / 20) PartialAllocation) [1, 2]
        (twoBids 0 (-5)) =
      some (twoConsumers (100 : ℝ) 100 (1 / 5) (4 / 5) (23 / 20) PartialAllocation, []) ∧
    processGPG Real.exp
        (twoConsumers (100 : ℝ) 100 (1 / 5) (4 / 5) (23 / 20) PartialAllocation) [1, 2]
        (twoBids 0 (-5)) =
      some (twoConsumers (100 : ℝ) 100 (1 / 5) (4 / 5) (23 / 20) PartialAllocation, -1) :=
  have hb : ∀ id, bidAt (twoBids (0 : ℝ) (-5)) id ≤ 0 := by
    intro id
    unfold bidAt twoBids
    split_ifs <;> norm_num
  ⟨by decide, hb, no_positive_bids_no_allocation _ [1, 2] (twoBids 0 (-5)) 1 (by decide) hb⟩

/-- C11. Lower sample wins under GPG: for `beta > 0` the function `g(y) = exp(beta*(y-1))`
is strictly increasing, and when two available consumers with samples `Y1 < Y2` (`Y1 < 1`)
place the same positive bid `b` that both can afford and nobody else bids, `processGPG`
returns the first, whose `Budget` drops by `b`, and leaves the record of the second as it
was. -/
theorem processGPG_lower_sample_wins (a : AdSystem ℝ) (order : List Int)
    (bids : Int → Option ℝ) (i1 i2 : Int) (adv1 adv2 : Advertiser ℝ) (b : ℝ)
    (hwf : a.WF) (henum : Enumerates order a.availableI) (hbeta : 0 < a.beta)
    (h1 : a.advertisers i1 = some adv1) (h2 : a.advertisers i2 = some adv2)
    (hid1 : i1 ≠ -1) (hid2 : i2 ≠ -1)
    (hav1 : availableAt a.availableI i1 = true) (hav2 : availableAt a.availableI i2 = true)
    (hY : adv1.Y < adv2.Y) (hY1 : adv1.Y < 1)
    (hb : 0 < b) (hb1 : bids i1 = some b) (hb2 : bids i2 = some b)
    (hB1 : b ≤ adv1.Budget) (hB2 : b ≤ adv2.Budget)
    (hothers : ∀ j, j ≠ i1 → j ≠ i2 → bidAt bids j ≤ 0) :
    (∀ y1 y2 : ℝ, y1 < y2 → calculateGForY Real.exp a y1 < calculateGForY Real.exp a y2) ∧
    ∃ a', processGPG Real.exp a order bids = some (a', i1) ∧
      a'.advertisers i1 = some { adv1 with Budget := adv1.Budget - b } ∧
      a'.advertisers i2 = some adv2 := by
  have hmono : ∀ y1 y2 : ℝ, y1 < y2 →
      calculateGForY Real.exp a y1 < calculateGForY Real.exp a y2 := by
    intro y1 y2 h
    unfold calculateGForY
    exact Real.exp_lt_exp.mpr (mul_lt_mul_of_pos_left (by linarith) hbeta)
  refine ⟨hmono, ?_⟩
  have hbid1 : bidAt bids i1 = b := by simp [bidAt, hb1]
  have hbid2 : bidAt bids i2 = b := by simp [bidAt, hb2]
  have hne12 : i1 ≠ i2 := by
    intro h
    rw [h, h2] at h1
    rw [Option.some.inj h1] at hY
    exact lt_irrefl _ hY
  have he1 : gpgEligible a a.availableI bids i1 :=
    ⟨hav1, by rw [hbid1]; exact hb, by simp [h1], by simpa [budgetAt, h1, hbid1] using hB1⟩
  have he2 : gpgEligible a a.availableI bids i2 :=
    ⟨hav2, by rw [hbid2]; exact hb, by simp [h2], by simpa [budgetAt, h2, hbid2] using hB2⟩
  have hv1 : gpgValue Real.exp a bids i1 = b * (1 - calculateGForY Real.exp a adv1.Y) := by
    simp [gpgValue, h1, hbid1]
  have hv2 : gpgValue Real.exp a bids i2 = b * (1 - calculateGForY Real.exp a adv2.Y) := by
    simp [gpgValue, h2, hbid2]
  have hlt : gpgValue Real.exp a bids i2 < gpgValue Real.exp a bids i1 := by
    rw [hv1, hv2]
    exact mul_lt_mul_of_pos_left (by linarith [hmono _ _ hY]) hb
  have hpos : 0 < gpgValue Real.exp a bids i1 := by
    rw [hv1]
    have hlt1 : calculateGForY Real.exp a adv1.Y < 1 := by
      have hneg : a.beta * (adv1.Y - 1) < 0 := mul_neg_of_pos_of_neg hbeta (by linarith)
      have := Real.exp_lt_exp.mpr hneg
      rwa [Real.exp_zero] at this
    exact mul_pos hb (by linarith)
  have hm1 : i1 ∈ order := (henum.2 i1).mpr (isSome_of_availableAt _ _ hav1)
  obtain ⟨_, w, hrunp, _, _, hw, hno⟩ := processGPG_props Real.exp a order bids hwf
  have hwne : w ≠ -1 := by
    intro hw1
    rcases hno hw1 with he | hall
    · have hbm : 0 < bidAt bids (-1) := he.2.1
      exact absurd (hothers (-1) (Ne.symm hid1) (Ne.symm hid2)) (not_le.mpr hbm)
    · have := hall i1 hm1 he1
      linarith
  obtain ⟨_, hew, _, hmax, _⟩ := hw hwne
  have hw1 : w = i1 := by
    by_contra hwn
    by_cases hw2 : w = i2
    · have := hmax i1 hm1 he1
      rw [hw2] at this
      linarith
    · exact absurd (hothers w hwn hw2) (not_le.mpr hew.2.1)
  obtain ⟨a', w', st, hrun, _, _, hres⟩ := processGPG_full Real.exp a order bids hwf
  have hww : w' = w := by
    rw [hrunp] at hrun
    exact (Prod.mk.inj (Option.some.inj hrun)).2.symm
  rw [hww, hw1] at hres hrun
  obtain ⟨_, adv, hadv, ha'⟩ := hres hid1
  rw [h1] at hadv
  obtain rfl := Option.some.inj hadv
  refine ⟨a', hrun, ?_, ?_⟩
  · rw [ha', hbid1]
    simp
  · rw [ha']
    simp [Function.update_noteq (Ne.symm hne12), h2]

/-- C11, at the input of Scenario A: budgets `100` and `100`, samples `0.2` and `0.8`,
`beta = 1.15`, both bidding `30`; consumer `1` wins and its `Budget` becomes `70`. -/
theorem processGPG_lower_sample_wins_witness :
    (twoConsumers (100 : ℝ) 100 (1 / 5) (4 / 5) (23 / 20) GPG).WF ∧
    Enumerates [1, 2] (twoConsumers (100 : ℝ) 100 (1 / 5) (4 / 5) (23 / 20) GPG).availableI ∧
    (0 : ℝ) < (twoConsumers (100 : ℝ) 100 (1 / 5) (4 / 5) (23 / 20) GPG).beta ∧
    ∃ a', processGPG Real.exp (twoConsumers (100 : ℝ) 100 (1 / 5) (4 / 5) (23 / 20) GPG)
        [1, 2] (twoBids 30 30) = some (a', 1) ∧
      a'.advertisers 1 = some { ID := 1, InitialBudget := 100, Budget := 70, Y := 1 / 5 } ∧
      a'.advertisers 2 = some { ID := 2, InitialBudget := 100, Budget := 100, Y := 4 / 5 } := by
  have hbeta : (0 : ℝ) < (twoConsumers (100 : ℝ) 100 (1 / 5) (4 / 5) (23 / 20) GPG).beta := by
    norm_num [twoConsumers, NewAdSystem]
  obtain ⟨_, a', hrun, hr1, hr2⟩ :=
    processGPG_lower_sample_wins (twoConsumers (100 : ℝ) 100 (1 / 5) (4 / 5) (23 / 20) GPG)
      [1, 2] (twoBids 30 30) 1 2
      { ID := 1, InitialBudget := 100, Budget := 100, Y := 1 / 5 }
      { ID := 2, InitialBudget := 100, Budget := 100, Y := 4 / 5 } 30
      (NewAdSystem_WF _ _ _ _)
      (twoConsumers_enumerates _ _ _ _ _ _ [1, 2] (by decide) (by simp)).1 hbeta
      (twoConsumers_one _ _ _ _ _ _).1 (twoConsumers_two _ _ _ _ _ _).1
      (by decide) (by decide)
      (twoConsumers_one _ _ _ _ _ _).2 (twoConsumers_two _ _ _ _ _ _).2
      (by norm_num) (by norm_num) (by norm_num)
      (by simp [twoBids]) (by simp [twoBids])
      (by norm_num) (by norm_num)
      (fun j hj1 hj2 => twoBids_others _ _ j hj1 hj2)
  refine ⟨NewAdSystem_WF _ _ _ _,
    (twoConsumers_enumerates _ _ _ _ _ _ [1, 2] (by decide) (by simp)).1, hbeta,
    a', hrun, ?_, hr2⟩
  rw [hr1]
  norm_num

/-- C12 fails on the code, which computes in `float64`. On the first arrival (`time = 1`)
a single consumer with `Budget = 13` bids `23`. Pass 1 allocates `fl(13/23)` and leaves
`Budget = 13 - fl(23 * fl(13/23)) = 2^-49 > 0`, so the consumer stays available; pass 2
selects it again and line 115 overwrites its fraction with `fl(2^-49 / 23)`, about
`7.7e-17`. The returned map is `{1: 7.7e-17}`, whose entry is below `min(1, 13/23)`, exact
or rounded. -/
theorem processPartialAllocation_float_single_bidder :
    ∃ a' m, processPartialAllocationFl round64 Real.exp 2
        { oneConsumer (13 : ℝ) 0 1 PartialAllocation with time := 1 } [1] (oneBid 23) =
        some (a', m) ∧
      m = [(1, 1566469435607129 / 2 ^ 104)] ∧
      mapGet m 1 < min 1 (13 / 23) ∧ mapGet m 1 < min 1 (round64 (13 / 23)) ∧
      a'.advertisers 1 = some { ID := 1, InitialBudget := 13, Budget := 0, Y := 0 } := by
  have hrun : ∃ a', processPartialAllocationFl round64 Real.exp 2
      { oneConsumer (13 : ℝ) 0 1 PartialAllocation with time := 1 } [1] (oneBid 23) =
        some (a', [(1, 1566469435607129 / 2 ^ 104)]) ∧
      a'.advertisers 1 = some { ID := 1, InitialBudget := 13, Budget := 0, Y := 0 } := by
    norm_num [processPartialAllocationFl, calculateGFl, paLoopFl, paGuard, paBodyFl,
      selectBestFl, paAllocateFl, paRefresh, initialAvailable, hasBudget, oneConsumer,
      twoConsumers, NewAdSystem, newAdSystemLoop, bidAt, oneBid, twoBids, mapSet, mapSum,
      paWinnersFl, Function.update, round64_zero, round64_one, round64_fact_1, round64_fact_2,
      round64_fact_3, round64_fact_4, round64_fact_5, round64_fact_6, round64_fact_7,
      round64_fact_8, round64_fact_9, round64_fact_10, round64_fact_11, round64_fact_12,
      round64_fact_13, round64_fact_14, round64_fact_15]
  obtain ⟨a', hres, hadv⟩ := hrun
  refine ⟨a', _, hres, rfl, ?_, ?_, hadv⟩
  · norm_num [mapGet]
  · norm_num [mapGet, round64_fact_2]

/-- C13. Retirement threshold: when `processGPG` returns a winner `w` (not `-1`), after
the call `w` is marked available exactly when its resulting `Budget` is `≥ 0.01`; so a
resulting `Budget` of `0.009` retires `w` and a resulting `Budget` of exactly `0.01` does
not. -/
theorem processGPG_retirement_threshold (a : AdSystem ℝ) (order : List Int)
    (bids : Int → Option ℝ) (hwf : a.WF) :
    ∃ a' w, processGPG Real.exp a order bids = some (a', w) ∧
      (w ≠ -1 →
        (availableAt a'.availableI w = true ↔ 1 / 100 ≤ budgetAt a' w) ∧
        (budgetAt a' w = 9 / 1000 → availableAt a'.availableI w = false) ∧
        (budgetAt a' w = 1 / 100 → availableAt a'.availableI w = true)) := by
  obtain ⟨a', w, st, hrun, hA, _, hres⟩ := processGPG_full Real.exp a order bids hwf
  refine ⟨a', w, hrun, fun hne => ?_⟩
  obtain ⟨he, adv, hadv, ha'⟩ := hres hne
  have hbud : budgetAt a' w = adv.Budget - bidAt bids w := by
    rw [ha']
    simp [budgetAt]
  have hstw : availableAt st.availableI w = true := by
    have hcond : ¬ (w ∈ order ∧ availableAt a.availableI w = true ∧ 0 < bidAt bids w ∧
        budgetAt a w < bidAt bids w) := fun h => absurd he.2.2.2 (not_le.mpr h.2.2.2)
    have := hA w
    rw [if_neg hcond] at this
    unfold availableAt
    rw [this]
    exact he.1
  have hiff : availableAt a'.availableI w = true ↔ 1 / 100 ≤ budgetAt a' w := by
    rw [hbud, ha']
    by_cases hlt : adv.Budget - bidAt bids w < 1 / 100
    · simp only [hlt, if_true, availableAt_update_false]
      have hnle : ¬ (1 / 100 ≤ adv.Budget - bidAt bids w) := not_le.mpr hlt
      simp only [if_true, hnle]
      simp
    · simp only [hlt, if_false, hstw, true_iff]
      exact not_lt.mp hlt
  refine ⟨hiff, fun h => ?_, fun h => hiff.mpr (by rw [h])⟩
  cases hav : availableAt a'.availableI w with
  | false => rfl
  | true =>
    have := hiff.mp hav
    rw [h] at this
    norm_num at this

/-- C13, at the input of Scenario D: a consumer with `Budget = 30.009` that bids `30`. -/
theorem processGPG_retirement_threshold_witness :
    (oneConsumer (30 + 9 / 1000 : ℝ) (1 / 5) (23 / 20) GPG).WF ∧
    ∃ a' w, processGPG Real.exp (oneConsumer (30 + 9 / 1000 : ℝ) (1 / 5) (23 / 20) GPG) [1]
        (oneBid 30) = some (a', w) ∧
      (w ≠ -1 →
        (availableAt a'.availableI w = true ↔ 1 / 100 ≤ budgetAt a' w) ∧
        (budgetAt a' w = 9 / 1000 → availableAt a'.availableI w = false) ∧
        (budgetAt a' w = 1 / 100 → availableAt a'.availableI w = true)) :=
  ⟨NewAdSystem_WF _ _ _ _,
    processGPG_retirement_threshold _ [1] (oneBid 30) (NewAdSystem_WF _ _ _ _)⟩

/-- C14. Lazy ineligibility: a consumer that is available and bids a positive amount above
its `Budget` is marked unavailable by `processGPG`, is not the returned winner and keeps its
record; and it wins none of the later arrivals, whatever it bids then. -/
theorem processGPG_lazy_ineligibility (a : AdSystem ℝ) (order : List Int)
    (bids : Int → Option ℝ) (j : Int) (advj : Advertiser ℝ)
    (later : List (List Int × (Int → Option ℝ))) (hwf : a.WF)
    (henum : Enumerates order a.availableI) (hj : a.advertisers j = some advj)
    (hav : availableAt a.availableI j = true) (hbid : 0 < bidAt bids j)
    (hshort : advj.Budget < bidAt bids j) :
    ∃ a' w, processGPG Real.exp a order bids = some (a', w) ∧
      availableAt a'.availableI j = false ∧ (w ≠ -1 → w ≠ j) ∧
      a'.advertisers j = some advj ∧
      ∃ a'' ws, runGPG Real.exp a' later = some (a'', ws) ∧ ws.length = later.length ∧
        availableAt a''.availableI j = false ∧ ∀ w' ∈ ws, w' ≠ -1 → w' ≠ j := by
  obtain ⟨a', w, st, hrun, hA, hres1, hres2⟩ := processGPG_full Real.exp a order bids hwf
  obtain ⟨a1, w1, hrunp, hwf', _⟩ := processGPG_props Real.exp a order bids hwf
  have ha1 : a1 = a' := by
    rw [hrunp] at hrun
    exact (Prod.mk.inj (Option.some.inj hrun)).1
  subst ha1
  have hbudj : budgetAt a j = advj.Budget := by simp [budgetAt, hj]
  have hstj : st.availableI j = some false := by
    have hm : j ∈ order := (henum.2 j).mpr (isSome_of_availableAt _ _ hav)
    rw [hA j, if_pos ⟨hm, hav, hbid, by rw [hbudj]; exact hshort⟩]
  have hwj : w ≠ -1 → w ≠ j := by
    intro hne heq
    obtain ⟨he, _⟩ := hres2 hne
    rw [heq] at he
    have := he.2.2.2
    rw [hbudj] at this
    exact absurd this (not_le.mpr hshort)
  have hflag : availableAt a1.availableI j = false ∧ a1.advertisers j = some advj := by
    by_cases hne : w = -1
    · rw [hres1 hne]
      exact ⟨by simp [availableAt, hstj], hj⟩
    · obtain ⟨_, adv, _, ha'⟩ := hres2 hne
      have hjw : j ≠ w := Ne.symm (hwj hne)
      rw [ha']
      refine ⟨?_, by simp [Function.update_noteq hjw, hj]⟩
      simp only
      split
      · simp [availableAt, Function.update_noteq hjw, hstj]
      · simp [availableAt, hstj]
  obtain ⟨a'', ws, hrun2, _, hlen, hrest⟩ := runGPG_unavailable Real.exp later a1 hwf'
  exact ⟨a1, w, hrun, hflag.1, hwj, hflag.2, a'', ws, hrun2, hlen, hrest j hflag.1⟩

/-- C14, at a concrete input: consumer `1` with `Budget = 100` bids `300` and is retired; on
the next arrival it bids `30`, which its `Budget` covers, and does not win. -/
theorem processGPG_lazy_ineligibility_witness :
    (twoConsumers (100 : ℝ) 100 (1 / 5) (4 / 5) (23 / 20) GPG).WF ∧
    Enumerates [1, 2] (twoConsumers (100 : ℝ) 100 (1 / 5) (4 / 5) (23 / 20) GPG).availableI ∧
    (100 : ℝ) < bidAt (twoBids 300 30) 1 ∧
    ∃ a' w, processGPG Real.exp (twoConsumers (100 : ℝ) 100 (1 / 5) (4 / 5) (23 / 20) GPG)
        [1, 2] (twoBids 300 30) = some (a', w) ∧
      availableAt a'.availableI 1 = false ∧ (w ≠ -1 → w ≠ 1) ∧
      a'.advertisers 1 = some { ID := 1, InitialBudget := 100, Budget := 100, Y := 1 / 5 } ∧
      ∃ a'' ws, runGPG Real.exp a' [([2, 1], twoBids 30 30)] = some (a'', ws) ∧
        ws.length = [([2, 1], twoBids (30 : ℝ) 30)].length ∧
        availableAt a''.availableI 1 = false ∧ ∀ w' ∈ ws, w' ≠ -1 → w' ≠ 1 :=
  have hb : (100 : ℝ) < bidAt (twoBids 300 30) 1 := by norm_num [bidAt, twoBids]
  ⟨NewAdSystem_WF _ _ _ _,
    (twoConsumers_enumerates _ _ _ _ _ _ [1, 2] (by decide) (by simp)).1, hb,
    processGPG_lazy_ineligibility _ [1, 2] (twoBids 300 30) 1
      { ID := 1, InitialBudget := 100, Budget := 100, Y := 1 / 5 }
      [([2, 1], twoBids 30 30)] (NewAdSystem_WF _ _ _ _)
      (twoConsumers_enumerates _ _ _ _ _ _ [1, 2] (by decide) (by simp)).1
      (twoConsumers_one _ _ _ _ _ _).1 (twoConsumers_one _ _ _ _ _ _).2
      (lt_trans (by norm_num) hb) hb⟩

/-- C15. Time counter: `NewAdSystem` sets the time to `0`; every call of `ProcessNewArrival`
on a well-formed state returns a state whose time is larger by exactly `1`, for every
algorithm type; after `n` arrivals the time is `n`; and under `PartialAllocation` the next
arrival, the `(n+1)`-th, is handled by `processPartialAllocation` on the state with the
advanced time, where `calculateG` is taken at `t = n + 1 ≥ 1` and equals
`exp(beta * ((n+1) - 1))`, which is `1` on the first arrival. -/
theorem ProcessNewArrival_time_counter (rand : Nat → ℝ) (advs : List (Advertiser ℝ))
    (beta : ℝ) (algType : AlgorithmType) (a : AdSystem ℝ)
    (arrivals : List (List Int × (Int → Option ℝ))) (order : List Int)
    (bids : Int → Option ℝ) (fuel : Nat) (hwf : a.WF) (hfuel : order.length < fuel)
    (hfuels : ∀ arr ∈ arrivals, arr.1.length < fuel) :
    (NewAdSystem rand advs beta algType).time = 0 ∧
    (∃ a2 r, ProcessNewArrival Real.exp fuel a order bids = some (a2, r) ∧
      a2.time = a.time + 1) ∧
    ∃ a', runArrivals Real.exp fuel (NewAdSystem rand advs beta algType) arrivals = some a' ∧
      a'.time = arrivals.length ∧
      ∃ a'' r, ProcessNewArrival Real.exp fuel a' order bids = some (a'', r) ∧
        a''.time = (arrivals.length : Int) + 1 ∧
        (algType = PartialAllocation →
          ProcessNewArrival Real.exp fuel a' order bids =
            (match processPartialAllocation Real.exp fuel { a' with time := a'.time + 1 }
                order bids with
              | none => none
              | some (a2, m) => some (a2, Result.allocations m)) ∧
          calculateG Real.exp { a' with time := a'.time + 1 } (a'.time + 1) =
            Real.exp (beta * (((arrivals.length : ℝ) + 1) - 1)) ∧
          (1 : Int) ≤ a'.time + 1 ∧
          (arrivals = [] →
            calculateG Real.exp { a' with time := a'.time + 1 } (a'.time + 1) = 1)) := by
  refine ⟨rfl, ?_, ?_⟩
  · obtain ⟨a2, r, hrun, _, ht, _⟩ := ProcessNewArrival_frame Real.exp fuel a order bids hwf hfuel
    exact ⟨a2, r, hrun, ht⟩
  · obtain ⟨a', hrun, hwf', ht, hb, hal⟩ :=
      runArrivals_frame Real.exp fuel arrivals (NewAdSystem rand advs beta algType)
        (NewAdSystem_WF _ _ _ _) hfuels
    have ht' : a'.time = arrivals.length := by
      rw [ht]
      show (0 : Int) + _ = _
      simp
    have hb' : a'.beta = beta := hb
    have hal' : a'.algorithmType = algType := hal
    obtain ⟨a'', r, hrun2, _, ht2, _⟩ :=
      ProcessNewArrival_frame Real.exp fuel a' order bids hwf' hfuel
    refine ⟨a', hrun, ht', a'', r, hrun2, by rw [ht2, ht'], fun halg => ?_⟩
    have hg : calculateG Real.exp { a' with time := a'.time + 1 } (a'.time + 1) =
        Real.exp (beta * (((arrivals.length : ℝ) + 1) - 1)) := by
      simp only [calculateG, hb', ht']
      push_cast
      rfl
    refine ⟨?_, hg, by rw [ht']; omega, fun hnil => ?_⟩
    · rw [halg] at hal'
      unfold ProcessNewArrival
      simp only [hal', if_true]
      generalize processPartialAllocation Real.exp fuel _ order bids = x
      cases x with
      | none => rfl
      | some p => rfl
    · rw [hg, hnil]
      simp

/-- C15, at a concrete input: two arrivals on the system of the consumers `1` and `2`, then
a third one. -/
theorem ProcessNewArrival_time_counter_witness :
    (twoConsumers (10 : ℝ) 100 (1 / 5) (4 / 5) (23 / 20) PartialAllocation).WF ∧
    ∃ a', runArrivals Real.exp 3
        (twoConsumers (10 : ℝ) 100 (1 / 5) (4 / 5) (23 / 20) PartialAllocation)
        [([1, 2], twoBids 15 30), ([2, 1], twoBids 5 30)] = some a' ∧
      a'.time = 2 ∧
      ∃ a'' r, ProcessNewArrival Real.exp 3 a' [1, 2] (twoBids 5 5) = some (a'', r) ∧
        a''.time = 3 := by
  obtain ⟨_, _, a', hrun, ht, a'', r, hrun2, ht2, _⟩ :=
    ProcessNewArrival_time_counter (fun i => if i = 0 then (1 / 5 : ℝ) else 4 / 5)
      [{ ID := 1, InitialBudget := 10, Budget := 10, Y := 0 },
       { ID := 2, InitialBudget := 100, Budget := 100, Y := 0 }] (23 / 20) PartialAllocation
      (twoConsumers (10 : ℝ) 100 (1 / 5) (4 / 5) (23 / 20) PartialAllocation)
      [([1, 2], twoBids 15 30), ([2, 1], twoBids 5 30)] [1, 2] (twoBids 5 5) 3
      (NewAdSystem_WF _ _ _ _) (by decide)
      (by
        intro arr harr
        simp only [List.mem_cons, List.mem_singleton, List.not_mem_nil, or_false] at harr
        rcases harr with rfl | rfl <;> decide)
  exact ⟨NewAdSystem_WF _ _ _ _, a', hrun, by simpa using ht, a'', r, hrun2,
    by simpa using ht2⟩

/-- C16. Partial allocation only pays eligible bidders: every entry `(id, f)` of the returned
map belongs to a consumer that had `Budget > 0` and a bid `> 0` at the start, with
`0 < f ≤ 1`; a consumer with `Budget ≤ 0`, or with an absent, zero or negative bid, is not a
key of the map and keeps its record. -/
theorem processPartialAllocation_pays_eligible_only (a : AdSystem ℝ) (order : List Int)
    (bids : Int → Option ℝ) (fuel : Nat) (hwf : a.WF)
    (hfuel : (positiveBidders bids (initialAvailable a order)).length < fuel) :
    ∃ a' allocs, processPartialAllocation Real.exp fuel a order bids = some (a', allocs) ∧
      (∀ id f, (id, f) ∈ allocs →
        (∃ adv, a.advertisers id = some adv ∧ 0 < adv.Budget) ∧ 0 < bidAt bids id ∧
          0 < f ∧ f ≤ 1) ∧
      (∀ id, (budgetAt a id ≤ 0 ∨ bidAt bids id ≤ 0) →
        id ∉ mapKeys allocs ∧ a'.advertisers id = a.advertisers id) := by
  obtain ⟨s', _, hrun, hinv, _⟩ :=
    processPartialAllocation_loop Real.exp fuel a order bids hwf hfuel
  have hentry : ∀ id f, (id, f) ∈ s'.allocations → 0 < f := by
    intro id f hmem
    have := (hinv.key_props id (mem_mapKeys_of_mem _ _ _ hmem)).1
    rwa [mapGet_of_mem _ _ _ hinv.keys_nodup hmem] at this
  refine ⟨_, _, hrun, fun id f hmem => ?_, fun id hid => ?_⟩
  · obtain ⟨_, hbid, adv0, hadv0, hB, _⟩ :=
      hinv.key_props id (mem_mapKeys_of_mem _ _ _ hmem)
    refine ⟨⟨adv0, hadv0, hB⟩, hbid, hentry id f hmem, ?_⟩
    have hle := (mapGet_le_mapSum s'.allocations id
      (fun p hp => le_of_lt (hentry p.1 p.2 hp))).2
    rw [mapGet_of_mem _ _ _ hinv.keys_nodup hmem, hinv.sum_eq] at hle
    exact le_trans hle hinv.delta_le
  · have hnk : id ∉ mapKeys s'.allocations := by
      intro hk
      obtain ⟨_, hbid, adv0, hadv0, hB, _⟩ := hinv.key_props id hk
      rcases hid with h | h
      · simp only [budgetAt, hadv0] at h
        exact absurd hB (not_lt.mpr h)
      · exact absurd hbid (not_lt.mpr h)
    refine ⟨hnk, ?_⟩
    rw [hinv.records id, mapGet_of_not_mem _ _ hnk]
    cases a.advertisers id with
    | none => rfl
    | some adv0 => simp

/-- C16, at a concrete input: consumers `1` and `2` with budgets `10` and `100` bid `15` and
`30` on the first arrival. -/
theorem processPartialAllocation_pays_eligible_only_witness :
    (twoConsumers (10 : ℝ) 100 (1 / 5) (4 / 5) (23 / 20) PartialAllocation).WF ∧
    ∃ a' allocs, processPartialAllocation Real.exp 3
        (twoConsumers (10 : ℝ) 100 (1 / 5) (4 / 5) (23 / 20) PartialAllocation) [1, 2]
        (twoBids 15 30) = some (a', allocs) ∧
      (∀ id f, (id, f) ∈ allocs →
        (∃ adv,
          (twoConsumers (10 : ℝ) 100 (1 / 5) (4 / 5) (23 / 20) PartialAllocation).advertisers id
            = some adv ∧ 0 < adv.Budget) ∧
          0 < bidAt (twoBids (15 : ℝ) 30) id ∧ 0 < f ∧ f ≤ 1) ∧
      (∀ id,
        (budgetAt (twoConsumers (10 : ℝ) 100 (1 / 5) (4 / 5) (23 / 20) PartialAllocation) id ≤ 0
          ∨ bidAt (twoBids (15 : ℝ) 30) id ≤ 0) →
        id ∉ mapKeys allocs ∧ a'.advertisers id =
          (twoConsumers (10 : ℝ) 100 (1 / 5) (4 / 5) (23 / 20) PartialAllocation).advertisers
            id) :=
  ⟨NewAdSystem_WF _ _ _ _,
    processPartialAllocation_pays_eligible_only _ [1, 2] (twoBids 15 30) 3
      (NewAdSystem_WF _ _ _ _)
      (lt_of_le_of_lt (positiveBidders_length_le _ _ _) (by decide))⟩

/-- C17 as stated fails: `NewAdSystem` has no error result and does not reject a batch with
two records of the same id.  Given the records `{ID: 1, Budget: 100}` and
`{ID: 1, Budget: 50}` it returns a system whose only key is `1`, holding the second record;
the first is dropped without any report. -/
theorem NewAdSystem_duplicate_id_counterexample :
    (NewAdSystem (fun i => if i = 0 then (1 / 5 : ℝ) else 4 / 5)
        [{ ID := 1, InitialBudget := 100, Budget := 100, Y := 0 },
         { ID := 1, InitialBudget := 50, Budget := 50, Y := 0 }] (23 / 20) GPG).advertisers 1 =
      some { ID := 1, InitialBudget := 50, Budget := 50, Y := 4 / 5 } ∧
    (NewAdSystem (fun i => if i = 0 then (1 / 5 : ℝ) else 4 / 5)
        [{ ID := 1, InitialBudget := 100, Budget := 100, Y := 0 },
         { ID := 1, InitialBudget := 50, Budget := 50, Y := 0 }] (23 / 20) GPG).availableI 1 =
      some true ∧
    ∀ k, k ≠ 1 →
      (NewAdSystem (fun i => if i = 0 then (1 / 5 : ℝ) else 4 / 5)
        [{ ID := 1, InitialBudget := 100, Budget := 100, Y := 0 },
         { ID := 1, InitialBudget := 50, Budget := 50, Y := 0 }] (23 / 20) GPG).advertisers k =
      none := by
  refine ⟨?_, ?_, fun k hk => ?_⟩
  · simp [NewAdSystem, newAdSystemLoop]
  · simp [NewAdSystem, newAdSystemLoop]
  · simp [NewAdSystem, newAdSystemLoop, Function.update_noteq hk]

/-- C17, amended. `NewAdSystem` never fails; when several records of the batch have the same
id, the last of them is the one stored under that id, with its own sample and marked
available, and the earlier ones are dropped. -/
theorem NewAdSystem_keeps_last_duplicate (rand : Nat → ℝ) (advs pre post : List (Advertiser ℝ))
    (adv : Advertiser ℝ) (beta : ℝ) (algType : AlgorithmType)
    (hsplit : advs = pre ++ adv :: post) (hlast : ∀ x ∈ post, x.ID ≠ adv.ID) :
    (NewAdSystem rand advs beta algType).advertisers adv.ID =
        some { adv with Y := rand pre.length } ∧
      (NewAdSystem rand advs beta algType).availableI adv.ID = some true ∧
      (NewAdSystem rand advs beta algType).WF := by
  subst hsplit
  obtain ⟨h1, h2⟩ := newAdSystemLoop_last rand adv post hlast pre 0 (fun _ => none)
    (fun _ => none)
  simp only [Nat.zero_add] at h1
  exact ⟨h1, h2, NewAdSystem_WF _ _ _ _⟩

/-- C17 amended, at a concrete input: two records with the id `1`. -/
theorem NewAdSystem_keeps_last_duplicate_witness :
    (NewAdSystem (fun i => if i = 0 then (1 / 5 : ℝ) else 4 / 5)
        [{ ID := 1, InitialBudget := 100, Budget := 100, Y := 0 },
         { ID := 1, InitialBudget := 50, Budget := 50, Y := 0 }] (23 / 20) GPG).advertisers 1 =
      some { ID := 1, InitialBudget := 50, Budget := 50, Y := 4 / 5 } ∧
    (NewAdSystem (fun i => if i = 0 then (1 / 5 : ℝ) else 4 / 5)
        [{ ID := 1, InitialBudget := 100, Budget := 100, Y := 0 },
         { ID := 1, InitialBudget := 50, Budget := 50, Y := 0 }] (23 / 20) GPG).availableI 1 =
      some true := by
  obtain ⟨h1, h2, _⟩ :=
    NewAdSystem_keeps_last_duplicate (fun i => if i = 0 then (1 / 5 : ℝ) else 4 / 5)
      [{ ID := 1, InitialBudget := 100, Budget := 100, Y := 0 },
       { ID := 1, InitialBudget := 50, Budget := 50, Y := 0 }]
      [{ ID := 1, InitialBudget := 100, Budget := 100, Y := 0 }] []
      { ID := 1, InitialBudget := 50, Budget := 50, Y := 0 } (23 / 20) GPG rfl (by simp)
  refine ⟨?_, h2⟩
  rw [h1]
  simp

/-- C18. Greedy selection in partial allocation: in every pass of the loop, the consumer
that the scan selects is in the current available list, has a positive bid, and its value
`bids[id] * (1 - g(t) * Y_id)`, with `g(t) = exp(beta * (t - 1))` for the current time `t`,
is at least the value of every consumer of that list with a positive bid. -/
theorem processPartialAllocation_greedy_selection (a : AdSystem ℝ) (order : List Int)
    (bids : Int → Option ℝ) (fuel : Nat) (hwf : a.WF) :
    calculateG Real.exp a a.time = Real.exp (a.beta * (((a.time - 1 : Int)) : ℝ)) ∧
    ∀ st ∈ paStates bids (calculateG Real.exp a a.time) fuel
        { sys := a, allocations := [], delta := 0, available := initialAvailable a order },
      ∀ w adv,
        (selectBest st.sys bids (calculateG Real.exp a a.time) st.available (none, -1)).1
          = some (w, adv) →
        w ∈ st.available ∧ 0 < bidAt bids w ∧ st.sys.advertisers w = some adv ∧
        paValue (calculateG Real.exp a a.time) a bids w =
          bidAt bids w * (1 - Real.exp (a.beta * (((a.time - 1 : Int)) : ℝ)) * adv.Y) ∧
        ∀ j ∈ st.available, 0 < bidAt bids j →
          paValue (calculateG Real.exp a a.time) a bids j ≤
            paValue (calculateG Real.exp a a.time) a bids w := by
  refine ⟨rfl, fun st hst w adv hsel => ?_⟩
  obtain ⟨hinv, _⟩ := paStates_inv a bids (calculateG Real.exp a a.time) hwf.1 fuel _
    (PAInv_init a order bids) st hst
  obtain ⟨_, hC, hD, _⟩ :=
    selectBest_spec st.sys bids (calculateG Real.exp a a.time) st.available none (-1)
  rcases hD with ⟨hn, _⟩ | ⟨w', adv', hr, hm, hadv, hbid, hval, _⟩
  · rw [hn] at hsel
    exact absurd hsel (by simp)
  · rw [hr] at hsel
    obtain ⟨rfl, rfl⟩ := Prod.mk.inj (Option.some.inj hsel)
    refine ⟨hm, hbid, hadv, ?_, fun j hj hbj => ?_⟩
    · rw [← paValue_of_PAInv a bids _ st hinv w']
      simp [paValue, hadv, calculateG]
    · obtain ⟨advj, hadvj, _⟩ := hasBudget_isSome _ _ (hinv.avail j hj)
      have := hC j hj hbj (by simp [hadvj])
      rw [← hval] at this
      rwa [paValue_of_PAInv a bids _ st hinv j, paValue_of_PAInv a bids _ st hinv w'] at this

/-- C18, at a concrete input: consumers `1` and `2` with budgets `10` and `100` bid `15` and
`30` on the first arrival. -/
theorem processPartialAllocation_greedy_selection_witness :
    (twoConsumers (10 : ℝ) 100 (1 / 5) (4 / 5) (23 / 20) PartialAllocation).WF ∧
    ∀ st ∈ paStates (twoBids (15 : ℝ) 30)
        (calculateG Real.exp
          (twoConsumers (10 : ℝ) 100 (1 / 5) (4 / 5) (23 / 20) PartialAllocation)
          (twoConsumers (10 : ℝ) 100 (1 / 5) (4 / 5) (23 / 20) PartialAllocation).time) 3
        { sys := twoConsumers (10 : ℝ) 100 (1 / 5) (4 / 5) (23 / 20) PartialAllocation,
          allocations := [], delta := 0,
          available := initialAvailable
            (twoConsumers (10 : ℝ) 100 (1 / 5) (4 / 5) (23 / 20) PartialAllocation) [1, 2] },
      ∀ w adv,
        (selectBest st.sys (twoBids (15 : ℝ) 30)
          (calculateG Real.exp
            (twoConsumers (10 : ℝ) 100 (1 / 5) (4 / 5) (23 / 20) PartialAllocation)
            (twoConsumers (10 : ℝ) 100 (1 / 5) (4 / 5) (23 / 20) PartialAllocation).time)
          st.available (none, -1)).1 = some (w, adv) →
        w ∈ st.available ∧ 0 < bidAt (twoBids (15 : ℝ) 30) w :=
  ⟨NewAdSystem_WF _ _ _ _, fun st hst w adv hsel =>
    have h := (processPartialAllocation_greedy_selection
      (twoConsumers (10 : ℝ) 100 (1 / 5) (4 / 5) (23 / 20) PartialAllocation) [1, 2]
      (twoBids 15 30) 3 (NewAdSystem_WF _ _ _ _)).2 st hst w adv hsel
    ⟨h.1, h.2.1⟩⟩

/-- C19 fails on the code, which computes in `float64`: with `Budget = 4` and a bid of `49`
on the first arrival there is `k = 1` consumer with a positive bid, but the loop never ends.
Every pass leaves a positive residue of the `Budget` (`4.4e-16`, `4.9e-32`, ...), after 21
passes the residue is the subnormal `23 * 2^-1074`, `Budget / bid` rounds to `0`, nothing
changes any more and the loop condition stays true: no amount of fuel gives a result. -/
theorem processPartialAllocation_float_never_returns :
    (positiveBidders (oneBid (49 : ℝ))
      (initialAvailable
        { oneConsumer (4 : ℝ) 0 1 PartialAllocation with time := 1 } [1])).length = 1 ∧
    ∀ fuel, processPartialAllocationFl round64 Real.exp fuel
      { oneConsumer (4 : ℝ) 0 1 PartialAllocation with time := 1 } [1] (oneBid 49) = none := by
  constructor
  · norm_num [positiveBidders, initialAvailable, hasBudget, oneConsumer, NewAdSystem,
      newAdSystemLoop, bidAt, oneBid]
  · intro fuel
    have hg : calculateGFl round64 Real.exp
        { oneConsumer (4 : ℝ) 0 1 PartialAllocation with time := 1 } 1 = 1 := by
      norm_num [calculateGFl, round64_zero, round64_one]
    have hinit : ({ sys := { oneConsumer (4 : ℝ) 0 1 PartialAllocation with time := 1 }
                    allocations := []
                    delta := 0
                    available := initialAvailable
                      { oneConsumer (4 : ℝ) 0 1 PartialAllocation with time := 1 } [1] } :
          PAState ℝ) =
        oneBidderState 4 4 0 [] := by
      norm_num [oneBidderState, oneConsumer, NewAdSystem, newAdSystemLoop, initialAvailable,
        hasBudget]
    have hloop := float49_pass_1 [] fuel
    simp only [processPartialAllocationFl]
    rw [hg, hinit, hloop]

/-- C20 fails on the code, which computes in `float64`. Consumers `1` and `2` with budgets
`13` and `100` and samples `0` and `0.5` bid `23` and `30` on the first arrival. Consumer `1`
is selected twice and its fraction `fl(13/23)` is overwritten with about `7.7e-17`; consumer
`2` then takes the remainder `1 - delta`, about `0.4348`. The returned fractions sum to about
`0.4348 < 1` although the recipient `2` keeps `Budget` about `86.96 > 0`. -/
theorem processPartialAllocation_float_partial_winner_sum :
    (∃ a', processPartialAllocationFl round64 Real.exp 3
        { twoConsumers (13 : ℝ) 100 0 (1 / 2) 1 PartialAllocation with time := 1 } [1, 2]
        (twoBids 23 30) =
        some (a', [(1, 1566469435607129 / 2 ^ 104), (2, 1958086794508911 / 4503599627370496)]) ∧
      (a'.advertisers 2).map (fun adv => adv.Budget) =
        some (1529755308210087 / 17592186044416)) ∧
    (0 : ℝ) < 1529755308210087 / 17592186044416 ∧
    mapSum [((1 : Int), (1566469435607129 / 2 ^ 104 : ℝ)),
      (2, 1958086794508911 / 4503599627370496)] < 1 := by
  refine ⟨?_, ?_, ?_⟩
  · norm_num [processPartialAllocationFl, calculateGFl, paLoopFl, paGuard, paBodyFl,
      selectBestFl, paAllocateFl, paRefresh, initialAvailable, hasBudget, oneConsumer,
      twoConsumers, NewAdSystem, newAdSystemLoop, bidAt, oneBid, twoBids, mapSet, mapSum,
      paWinnersFl, Function.update, round64_zero, round64_one, round64_fact_1, round64_fact_2,
      round64_fact_3, round64_fact_4, round64_fact_5, round64_fact_6, round64_fact_7,
      round64_fact_8, round64_fact_9, round64_fact_10, round64_fact_11, round64_fact_12,
      round64_fact_13, round64_fact_14, round64_fact_15]
  · norm_num
  · norm_num [mapSum]

end Claims

end BiddingSimulation
